import Mathlib

/-!
# AccountabilityPodTool: `script.js`

A shallow embedding of the state-carrying part of `script.js` (the member
registry, the merge of an AI response, the import of a data file, the
randomised call order, the rounds of a call and their countdowns) together
with the properties proved about it.

Conventions of the embedding.

* JavaScript values are the values `JSON.parse` can return, plus `undefined`
  (the result of reading a property that is not there) and `NaN` (a result of
  `parseInt`).  A whole Number is carried by its value, an `Int`; `-0` is not
  told apart from `0`, which nothing in the script can observe.  A Number that
  is not whole is carried by the string Number::toString gives for it.  The
  conversions between integers and Numbers round to 53 binary digits as
  IEEE 754 doubles do.
* Strings are sequences of Unicode scalar values.
* An object is the list of its own properties in insertion order.  A key that
  occurs twice is read at its last occurrence, as `JSON.parse` does.
* A computation that can throw returns `Except String _`; the string describes
  the thrown error (the wording of the message is the engine's own).
* The global variables `appData`, `callOrder`, `currentHotseatIndex` and
  `currentIntentionIndex` are passed explicitly.  Of the DOM only what the
  call flow writes is kept, in `Page`; `localStorage`, `alert` and `console`
  are not part of the state.
* `String.prototype.toLowerCase` and `JSON.parse` are parameters of the
  functions that call them.
-/

namespace AccountabilityPod

/-! ## JavaScript values -/

/-- JavaScript values: what `JSON.parse` produces, `undefined` and `NaN`.
`num n` is the whole Number `n`; `frac text` is a finite Number that is not
whole, given by the string it converts to (`7.5`, `1e-7`); `infinity` carries
its sign. -/
inductive JSValue where
  | undefined
  | null
  | bool (b : Bool)
  | num (n : Int)
  | str (s : String)
  | arr (items : List JSValue)
  | obj (props : List (String × JSValue))
  | nan
  | infinity (negative : Bool)
  | frac (text : String)

/-- The own properties of an object, in insertion order. -/
abbrev JSObject := List (String × JSValue)

namespace JSValue

/-- ToBoolean: `undefined`, `null`, `false`, `0`, `NaN` and `""` are falsy. -/
def truthy : JSValue → Bool
  | undefined => false
  | null => false
  | bool b => b
  | num n => decide (n ≠ 0)
  | str s => decide (s ≠ "")
  | arr _ => true
  | obj _ => true
  | nan => false
  | infinity _ => true
  | frac _ => true

/-- The operator `a || b`. -/
def orElse (a b : JSValue) : JSValue :=
  if a.truthy then a else b

/-- The operator `a === b` between values of different origin: primitives are
compared by value, `NaN` equals nothing, and two objects or arrays that are
not the same reference are never equal. -/
def strictEquals : JSValue → JSValue → Bool
  | undefined, undefined => true
  | null, null => true
  | bool a, bool b => decide (a = b)
  | num a, num b => decide (a = b)
  | str a, str b => decide (a = b)
  | infinity a, infinity b => decide (a = b)
  | frac a, frac b => decide (a = b)
  | _, _ => false

/-- The test `Array.isArray(v)`. -/
def isArray : JSValue → Bool
  | arr _ => true
  | _ => false

/-- The test `typeof v === 'string'`. -/
def isString : JSValue → Bool
  | str _ => true
  | _ => false

end JSValue

/-! ## Own properties -/

/-- The value stored under `k`, if `k` is an own property. -/
def findProp : JSObject → String → Option JSValue
  | [], _ => none
  | (k', v) :: rest, k =>
    match findProp rest k with
    | some w => some w
    | none => if k' = k then some v else none

/-- Reading `o.k` on an object `o`; `undefined` when `k` is not there. -/
def getProp (o : JSObject) (k : String) : JSValue :=
  (findProp o k).getD JSValue.undefined

/-- The test `o.hasOwnProperty(k)` of `Object.prototype`. -/
def hasOwn (o : JSObject) (k : String) : Bool :=
  (findProp o k).isSome

/-- The assignment `o.k = v`: an existing property keeps its place, a new one is
added at the end. -/
def setProp (o : JSObject) (k : String) (v : JSValue) : JSObject :=
  if hasOwn o k then o.map (fun p => (p.1, if p.1 = k then v else p.2))
  else o ++ [(k, v)]

/-- Reading `v.k` on any value, for a property name `k` that no prototype
defines and that is neither an index nor `length`: reading from `undefined` or
`null` throws a TypeError, a primitive or an array has no such property. -/
def JSValue.get (v : JSValue) (k : String) : Except String JSValue :=
  match v with
  | JSValue.undefined => Except.error ("TypeError: Cannot read properties of undefined (reading " ++ k ++ ")")
  | JSValue.null => Except.error ("TypeError: Cannot read properties of null (reading " ++ k ++ ")")
  | JSValue.obj props => Except.ok (getProp props k)
  | _ => Except.ok JSValue.undefined

/-! ## Number to string, string to number -/

/-- The decimal digit `d` as a character. -/
def digitChar (d : Nat) : Char :=
  Char.ofNat (48 + d)

/-- Decimal digits of `n`, least significant first; `fuel` bounds the number of
digits. -/
def decimalRev : Nat → Nat → List Nat
  | 0, _ => []
  | fuel + 1, n => if n < 10 then [n] else (n % 10) :: decimalRev fuel (n / 10)

/-- The decimal numeral of a natural number. -/
def natToChars (n : Nat) : List Char :=
  ((decimalRev (n + 1) n).reverse).map digitChar

/-- How many low binary digits of `n` do not fit in the 53 binary digits that a
Number keeps: the least `s` with `n / 2 ^ s < 2 ^ 53`; `fuel` bounds the
count. -/
def excessBits : Nat → Nat → Nat
  | 0, _ => 0
  | fuel + 1, n => if n < 2 ^ 53 then 0 else excessBits fuel (n / 2) + 1

/-- The natural number `n` rounded to 53 binary digits: to the nearest multiple
of `2 ^ shift`, and at a tie to the even one. -/
def roundTo53 (n : Nat) : Nat :=
  let shift := excessBits n n
  let q := n / 2 ^ shift
  let r := n % 2 ^ shift
  if 2 ^ shift < 2 * r ∨ (2 * r = 2 ^ shift ∧ q % 2 = 1) then (q + 1) * 2 ^ shift
  else q * 2 ^ shift

/-- The Number value for the natural number `n`; `none` is `Infinity`, which
replaces a rounded value of `2 ^ 1024` (written `(2 ^ 256) ^ 4`) or more. -/
def roundToDouble (n : Nat) : Option Nat :=
  if roundTo53 n < (2 ^ 256) ^ 4 then some (roundTo53 n) else none

/-- The search of Number::toString for the digits of the whole Number `x`: the
multiples of `10 ^ e` next to `x`, from the coarsest `e` down, until one of
them has `x` as its Number value; of two such the nearer to `x`, and at equal
distance the one with the even last digit. -/
def shortestAt (x : Nat) : Nat → Nat
  | 0 => x
  | e + 1 =>
    let lo := x / 10 ^ (e + 1) * 10 ^ (e + 1)
    let hi := lo + 10 ^ (e + 1)
    if roundToDouble lo = some x then
      if roundToDouble hi = some x then
        if x - lo < hi - x then lo
        else if hi - x < x - lo then hi
        else if x / 10 ^ (e + 1) % 2 = 0 then lo else hi
      else lo
    else if roundToDouble hi = some x then hi
    else shortestAt x e

/-- The natural number with the fewest significant digits whose Number value is
`x`: what Number::toString prints for `x`, trailing zeros included. -/
def shortestInt (x : Nat) : Nat :=
  shortestAt x (natToChars x).length

/-- The exponent form of a numeral of more than 21 digits: the first significant
digit, a point and the other significant digits if there are any, then `e+`
and the exponent. -/
def exponentForm (digits : List Char) : List Char :=
  match (digits.reverse.dropWhile (fun c => c = '0')).reverse with
  | [] => digits
  | [d] => d :: 'e' :: '+' :: natToChars (digits.length - 1)
  | d :: rest => d :: '.' :: (rest ++ 'e' :: '+' :: natToChars (digits.length - 1))

/-- Number::toString for a whole Number that is not negative: the digits found
by the search, written out below `10 ^ 21` and in exponent form from there
on. -/
def wholeToChars (x : Nat) : List Char :=
  if shortestInt x < 10 ^ 21 then natToChars (shortestInt x)
  else exponentForm (natToChars (shortestInt x))

/-- Number::toString for a whole Number, with a minus sign when negative. -/
def numToChars (n : Int) : List Char :=
  if n < 0 then '-' :: wholeToChars n.natAbs else wholeToChars n.natAbs

namespace JSValue

mutual
/-- ToString, as a list of characters.  Converting an object that carries an
own property `toString` throws: the property read from parsed JSON is never
callable, and `Object.prototype.valueOf` does not return a primitive. -/
def toChars : JSValue → Except String (List Char)
  | undefined => Except.ok "undefined".data
  | null => Except.ok "null".data
  | bool b => Except.ok (if b then "true".data else "false".data)
  | num n => Except.ok (numToChars n)
  | str s => Except.ok s.data
  | arr items => joinChars items
  | obj props =>
    if hasOwn props "toString" then
      Except.error "TypeError: Cannot convert object to primitive value"
    else Except.ok "[object Object]".data
  | nan => Except.ok "NaN".data
  | infinity negative => Except.ok (if negative then "-Infinity".data else "Infinity".data)
  | frac text => Except.ok text.data
/-- The method `Array.prototype.join` with the separator `,`, by which an array is
converted to a string: `undefined` and `null` elements give the empty string. -/
def joinChars : List JSValue → Except String (List Char)
  | [] => Except.ok []
  | [x] => elemChars x
  | x :: y :: rest =>
    match elemChars x with
    | Except.error e => Except.error e
    | Except.ok a =>
      match joinChars (y :: rest) with
      | Except.error e => Except.error e
      | Except.ok b => Except.ok (a ++ ',' :: b)
/-- One element inside `join`. -/
def elemChars : JSValue → Except String (List Char)
  | undefined => Except.ok []
  | null => Except.ok []
  | bool b => Except.ok (if b then "true".data else "false".data)
  | num n => Except.ok (numToChars n)
  | str s => Except.ok s.data
  | arr items => joinChars items
  | obj props =>
    if hasOwn props "toString" then
      Except.error "TypeError: Cannot convert object to primitive value"
    else Except.ok "[object Object]".data
  | nan => Except.ok "NaN".data
  | infinity negative => Except.ok (if negative then "-Infinity".data else "Infinity".data)
  | frac text => Except.ok text.data
end

end JSValue

/-- The characters `parseInt` skips at the start of its input (white space and
line terminators). -/
def isStrWhiteSpace (c : Char) : Bool :=
  let n := c.toNat
  n = 9 || n = 10 || n = 11 || n = 12 || n = 13 || n = 32 || n = 160 || n = 5760
    || (8192 ≤ n && n ≤ 8202) || n = 8232 || n = 8233 || n = 8239 || n = 8287
    || n = 12288 || n = 65279

/-- The value of a character as a digit, in any radix up to 36. -/
def digitValue (c : Char) : Option Nat :=
  let n := c.toNat
  if 48 ≤ n ∧ n ≤ 57 then some (n - 48)
  else if 97 ≤ n ∧ n ≤ 122 then some (n - 87)
  else if 65 ≤ n ∧ n ≤ 90 then some (n - 55)
  else none

/-- Whether `c` is a digit of radix `r`. -/
def isRadixDigit (r : Nat) (c : Char) : Bool :=
  match digitValue c with
  | some d => decide (d < r)
  | none => false

/-- The number written by a list of radix-`r` digits. -/
def digitsValue (r : Nat) (cs : List Char) : Nat :=
  cs.foldl (fun acc c => acc * r + (digitValue c).getD 0) 0

/-- The longest leading run of radix-`r` digits, read as a number; `none` (NaN)
when the run is empty. -/
def parseDigits (r : Nat) (cs : List Char) : Option Nat :=
  match cs.takeWhile (isRadixDigit r) with
  | [] => none
  | z => some (digitsValue r z)

/-- The part of `parseInt` after the sign: a leading `0x` or `0X` selects radix
16, otherwise the radix is 10.  Every digit is read; for radix 16 the standard
lets an engine read the digits after the twentieth significant one as zeros. -/
def parseMagnitude : List Char → Option Nat
  | '0' :: 'x' :: rest => parseDigits 16 rest
  | '0' :: 'X' :: rest => parseDigits 16 rest
  | cs => parseDigits 10 cs

/-- The part of `parseInt` after the leading white space: an optional sign. -/
def parseSigned : List Char → Option Int
  | '-' :: rest => (parseMagnitude rest).map (fun m => - (m : Int))
  | '+' :: rest => (parseMagnitude rest).map (fun m => (m : Int))
  | cs => (parseMagnitude cs).map (fun m => (m : Int))

/-- The integer that `parseInt` reads from a string, with no radix argument;
`none` when it reads no digit. -/
def parseIntChars (cs : List Char) : Option Int :=
  parseSigned (cs.dropWhile isStrWhiteSpace)

/-- The Number value for the integer `z`: `z` rounded as `roundToDouble` does, or
an infinity.  The result `-0` of reading `-0` is the value `num 0`. -/
def numberOf (z : Int) : JSValue :=
  match roundToDouble z.natAbs with
  | some v => JSValue.num (if z < 0 then -(v : Int) else (v : Int))
  | none => JSValue.infinity (decide (z < 0))

/-- The call `parseInt(v)`: `v` is converted to a string first, which can throw;
the result is the Number value for the integer read, or `NaN`. -/
def parseInt (v : JSValue) : Except String JSValue :=
  match v.toChars with
  | Except.error e => Except.error e
  | Except.ok cs =>
    match parseIntChars cs with
    | some z => Except.ok (numberOf z)
    | none => Except.ok JSValue.nan

/-! ## Application state -/

/-- The global `appData`. -/
structure AppState where
  members : List JSObject
  nextCallContent : JSObject

/-- The globals of a call in progress: `callOrder`, `currentHotseatIndex` and
`currentIntentionIndex`. -/
structure CallSession where
  callOrder : List JSObject
  currentHotseatIndex : Nat
  currentIntentionIndex : Nat

/-! ## Normalising member records (load and import) -/

/-- The keys `0`, `1`, ... of the elements of an array, from index `i` on. -/
def indexedFrom : Nat → List JSValue → JSObject
  | _, [] => []
  | i, x :: xs => (String.mk (natToChars i), x) :: indexedFrom (i + 1) xs

/-- The own enumerable properties that a spread `...v` inside an object literal
copies: those of an object, the elements of an array, the characters of a string,
nothing for the other values. -/
def spreadProps : JSValue → JSObject
  | JSValue.obj props => props
  | JSValue.arr items => indexedFrom 0 items
  | JSValue.str s => indexedFrom 0 (s.data.map (fun c => JSValue.str (String.mk [c])))
  | _ => []

/-- The effect of `...source` on the object literal built so far. -/
def spreadInto (target : JSObject) (source : JSValue) : JSObject :=
  (spreadProps source).foldl (fun o p => setProp o p.1 p.2) target

/-- The constant `defaultMemberStructure`. -/
def defaultMemberStructure : JSObject :=
  [("xp", JSValue.num 0), ("streak", JSValue.num 0), ("currentGoals", JSValue.arr []),
   ("currentCommitments", JSValue.arr []), ("previousScore", JSValue.str "N/A")]

/-- The template literal `avatars/${name}.png`. -/
def avatarPath (name : JSValue) : Except String JSValue :=
  match name.toChars with
  | Except.error e => Except.error e
  | Except.ok cs => Except.ok (JSValue.str ("avatars/" ++ String.mk cs ++ ".png"))

/-- The arrow function passed to `map` at lines 42-46, 66-70 and 523-527:
`m => ({...defaultMemberStructure, ...m, avatar: m.avatar || avatars/${m.name}.png})`. -/
def normalizeMember (m : JSValue) : Except String JSObject :=
  let o := spreadInto (spreadInto [] (JSValue.obj defaultMemberStructure)) m
  match m.get "avatar" with
  | Except.error e => Except.error e
  | Except.ok a =>
    if a.truthy then Except.ok (setProp o "avatar" a)
    else
      match m.get "name" with
      | Except.error e => Except.error e
      | Except.ok n =>
        match avatarPath n with
        | Except.error e => Except.error e
        | Except.ok p => Except.ok (setProp o "avatar" p)

/-- The call `items.map(normalizeMember)`: the first element that throws ends it. -/
def normalizeMembers : List JSValue → Except String (List JSObject)
  | [] => Except.ok []
  | m :: rest =>
    match normalizeMember m with
    | Except.error e => Except.error e
    | Except.ok o =>
      match normalizeMembers rest with
      | Except.error e => Except.error e
      | Except.ok os => Except.ok (o :: os)

/-- The call `v.map(...)` on any value: only an array has the method. -/
def mapNormalize : JSValue → Except String (List JSObject)
  | JSValue.arr items => normalizeMembers items
  | _ => Except.error "TypeError: (intermediate value).map is not a function"

/-- The two assignments shared by lines 41-47, 65-71 and 522-528:
`appData.members = (doc.members || []).map(...)` and
`appData.nextCallContent = {...appData.nextCallContent, ...(doc.nextCallContent || {})}`.
An error leaves `appData` as it was, since both right-hand sides are evaluated
before their assignment and the second cannot throw once the first has not. -/
def assignFromDocument (doc : JSValue) (appData : AppState) : Except String AppState :=
  match doc.get "members" with
  | Except.error e => Except.error e
  | Except.ok ms =>
    match mapNormalize (ms.orElse (JSValue.arr [])) with
    | Except.error e => Except.error e
    | Except.ok members =>
      match doc.get "nextCallContent" with
      | Except.error e => Except.error e
      | Except.ok ncc =>
        Except.ok
          { members := members
            nextCallContent :=
              spreadInto (spreadInto [] (JSValue.obj appData.nextCallContent))
                (ncc.orElse (JSValue.obj [])) }

/-- What `handleImportFile` reports through `alert`. -/
inductive ImportResult where
  | imported
  | invalidStructure
  | failed (message : String)

/-- The state after an import together with what was reported. -/
structure ImportOutcome where
  appData : AppState
  result : ImportResult

/-- The condition at line 521:
`importedData && importedData.members && Array.isArray(importedData.members) && importedData.nextCallContent`. -/
def importGuard (importedData : JSValue) : Except String Bool :=
  if importedData.truthy then
    match importedData.get "members" with
    | Except.error e => Except.error e
    | Except.ok ms =>
      if ms.truthy && ms.isArray then
        match importedData.get "nextCallContent" with
        | Except.error e => Except.error e
        | Except.ok ncc => Except.ok ncc.truthy
      else Except.ok false
  else Except.ok false

/-- The function `handleImportFile`, from the moment the file has been read: the
body of `reader.onload` on the text `importedText`. -/
def handleImportFile (parseJSON : String → Except String JSValue) (importedText : String)
    (appData : AppState) : ImportOutcome :=
  match parseJSON importedText with
  | Except.error e => { appData := appData, result := ImportResult.failed e }
  | Except.ok importedData =>
    match importGuard importedData with
    | Except.error e => { appData := appData, result := ImportResult.failed e }
    | Except.ok false => { appData := appData, result := ImportResult.invalidStructure }
    | Except.ok true =>
      match assignFromDocument importedData appData with
      | Except.error e => { appData := appData, result := ImportResult.failed e }
      | Except.ok s => { appData := s, result := ImportResult.imported }

/-- The constant `defaultMemberNames`. -/
def defaultMemberNames : List String :=
  ["Hannah", "Connor", "Brian", "Jordan", "Lane", "James", "Jeremy", "Rob"]

/-- The function `initializeDefaultAppData`. -/
def initializeDefaultAppData (appData : AppState) : AppState :=
  { appData with
    members := defaultMemberNames.map (fun name =>
      [("name", JSValue.str name), ("avatar", JSValue.str ("avatars/" ++ name ++ ".png")),
       ("xp", JSValue.num 0), ("streak", JSValue.num 0), ("currentGoals", JSValue.arr []),
       ("currentCommitments", JSValue.arr []), ("previousScore", JSValue.str "N/A")]) }

/-- The function `loadInitialFileOrUseDefaults`; `fileData` is the parsed seed
file, `none` when it could not be fetched or parsed. -/
def loadInitialFileOrUseDefaults (fileData : Option JSValue) (appData : AppState) : AppState :=
  match fileData with
  | none => initializeDefaultAppData appData
  | some d =>
    match assignFromDocument d appData with
    | Except.error _ => initializeDefaultAppData appData
    | Except.ok s => s

/-- The function `loadAppDataFromLocalStorage`; `storedData` is what
`localStorage.getItem` returned. -/
def loadAppDataFromLocalStorage (parseJSON : String → Except String JSValue)
    (storedData : Option String) (fileData : Option JSValue) (appData : AppState) : AppState :=
  match storedData with
  | none => loadInitialFileOrUseDefaults fileData appData
  | some text =>
    if text = "" then loadInitialFileOrUseDefaults fileData appData
    else
      match parseJSON text with
      | Except.error _ => loadInitialFileOrUseDefaults fileData appData
      | Except.ok loaded =>
        match assignFromDocument loaded appData with
        | Except.error _ => loadInitialFileOrUseDefaults fileData appData
        | Except.ok s => s

/-! ## Merging the AI response (`submitAIData`) -/

/-- The property `k` of the member at index `i`: `appData.members[i].k`. -/
def memberProp (members : List JSObject) (i : Nat) (k : String) : JSValue :=
  match members[i]? with
  | some m => getProp m k
  | none => JSValue.undefined

/-- The assignment `appData.members[i].k = v`. -/
def setMemberProp : List JSObject → Nat → String → JSValue → List JSObject
  | [], _, _, _ => []
  | m :: ms, 0, k, v => setProp m k v :: ms
  | m :: ms, i + 1, k, v => m :: setMemberProp ms i k v

/-- The search `appData.members.findIndex(m => m.name === aiMemberData.name)`,
counting from `i`; `none` stands for `-1`.  The callback reads
`aiMemberData.name` once per member visited, so it throws on a `null` entry
as soon as there is a member to visit. -/
def findIndexFrom : Nat → List JSObject → JSValue → Except String (Option Nat)
  | _, [], _ => Except.ok none
  | i, m :: ms, aiMemberData =>
    match aiMemberData.get "name" with
    | Except.error e => Except.error e
    | Except.ok n =>
      if (getProp m "name").strictEquals n then Except.ok (some i)
      else findIndexFrom (i + 1) ms aiMemberData

/-- The search at line 444. -/
def findIndex (members : List JSObject) (aiMemberData : JSValue) : Except String (Option Nat) :=
  findIndexFrom 0 members aiMemberData

/-- Line 446:
`members[i].xp = parseInt(aiMemberData.newTotalXP) || members[i].xp`. -/
def assignXP (i : Nat) (aiMemberData : JSValue) (members : List JSObject) :
    Except String (List JSObject) :=
  match aiMemberData.get "newTotalXP" with
  | Except.error e => Except.error e
  | Except.ok v =>
    match parseInt v with
    | Except.error e => Except.error e
    | Except.ok p => Except.ok (setMemberProp members i "xp" (p.orElse (memberProp members i "xp")))

/-- Line 447: `members[i].streak = parseInt(aiMemberData.newTotalStreak) || 0`. -/
def assignStreak (i : Nat) (aiMemberData : JSValue) (members : List JSObject) :
    Except String (List JSObject) :=
  match aiMemberData.get "newTotalStreak" with
  | Except.error e => Except.error e
  | Except.ok v =>
    match parseInt v with
    | Except.error e => Except.error e
    | Except.ok p => Except.ok (setMemberProp members i "streak" (p.orElse (JSValue.num 0)))

/-- The expression `Array.isArray(v) ? v : []`. -/
def arrayOrEmpty : JSValue → List JSValue
  | JSValue.arr items => items
  | _ => []

/-- The condition `items.length > 0 && items[0].toLowerCase() !== sentinel`.
Only a string has the method `toLowerCase`; on any other first element the
call throws. -/
def firstIsNot (toLowerCase : String → String) (sentinel : String) :
    List JSValue → Except String Bool
  | [] => Except.ok false
  | JSValue.str s :: _ => Except.ok (decide (toLowerCase s ≠ sentinel))
  | JSValue.null :: _ =>
    Except.error "TypeError: Cannot read properties of null (reading toLowerCase)"
  | JSValue.undefined :: _ =>
    Except.error "TypeError: Cannot read properties of undefined (reading toLowerCase)"
  | _ :: _ => Except.error "TypeError: toLowerCase is not a function"

/-- The sentinel compared at line 453. -/
def commitmentsSentinel : String :=
  "unknown - ai could not determine commitments/weekly ones"

/-- The sentinel compared at line 461. -/
def goalsSentinel : String :=
  "unknown - ai could not determine goals"

/-- Lines 452-455: `commitmentsFromAI` and the assignment of
`members[i].currentCommitments`. -/
def assignCommitments (toLowerCase : String → String) (i : Nat) (aiMemberData : JSValue)
    (members : List JSObject) : Except String (List JSObject) :=
  match aiMemberData.get "newCommitmentsAndWeeklyOnes" with
  | Except.error e => Except.error e
  | Except.ok v =>
    let commitmentsFromAI := arrayOrEmpty v
    match firstIsNot toLowerCase commitmentsSentinel commitmentsFromAI with
    | Except.error e => Except.error e
    | Except.ok true =>
      Except.ok (setMemberProp members i "currentCommitments" (JSValue.arr commitmentsFromAI))
    | Except.ok false =>
      Except.ok (setMemberProp members i "currentCommitments" (JSValue.arr []))

/-- The call `v.hasOwnProperty(k)`: an own property named `hasOwnProperty`
hides the method of `Object.prototype`, and what parsed JSON stores there
cannot be called. -/
def callHasOwnProperty (v : JSValue) (k : String) : Except String Bool :=
  match v with
  | JSValue.undefined =>
    Except.error "TypeError: Cannot read properties of undefined (reading hasOwnProperty)"
  | JSValue.null =>
    Except.error "TypeError: Cannot read properties of null (reading hasOwnProperty)"
  | JSValue.obj props =>
    if hasOwn props "hasOwnProperty" then
      Except.error "TypeError: aiMemberData.hasOwnProperty is not a function"
    else Except.ok (hasOwn props k)
  | _ => Except.ok false

/-- Lines 457-467: `quarterlyGoalsFromAI` and the conditional assignment of
`members[i].currentGoals`. -/
def assignGoals (toLowerCase : String → String) (i : Nat) (aiMemberData : JSValue)
    (members : List JSObject) : Except String (List JSObject) :=
  match aiMemberData.get "quarterlyGoals" with
  | Except.error e => Except.error e
  | Except.ok v =>
    let quarterlyGoalsFromAI := arrayOrEmpty v
    match firstIsNot toLowerCase goalsSentinel quarterlyGoalsFromAI with
    | Except.error e => Except.error e
    | Except.ok true =>
      Except.ok (setMemberProp members i "currentGoals" (JSValue.arr quarterlyGoalsFromAI))
    | Except.ok false =>
      if quarterlyGoalsFromAI.length = 0 then
        match callHasOwnProperty aiMemberData "quarterlyGoals" with
        | Except.error e => Except.error e
        | Except.ok true => Except.ok (setMemberProp members i "currentGoals" (JSValue.arr []))
        | Except.ok false => Except.ok members
      else Except.ok members

/-- Line 469: `members[i].previousScore = aiMemberData.scoreForThisWeek || "N/A"`. -/
def assignPreviousScore (i : Nat) (aiMemberData : JSValue) (members : List JSObject) :
    Except String (List JSObject) :=
  match aiMemberData.get "scoreForThisWeek" with
  | Except.error e => Except.error e
  | Except.ok v =>
    Except.ok (setMemberProp members i "previousScore" (v.orElse (JSValue.str "N/A")))

/-- The member list while statements run, with the error thrown so far, if any.
Assignments made before a throw stay made. -/
structure Run where
  members : List JSObject
  thrown : Option String

/-- Sequencing: the next statement runs on the current members unless an error
has been thrown; when it throws, the members are those it started from. -/
def Run.andThen (r : Run) (stmt : List JSObject → Except String (List JSObject)) : Run :=
  match r.thrown with
  | some _ => r
  | none =>
    match stmt r.members with
    | Except.ok ms => { members := ms, thrown := none }
    | Except.error e => { members := r.members, thrown := some e }

/-- The callback of `aiData.members.forEach` (lines 443-471) on one entry. -/
def mergeEntry (toLowerCase : String → String) (members : List JSObject)
    (aiMemberData : JSValue) : Run :=
  match findIndex members aiMemberData with
  | Except.error e => { members := members, thrown := some e }
  | Except.ok none => { members := members, thrown := none }
  | Except.ok (some memberIndex) =>
    (((({ members := members, thrown := none } : Run).andThen
      (assignXP memberIndex aiMemberData)).andThen
      (assignStreak memberIndex aiMemberData)).andThen
      (assignCommitments toLowerCase memberIndex aiMemberData)).andThen
      (assignGoals toLowerCase memberIndex aiMemberData) |>.andThen
      (assignPreviousScore memberIndex aiMemberData)

/-- The loop `aiData.members.forEach(...)`: entries are merged in order and the
first throw ends the loop. -/
def forEachEntry (toLowerCase : String → String) : List JSValue → List JSObject → Run
  | [], members => { members := members, thrown := none }
  | aiMemberData :: rest, members =>
    match (mergeEntry toLowerCase members aiMemberData).thrown with
    | some e => { members := (mergeEntry toLowerCase members aiMemberData).members, thrown := some e }
    | none => forEachEntry toLowerCase rest (mergeEntry toLowerCase members aiMemberData).members

/-- Lines 436-441: both strings of `aiData.nextCallContent` are copied when the
field is truthy and both are strings; otherwise nothing changes. -/
def updateNextCallContent (aiData : JSValue) (nextCallContent : JSObject) :
    Except String JSObject :=
  match aiData.get "nextCallContent" with
  | Except.error e => Except.error e
  | Except.ok ncc =>
    if ncc.truthy then
      match ncc.get "dadJoke" with
      | Except.error e => Except.error e
      | Except.ok dadJoke =>
        if dadJoke.isString then
          match ncc.get "intentionQuestion" with
          | Except.error e => Except.error e
          | Except.ok intentionQuestion =>
            if intentionQuestion.isString then
              Except.ok (setProp (setProp nextCallContent "dadJoke" dadJoke)
                "intentionQuestion" intentionQuestion)
            else Except.ok nextCallContent
        else Except.ok nextCallContent
    else Except.ok nextCallContent

/-- Lines 473-475: the winner, when truthy, is written into a template literal
for `console.log`, which converts it to a string. -/
def logWinner (aiData : JSValue) : Except String Unit :=
  match aiData.get "insightfulQuestionWinner" with
  | Except.error e => Except.error e
  | Except.ok w =>
    if w.truthy then
      match w.toChars with
      | Except.error e => Except.error e
      | Except.ok _ => Except.ok ()
    else Except.ok ()

/-- How `submitAIData` ends: nothing pasted, the response processed and saved,
or the `catch` block entered with an error. -/
inductive Status where
  | emptyInput
  | processed
  | failed (message : String)

/-- The state after `submitAIData` together with how it ended. -/
structure Outcome where
  appData : AppState
  status : Status

/-- The body of the `try` block of `submitAIData` after `JSON.parse`
(lines 432-479). -/
def processAIData (toLowerCase : String → String) (aiData : JSValue) (appData : AppState) :
    Outcome :=
  match aiData.get "members" with
  | Except.error e => { appData := appData, status := Status.failed e }
  | Except.ok ms =>
    if !ms.truthy || !ms.isArray then
      { appData := appData,
        status := Status.failed
          "Submitted JSON is missing the \x27members\x27 array or it\x27s not an array." }
    else
      match updateNextCallContent aiData appData.nextCallContent with
      | Except.error e => { appData := appData, status := Status.failed e }
      | Except.ok ncc =>
        match forEachEntry toLowerCase (arrayOrEmpty ms) appData.members with
        | { members := members, thrown := some e } =>
          { appData := { members := members, nextCallContent := ncc }, status := Status.failed e }
        | { members := members, thrown := none } =>
          match logWinner aiData with
          | Except.error e =>
            { appData := { members := members, nextCallContent := ncc },
              status := Status.failed e }
          | Except.ok _ =>
            { appData := { members := members, nextCallContent := ncc },
              status := Status.processed }

/-- The function `submitAIData`; `jsonInput` is the trimmed text of the input
box. -/
def submitAIData (toLowerCase : String → String) (parseJSON : String → Except String JSValue)
    (jsonInput : String) (appData : AppState) : Outcome :=
  if jsonInput = "" then { appData := appData, status := Status.emptyInput }
  else
    match parseJSON jsonInput with
    | Except.error e => { appData := appData, status := Status.failed e }
    | Except.ok aiData => processAIData toLowerCase aiData appData

/-- The properties of a member that the merge step assigns. -/
def mergedFields : List String :=
  ["xp", "streak", "currentCommitments", "currentGoals", "previousScore"]

/-- The member list `ms'` differs from `ms` at most in the merged fields of the
member at index `i`. -/
def ChangedOnlyAt (i : Nat) (ms ms' : List JSObject) : Prop :=
  ms'.length = ms.length ∧ (∀ j, j ≠ i → ms'[j]? = ms[j]?) ∧
    ∀ j k, k ∉ mergedFields → memberProp ms' j k = memberProp ms j k

/-! ## The call order -/

/-- One value returned by `Math.random()`: the fraction `num / den`, which lies
in `[0, 1)`. -/
structure RandomDraw where
  num : Nat
  den : Nat
  lt : num < den

/-- The expression `Math.floor(r * k)`, taken on the exact product.  The script
floors the product rounded to a Number; for `k` from 1 up both lie in
`0, ..., k - 1`. -/
def RandomDraw.floorTimes (r : RandomDraw) (k : Nat) : Nat :=
  r.num * k / r.den

/-- The swap `[array[i], array[j]] = [array[j], array[i]]` for two indices
inside the array. -/
def swapAt {α : Type} (array : List α) (i j : Nat) : List α :=
  match array[i]?, array[j]? with
  | some x, some y => (array.set i y).set j x
  | _, _ => array

/-- The loop of `shuffleArray` from index `i` down to 1; `calls` counts the calls
to `Math.random()` made so far, and `random calls` is the value of the next one. -/
def shuffleLoop {α : Type} (random : Nat → RandomDraw) : Nat → Nat → List α → List α
  | 0, _, array => array
  | i + 1, calls, array =>
    shuffleLoop random i (calls + 1)
      (swapAt array (i + 1) ((random calls).floorTimes (i + 1 + 1)))

/-- The function `shuffleArray`. -/
def shuffleArray {α : Type} (random : Nat → RandomDraw) (array : List α) : List α :=
  shuffleLoop random (array.length - 1) 0 array

/-- The test `presentMemberNames.includes(name)`; the names pushed from the
checkboxes are strings. -/
def includesName (presentMemberNames : List String) (name : JSValue) : Bool :=
  match name with
  | JSValue.str s => decide (s ∈ presentMemberNames)
  | _ => false

/-- The function `finalizeAttendance` on the globals; `presentMemberNames` are
the names of the checked boxes. -/
def finalizeAttendance (random : Nat → RandomDraw) (presentMemberNames : List String)
    (appData : AppState) (session : CallSession) : CallSession :=
  { session with
    callOrder :=
      shuffleArray random
        ((appData.members.filter
          (fun m => includesName presentMemberNames (getProp m "name"))).map
          (fun m => spreadInto [] (JSValue.obj m))) }

/-! ### The shuffle with its draws given as indices -/

/-- The loop of `shuffleArray` from index `i` down to 1 when the index `j` of each
step is given: `choices` lists the `j` drawn at `i`, `i - 1`, ..., 1, in that
order. -/
def shuffleWith {α : Type} : Nat → List Nat → List α → List α
  | i + 1, j :: choices, array => shuffleWith i choices (swapAt array (i + 1) j)
  | _, _, array => array

/-- The lists of draws that the loop from index `i` down to 1 can make: one
index `j` in `[0, i]` for each `i`. -/
def validChoices : Nat → List Nat → Bool
  | 0, [] => true
  | i + 1, j :: choices => decide (j ≤ i + 1) && validChoices i choices
  | _, _ => false

/-- The indices `Math.floor(Math.random() * (i + 1))` that the loop of
`shuffleArray` computes from index `i` down to 1, the next call of
`Math.random()` being call number `calls`. -/
def drawnIndices (random : Nat → RandomDraw) : Nat → Nat → List Nat
  | 0, _ => []
  | i + 1, calls => (random calls).floorTimes (i + 1 + 1) :: drawnIndices random i (calls + 1)

/-- All the lists of draws that the loop from index `i` down to 1 can make. -/
def allChoices : Nat → List (List Nat)
  | 0 => [[]]
  | i + 1 => (List.range (i + 1 + 1)).flatMap (fun j => (allChoices i).map (fun choices => j :: choices))

/-- A value of `Math.random()` for which `Math.floor(r * (i + 1))` is `j`, when
`j` is in `[0, i]`: the fraction `j / (i + 1)`. -/
def drawFor (j i : Nat) : RandomDraw :=
  if h : j ≤ i then { num := j, den := i + 1, lt := Nat.lt_succ_of_le h }
  else { num := 0, den := 1, lt := Nat.zero_lt_one }

/-- Values of `Math.random()` that make the loop from index `i` draw the indices
`choices`. -/
def randomFor (i : Nat) (choices : List Nat) : Nat → RandomDraw :=
  fun calls => drawFor (choices.getD calls 0) (i - calls)

/-! ## The page and its countdowns -/

/-- One repeating timer made by `setInterval(tick, 1000)` in `startTimer` and not
cleared since: its handle, the element it writes to and the variable
`remainingSeconds` of its closure. -/
structure Interval where
  handle : Nat
  timerId : String
  remainingSeconds : Int

/-- The part of the browser state that the call flow writes: the ids of the
sections and timer elements the document has, the section shown, the text last
written into each element, the global `activeTimers` and the intervals that are
running.  Elements that the script writes to without testing that they exist
are taken to exist. -/
structure Page where
  elements : List String
  visible : Option String
  content : List (String × String)
  activeTimers : List (String × Nat)
  intervals : List Interval
  nextHandle : Nat

/-- The text last written into the element `id`. -/
def readText : List (String × String) → String → Option String
  | [], _ => none
  | (k, v) :: rest, id => if k = id then some v else readText rest id

/-- The handle stored in `activeTimers[timerId]`; `none` is `undefined`. -/
def readHandle : List (String × Nat) → String → Option Nat
  | [], _ => none
  | (k, h) :: rest, id => if k = id then some h else readHandle rest id

/-- Writing `text` into the element `id` (its `textContent`, `innerHTML` or
`src`). -/
def Page.write (page : Page) (id : String) (text : String) : Page :=
  { page with content := (id, text) :: page.content }

/-- The call `clearInterval(handle)`; nothing happens for `undefined` and for a
handle that is not running. -/
def clearInterval (handle : Option Nat) (page : Page) : Page :=
  { page with intervals := page.intervals.filter (fun iv => decide (some iv.handle ≠ handle)) }

/-- The method `padStart(2, '0')`. -/
def padStart2 (cs : List Char) : List Char :=
  List.replicate (2 - cs.length) '0' ++ cs

/-- The text that `tick` builds: `Math.floor(remainingSeconds / 60)` and
`remainingSeconds % 60`, each converted to a string and padded, around a colon.
The remainder of JavaScript has the sign of the dividend. -/
def clockText (remainingSeconds : Int) : String :=
  String.mk (padStart2 (numToChars (remainingSeconds / 60)) ++
    ':' :: padStart2 (numToChars (Int.tmod remainingSeconds 60)))

/-- The closure `tick` of `startTimer(timerId, ...)`, run when its variable
`remainingSeconds` has the given value: the page afterwards and the new value
of the variable. -/
def tick (timerId : String) (remainingSeconds : Int) (page : Page) : Page × Int :=
  if remainingSeconds - 1 < 0 then
    ((clearInterval (readHandle page.activeTimers timerId)
        (page.write timerId (clockText remainingSeconds))).write timerId "00:00",
      remainingSeconds - 1)
  else (page.write timerId (clockText remainingSeconds), remainingSeconds - 1)

/-- The function `startTimer`: the previous interval of the slot is cleared, and
when the element exists `tick` runs once at once and is then scheduled every
second, its handle being stored in `activeTimers[timerId]` only after that
first run. -/
def startTimer (timerId : String) (seconds : Int) (page : Page) : Page :=
  if timerId ∈ page.elements then
    let first := tick timerId seconds (clearInterval (readHandle page.activeTimers timerId) page)
    { first.1 with
      activeTimers := (timerId, first.1.nextHandle) :: first.1.activeTimers
      intervals := first.1.intervals ++
        [{ handle := first.1.nextHandle, timerId := timerId, remainingSeconds := first.2 }]
      nextHandle := first.1.nextHandle + 1 }
  else clearInterval (readHandle page.activeTimers timerId) page

/-- One scheduled run of the interval `handle`, a second after the previous one:
`tick` runs on the variable of that interval.  An interval that has been
cleared does not run. -/
def fireInterval (handle : Nat) (page : Page) : Page :=
  match page.intervals.find? (fun iv => decide (iv.handle = handle)) with
  | none => page
  | some iv =>
    { (tick iv.timerId iv.remainingSeconds page).1 with
      intervals := (tick iv.timerId iv.remainingSeconds page).1.intervals.map (fun other =>
        if other.handle = handle then
          { other with remainingSeconds := (tick iv.timerId iv.remainingSeconds page).2 }
        else other) }

/-- The function `navigate` on the sections of the call flow: every section
loses the class `visible` and the one with the given id, if there is one,
gets it.  (The refresh of the leaderboard on `home` is not part of the
model.) -/
def navigate (id : String) (page : Page) : Page :=
  { page with visible := if id ∈ page.elements then some id else none }

/-! ## The intention round and the hot-seat round -/

/-- The string an element receives when `v` is assigned to its `textContent`:
`null` and `undefined` give the empty string, any other value is converted to
a string. -/
def textContentOf (v : JSValue) : Except String String :=
  match v with
  | JSValue.null => Except.ok ""
  | JSValue.undefined => Except.ok ""
  | _ =>
    match v.toChars with
    | Except.error e => Except.error e
    | Except.ok cs => Except.ok (String.mk cs)

/-- The string an image receives when `v` is assigned to its `src`. -/
def srcOf (v : JSValue) : Except String String :=
  match v.toChars with
  | Except.error e => Except.error e
  | Except.ok cs => Except.ok (String.mk cs)

/-- The search `appData.members.find(m => m.name === name)`.  The names held by
`callOrder` are strings, those of the checked boxes. -/
def findMember (members : List JSObject) (name : JSValue) : Option JSObject :=
  members.find? (fun m => (getProp m "name").strictEquals name)

/-- The globals and the page while a handler of the call flow runs, with the
error that ended it, if any.  What was assigned before a throw stays
assigned. -/
structure CallRun where
  session : CallSession
  page : Page
  thrown : Option String

/-- The template literal of line 221. -/
def intentionStats (memberData : JSObject) : Except String String :=
  match (getProp memberData "xp").toChars with
  | Except.error e => Except.error e
  | Except.ok xp =>
    match (getProp memberData "streak").toChars with
    | Except.error e => Except.error e
    | Except.ok streak =>
      Except.ok ("XP: " ++ String.mk xp ++ " | Streak: " ++ String.mk streak ++ " weeks")

/-- The function `nextHotSeat`.  The template literal of lines 249-273, which
builds the text of `hotseat-details` from the member and can throw, is the
parameter `hotseatHTML`. -/
def nextHotSeat (hotseatHTML : JSObject → Except String String) (appData : AppState)
    (session : CallSession) (page : Page) : CallRun :=
  if session.currentHotseatIndex ≥ session.callOrder.length then
    { session := session
      page := startTimer "wrapup-timer" 300 (navigate "wrapup" page)
      thrown := none }
  else
    match session.callOrder[session.currentHotseatIndex]? with
    | none =>
      { session := session, page := page,
        thrown := some "TypeError: Cannot read properties of undefined (reading name)" }
    | some memberFromCallOrder =>
      match findMember appData.members (getProp memberFromCallOrder "name") with
      | none =>
        { session := session, page := page,
          thrown := some "TypeError: Cannot read properties of undefined (reading name)" }
      | some memberData =>
        match textContentOf (getProp memberData "name") with
        | Except.error e => { session := session, page := page, thrown := some e }
        | Except.ok name =>
          match srcOf (getProp memberData "avatar") with
          | Except.error e =>
            { session := session, page := page.write "hotseat-name" name, thrown := some e }
          | Except.ok avatar =>
            match hotseatHTML memberData with
            | Except.error e =>
              { session := session
                page := (page.write "hotseat-name" name).write "hotseat-avatar" avatar
                thrown := some e }
            | Except.ok html =>
              { session :=
                  { session with currentHotseatIndex := session.currentHotseatIndex + 1 }
                page := startTimer "hotseat-timer" 300 (navigate "hotseat"
                  ((((page.write "hotseat-name" name).write "hotseat-avatar" avatar).write
                    "hotseat-details" html)))
                thrown := none }

/-- The function `nextIntention`. -/
def nextIntention (hotseatHTML : JSObject → Except String String) (appData : AppState)
    (session : CallSession) (page : Page) : CallRun :=
  if session.currentIntentionIndex ≥ session.callOrder.length then
    nextHotSeat hotseatHTML appData { session with currentHotseatIndex := 0 } page
  else
    match session.callOrder[session.currentIntentionIndex]? with
    | none =>
      { session := session, page := page,
        thrown := some "TypeError: Cannot read properties of undefined (reading name)" }
    | some memberFromCallOrder =>
      match findMember appData.members (getProp memberFromCallOrder "name") with
      | none =>
        { session := session, page := page,
          thrown := some "TypeError: Cannot read properties of undefined (reading name)" }
      | some memberData =>
        match textContentOf (getProp memberData "name") with
        | Except.error e => { session := session, page := page, thrown := some e }
        | Except.ok name =>
          match srcOf (getProp memberData "avatar") with
          | Except.error e =>
            { session := session, page := page.write "intention-name" name, thrown := some e }
          | Except.ok avatar =>
            match intentionStats memberData with
            | Except.error e =>
              { session := session
                page := (page.write "intention-name" name).write "intention-avatar" avatar
                thrown := some e }
            | Except.ok stats =>
              { session :=
                  { session with currentIntentionIndex := session.currentIntentionIndex + 1 }
                page := startTimer "intention-timer" 120 (navigate "intention"
                  ((((page.write "intention-name" name).write "intention-avatar" avatar).write
                    "intention-stats" stats)))
                thrown := none }

/-- The globals and the page after `calls` successive calls of `nextIntention`. -/
def intentionCalls (hotseatHTML : JSObject → Except String String) (appData : AppState) :
    Nat → CallSession → Page → CallRun
  | 0, session, page => { session := session, page := page, thrown := none }
  | calls + 1, session, page =>
    nextIntention hotseatHTML appData
      (intentionCalls hotseatHTML appData calls session page).session
      (intentionCalls hotseatHTML appData calls session page).page

/-- The page after `startTimer(timerId, seconds)` and then `ticks` scheduled runs
of the interval it created, whose handle is `page.nextHandle`. -/
def countdown (timerId : String) (seconds : Int) (page : Page) : Nat → Page
  | 0 => startTimer timerId seconds page
  | ticks + 1 =>
    fireInterval page.nextHandle (countdown timerId seconds page ticks)

/-- Lower-casing of the letters `A` to `Z`, the part of `toLowerCase` that the
examples use. -/
def asciiLower (s : String) : String :=
  String.mk (s.data.map Char.toLower)

/-! ## The data of the examples -/

/-- A registry member as in the end-to-end example: Ann, 100 XP, streak 3. -/
def exampleMember : JSObject :=
  [("name", JSValue.str "Ann"), ("avatar", JSValue.str "avatars/Ann.png"),
   ("xp", JSValue.num 100), ("streak", JSValue.num 3),
   ("currentGoals", JSValue.arr [JSValue.str "Read 12 books"]),
   ("currentCommitments", JSValue.arr [JSValue.str "Walk daily"]),
   ("previousScore", JSValue.str "N/A")]

/-- The update entry of the end-to-end example. -/
def exampleUpdate : JSValue :=
  JSValue.obj
    [("name", JSValue.str "Ann"), ("newTotalXP", JSValue.num 118),
     ("newTotalStreak", JSValue.num 4), ("scoreForThisWeek", JSValue.str "90%"),
     ("newCommitmentsAndWeeklyOnes", JSValue.arr [JSValue.str "Run 5k"])]

/-- An update entry for Ann made of the given fields. -/
def updateForAnn (fields : JSObject) : JSValue :=
  JSValue.obj (("name", JSValue.str "Ann") :: fields)

/-- An application state whose registry holds Ann alone. -/
def exampleState : AppState :=
  { members := [exampleMember]
    nextCallContent :=
      [("dadJoke", JSValue.str "Why did the scarecrow win an award?"),
       ("intentionQuestion", JSValue.str "What small risk can you take this week?")] }

/-- A response with a well-formed `nextCallContent` and no `members`. -/
def responseWithoutMembers : JSValue :=
  JSValue.obj
    [("nextCallContent",
      JSValue.obj [("dadJoke", JSValue.str "A new joke"),
        ("intentionQuestion", JSValue.str "A new question")])]

/-- A response whose entry for Ann is well formed except that the first
element of `newCommitmentsAndWeeklyOnes` is the number 5. -/
def responseWithNumberInCommitments : JSValue :=
  JSValue.obj
    [("members", JSValue.arr
      [updateForAnn
        [("newTotalXP", JSValue.num 118), ("newTotalStreak", JSValue.num 4),
         ("scoreForThisWeek", JSValue.str "90%"),
         ("newCommitmentsAndWeeklyOnes", JSValue.arr [JSValue.num 5])]])]

/-- A response whose `members` array holds `null`. -/
def responseWithNullEntry : JSValue :=
  JSValue.obj [("members", JSValue.arr [JSValue.null])]

/-- A data file whose `members` is an array and whose `nextCallContent` is the
number 1. -/
def fileWithNumberAsNextCallContent : JSValue :=
  JSValue.obj
    [("members", JSValue.arr [JSValue.obj [("name", JSValue.str "Zed")]]),
     ("nextCallContent", JSValue.num 1)]

/-- A data file whose `members` holds the record `{name: "Zed", xp: 5}`. -/
def fileWithZed : JSValue :=
  JSValue.obj
    [("members", JSValue.arr [JSValue.obj [("name", JSValue.str "Zed"), ("xp", JSValue.num 5)]]),
     ("nextCallContent", JSValue.obj [])]

/-- A data file whose only record supplies the empty string as `avatar`. -/
def fileWithEmptyAvatar : JSValue :=
  JSValue.obj
    [("members", JSValue.arr
      [JSValue.obj [("name", JSValue.str "Zed"), ("avatar", JSValue.str "")]]),
     ("nextCallContent", JSValue.obj [("dadJoke", JSValue.str "A joke")])]

/-- A data file whose only record has the object `{toString: 1}` as `name` and
no avatar. -/
def fileWithUnreadableName : JSValue :=
  JSValue.obj
    [("members", JSValue.arr
      [JSValue.obj [("name", JSValue.obj [("toString", JSValue.num 1)])]]),
     ("nextCallContent", JSValue.obj [("dadJoke", JSValue.str "A joke")])]

/-- A page with the sections and timer elements of the call flow, nothing
written yet and no countdown running. -/
def examplePage : Page :=
  { elements := ["checkin", "intention", "hotseat", "wrapup", "checkin-timer",
      "intention-timer", "hotseat-timer", "wrapup-timer"]
    visible := none
    content := []
    activeTimers := []
    intervals := []
    nextHandle := 1 }

/-- The decimal numeral of `10 ^ 400`: a 1 followed by 400 zeros. -/
def hugeNumeral : String :=
  String.mk (natToChars ((10 ^ 100) ^ 4))

/-- A response whose entry for Ann supplies that numeral as `newTotalXP`. -/
def responseWithHugeXP : JSValue :=
  JSValue.obj
    [("members", JSValue.arr [updateForAnn [("newTotalXP", JSValue.str hugeNumeral)]])]

/-- A response whose entry for Ann supplies the number `10 ^ 21` as
`newTotalXP`. -/
def responseWithExponentXP : JSValue :=
  JSValue.obj
    [("members", JSValue.arr [updateForAnn [("newTotalXP", JSValue.num (10 ^ 21))]])]

/-- A registry member with the given name, XP and streak. -/
def memberNamed (name : String) (xp streak : Int) : JSObject :=
  [("name", JSValue.str name), ("avatar", JSValue.str ("avatars/" ++ name ++ ".png")),
   ("xp", JSValue.num xp), ("streak", JSValue.num streak),
   ("currentGoals", JSValue.arr []), ("currentCommitments", JSValue.arr []),
   ("previousScore", JSValue.str "N/A")]

/-- An application state whose registry holds Ann, Bob and Cy. -/
def stateOfThree : AppState :=
  { members := [memberNamed "Ann" 100 3, memberNamed "Bob" 40 0, memberNamed "Cy" 75 1]
    nextCallContent := [] }

/-- The globals of a call as `startCall` leaves them. -/
def sessionAtStart : CallSession :=
  { callOrder := [], currentHotseatIndex := 0, currentIntentionIndex := 0 }

/-- A source of random values whose every draw is 0. -/
def alwaysZero : Nat → RandomDraw :=
  fun _ => { num := 0, den := 1, lt := Nat.zero_lt_one }

/-- A response whose entry for Ann supplies a smaller `newTotalXP` and a negative
`newTotalStreak`. -/
def responseLoweringAnn : JSValue :=
  JSValue.obj
    [("members", JSValue.arr
      [updateForAnn [("newTotalXP", JSValue.num 50), ("newTotalStreak", JSValue.num (-2))]])]

/-! # Properties -/

/-! ## Own properties: reading after writing -/

theorem findProp_cons (a : String) (b : JSValue) (rest : JSObject) (k : String) :
    findProp ((a, b) :: rest) k =
      match findProp rest k with
      | some w => some w
      | none => if a = k then some b else none := by
  rfl

theorem findProp_map_set (o : JSObject) (k k' : String) (v : JSValue) :
    findProp (o.map (fun p => (p.1, if p.1 = k then v else p.2))) k' =
      if k = k' then (if hasOwn o k then some v else none) else findProp o k' := by
  induction o with
  | nil => simp [findProp, hasOwn]
  | cons p rest ih =>
    obtain ⟨a, b⟩ := p
    rw [List.map_cons, findProp_cons, ih]
    simp only [hasOwn, findProp_cons]
    by_cases hk : k = k'
    · subst hk
      rcases Option.eq_none_or_eq_some (findProp rest k) with hr | ⟨w, hr⟩
      · by_cases ha : a = k <;> simp [hr, ha]
      · simp [hr]
    · rcases Option.eq_none_or_eq_some (findProp rest k') with hr | ⟨w, hr⟩
      · by_cases ha : a = k
        · subst ha
          simp [hk, hr]
        · simp [hk, ha, hr]
      · simp [hk, hr]

theorem findProp_append_one (o : JSObject) (k k' : String) (v : JSValue) :
    findProp (o ++ [(k, v)]) k' = if k = k' then some v else findProp o k' := by
  induction o with
  | nil => simp [findProp]
  | cons p rest ih =>
    obtain ⟨a, b⟩ := p
    rw [List.cons_append, findProp_cons, ih, findProp_cons]
    by_cases hk : k = k' <;> simp [hk]

theorem findProp_setProp (o : JSObject) (k k' : String) (v : JSValue) :
    findProp (setProp o k v) k' = if k = k' then some v else findProp o k' := by
  unfold setProp
  by_cases h : hasOwn o k = true
  · rw [if_pos h, findProp_map_set, if_pos h]
  · rw [if_neg h, findProp_append_one]

theorem getProp_setProp (o : JSObject) (k k' : String) (v : JSValue) :
    getProp (setProp o k v) k' = if k = k' then v else getProp o k' := by
  unfold getProp
  rw [findProp_setProp]
  by_cases hk : k = k' <;> simp [hk]

theorem hasOwn_setProp (o : JSObject) (k k' : String) (v : JSValue) :
    hasOwn (setProp o k v) k' = (decide (k = k') || hasOwn o k') := by
  unfold hasOwn
  rw [findProp_setProp]
  by_cases hk : k = k' <;> simp [hk]

/-- What a spread leaves under a key: the value of the source when it has the
key, otherwise what the target had. -/
theorem findProp_foldl_setProp (props target : JSObject) (k : String) :
    findProp (props.foldl (fun o p => setProp o p.1 p.2) target) k =
      match findProp props k with
      | some v => some v
      | none => findProp target k := by
  induction props generalizing target with
  | nil => simp [findProp]
  | cons p rest ih =>
    obtain ⟨a, b⟩ := p
    rw [List.foldl_cons, ih, findProp_cons, findProp_setProp]
    rcases Option.eq_none_or_eq_some (findProp rest k) with hr | ⟨w, hr⟩
    · by_cases ha : a = k <;> simp [hr, ha]
    · simp [hr]

theorem findProp_spread_copy (m : JSObject) (k : String) :
    findProp (spreadInto [] (JSValue.obj m)) k = findProp m k := by
  unfold spreadInto spreadProps
  rw [findProp_foldl_setProp]
  cases findProp m k <;> simp [findProp]

theorem getProp_spread_copy (m : JSObject) (k : String) :
    getProp (spreadInto [] (JSValue.obj m)) k = getProp m k := by
  unfold getProp
  rw [findProp_spread_copy]

/-! ## Members: reading after writing -/

theorem length_setMemberProp (ms : List JSObject) (i : Nat) (k : String) (v : JSValue) :
    (setMemberProp ms i k v).length = ms.length := by
  induction ms generalizing i with
  | nil => rfl
  | cons m rest ih =>
    cases i with
    | zero => rfl
    | succ i => simp [setMemberProp, ih]

theorem getElem?_setMemberProp_ne (ms : List JSObject) (i j : Nat) (k : String) (v : JSValue)
    (h : i ≠ j) : (setMemberProp ms i k v)[j]? = ms[j]? := by
  induction ms generalizing i j with
  | nil => rfl
  | cons m rest ih =>
    cases i with
    | zero =>
      cases j with
      | zero => exact absurd rfl h
      | succ j => simp [setMemberProp]
    | succ i =>
      cases j with
      | zero => simp [setMemberProp]
      | succ j =>
        simp only [setMemberProp, List.getElem?_cons_succ]
        exact ih i j (fun hij => h (by rw [hij]))

theorem getElem?_setMemberProp_same (ms : List JSObject) (i : Nat) (k : String) (v : JSValue) :
    (setMemberProp ms i k v)[i]? = (ms[i]?).map (fun m => setProp m k v) := by
  induction ms generalizing i with
  | nil => rfl
  | cons m rest ih =>
    cases i with
    | zero => simp [setMemberProp]
    | succ i =>
      simp only [setMemberProp, List.getElem?_cons_succ]
      exact ih i

theorem memberProp_setMemberProp_same (ms : List JSObject) (i : Nat) (k : String) (v : JSValue)
    (h : i < ms.length) : memberProp (setMemberProp ms i k v) i k = v := by
  unfold memberProp
  rw [getElem?_setMemberProp_same, List.getElem?_eq_getElem h]
  simp [getProp_setProp]

theorem memberProp_setMemberProp_key (ms : List JSObject) (i j : Nat) (k k' : String)
    (v : JSValue) (h : k ≠ k') :
    memberProp (setMemberProp ms i k v) j k' = memberProp ms j k' := by
  unfold memberProp
  by_cases hij : i = j
  · subst hij
    rw [getElem?_setMemberProp_same]
    cases ms[i]? with
    | none => rfl
    | some m => simp [getProp_setProp, h]
  · rw [getElem?_setMemberProp_ne ms i j k v hij]

/-! ## The search for the member -/

theorem findIndexFrom_some (s : Nat) (ms : List JSObject) (e : JSValue) (i : Nat)
    (h : findIndexFrom s ms e = Except.ok (some i)) :
    s ≤ i ∧ i - s < ms.length ∧
      ∃ n, e.get "name" = Except.ok n ∧
        (memberProp ms (i - s) "name").strictEquals n = true := by
  induction ms generalizing s with
  | nil => simp [findIndexFrom] at h
  | cons m rest ih =>
    unfold findIndexFrom at h
    cases hn : e.get "name" with
    | error err => rw [hn] at h; simp at h
    | ok n =>
      rw [hn] at h
      by_cases hm : (getProp m "name").strictEquals n = true
      · simp only [hm, if_true] at h
        have hi : s = i := by injection h with h1; injection h1
        subst hi
        refine ⟨le_refl _, by simp, n, rfl, ?_⟩
        simpa [memberProp] using hm
      · simp only [hm] at h
        obtain ⟨h1, h2, n', hn', hs⟩ := ih (s + 1) h
        rw [hn] at hn'
        have hsub : i - s = (i - (s + 1)) + 1 := by omega
        refine ⟨by omega, by simp only [List.length_cons]; omega, n', hn', ?_⟩
        rw [hsub]
        simpa [memberProp] using hs

theorem findIndex_some (ms : List JSObject) (e : JSValue) (i : Nat)
    (h : findIndex ms e = Except.ok (some i)) :
    i < ms.length ∧
      ∃ n, e.get "name" = Except.ok n ∧ (memberProp ms i "name").strictEquals n = true := by
  have := findIndexFrom_some 0 ms e i h
  simpa using this

/-- An entry whose `name` can be read is neither `undefined` nor `null`, so
each of its properties can be read. -/
theorem get_ok_of_get_ok (e : JSValue) (k k' : String) (n : JSValue)
    (h : e.get k = Except.ok n) : ∃ v, e.get k' = Except.ok v := by
  cases e <;> simp [JSValue.get] at h ⊢

/-! ## `parseInt` reads back the numeral of an integer -/

theorem digitChar_spec : ∀ d, d < 10 →
    digitValue (digitChar d) = some d ∧ isStrWhiteSpace (digitChar d) = false ∧
      digitChar d ≠ '-' ∧ digitChar d ≠ '+' ∧ digitChar d ≠ 'x' ∧ digitChar d ≠ 'X' := by
  decide

theorem decimalRev_spec (fuel m : Nat) (h : m < fuel) :
    decimalRev fuel m ≠ [] ∧ (∀ d ∈ decimalRev fuel m, d < 10) ∧
      (decimalRev fuel m).foldr (fun d acc => d + 10 * acc) 0 = m := by
  induction fuel generalizing m with
  | zero => omega
  | succ fuel ih =>
    unfold decimalRev
    by_cases hm : m < 10
    · simp [hm]
    · rw [if_neg hm]
      obtain ⟨_, h2, h3⟩ := ih (m / 10) (by omega)
      refine ⟨by simp, ?_, ?_⟩
      · intro d hd
        rcases List.mem_cons.mp hd with hd | hd
        · omega
        · exact h2 d hd
      · rw [List.foldr_cons, h3]
        omega

theorem digitsValue_digits (ds : List Nat) (h : ∀ d ∈ ds, d < 10) :
    digitsValue 10 ((ds.reverse).map digitChar) = ds.foldr (fun d acc => d + 10 * acc) 0 := by
  unfold digitsValue
  rw [List.foldl_map, List.foldl_reverse]
  induction ds with
  | nil => rfl
  | cons d rest ih =>
    rw [List.foldr_cons, List.foldr_cons, ih (fun x hx => h x (List.mem_cons_of_mem _ hx)),
      (digitChar_spec d (h d (List.mem_cons_self _ _))).1]
    simp only [Option.getD_some]
    omega

theorem natToChars_spec (m : Nat) :
    natToChars m ≠ [] ∧ (∀ c ∈ natToChars m, ∃ d, d < 10 ∧ c = digitChar d) ∧
      digitsValue 10 (natToChars m) = m := by
  obtain ⟨h1, h2, h3⟩ := decimalRev_spec (m + 1) m (Nat.lt_succ_self m)
  unfold natToChars
  refine ⟨?_, ?_, ?_⟩
  · simpa using h1
  · intro c hc
    rw [List.mem_map] at hc
    obtain ⟨d, hd, rfl⟩ := hc
    exact ⟨d, h2 d (List.mem_reverse.mp hd), rfl⟩
  · rw [digitsValue_digits _ h2, h3]

theorem parseDigits_all (cs : List Char) (hne : cs ≠ [])
    (h : ∀ c ∈ cs, ∃ d, d < 10 ∧ c = digitChar d) :
    parseDigits 10 cs = some (digitsValue 10 cs) := by
  have htake : cs.takeWhile (isRadixDigit 10) = cs := by
    rw [List.takeWhile_eq_self_iff]
    intro c hc
    obtain ⟨d, hd, rfl⟩ := h c hc
    simp [isRadixDigit, (digitChar_spec d hd).1, hd]
  unfold parseDigits
  rw [htake]
  cases cs with
  | nil => exact absurd rfl hne
  | cons c rest => rfl

theorem parseMagnitude_digits (cs : List Char)
    (h : ∀ c ∈ cs, ∃ d, d < 10 ∧ c = digitChar d) :
    parseMagnitude cs = parseDigits 10 cs := by
  unfold parseMagnitude
  split
  · rename_i rest
    obtain ⟨d, hd, hc⟩ := h 'x' (by simp)
    exact absurd hc.symm (digitChar_spec d hd).2.2.2.2.1
  · rename_i rest
    obtain ⟨d, hd, hc⟩ := h 'X' (by simp)
    exact absurd hc.symm (digitChar_spec d hd).2.2.2.2.2
  · rfl

theorem parseSigned_digits (cs : List Char) (hne : cs ≠ [])
    (h : ∀ c ∈ cs, ∃ d, d < 10 ∧ c = digitChar d) :
    parseSigned cs = some (digitsValue 10 cs : Int) := by
  have hmag : parseMagnitude cs = some (digitsValue 10 cs) := by
    rw [parseMagnitude_digits cs h, parseDigits_all cs hne h]
  unfold parseSigned
  split
  · rename_i rest
    obtain ⟨d, hd, hc⟩ := h '-' (by simp)
    exact absurd hc.symm (digitChar_spec d hd).2.2.1
  · rename_i rest
    obtain ⟨d, hd, hc⟩ := h '+' (by simp)
    exact absurd hc.symm (digitChar_spec d hd).2.2.2.1
  · rw [hmag]
    rfl

theorem parseIntChars_natToChars (m : Nat) : parseIntChars (natToChars m) = some (m : Int) := by
  obtain ⟨hne, hall, hval⟩ := natToChars_spec m
  have hdrop : (natToChars m).dropWhile isStrWhiteSpace = natToChars m := by
    cases hcs : natToChars m with
    | nil => rfl
    | cons c rest =>
      obtain ⟨d, hd, hc⟩ := hall c (by rw [hcs]; simp)
      rw [List.dropWhile_cons, hc, (digitChar_spec d hd).2.1]
      simp
  unfold parseIntChars
  rw [hdrop, parseSigned_digits _ hne hall, hval]

theorem parseIntChars_neg_natToChars (m : Nat) :
    parseIntChars ('-' :: natToChars m) = some (-(m : Int)) := by
  obtain ⟨hne, hall, hval⟩ := natToChars_spec m
  have hmag : parseMagnitude (natToChars m) = some m := by
    rw [parseMagnitude_digits _ hall, parseDigits_all _ hne hall, hval]
  have hdrop : ('-' :: natToChars m).dropWhile isStrWhiteSpace = '-' :: natToChars m := by
    rw [List.dropWhile_cons]
    rfl
  unfold parseIntChars
  rw [hdrop]
  show (parseMagnitude (natToChars m)).map (fun m => - (m : Int)) = _
  rw [hmag]
  rfl

/-! ## Integers and Numbers -/

theorem excessBits_small (fuel n : Nat) (h : n < 2 ^ 53) : excessBits fuel n = 0 := by
  cases fuel with
  | zero => rfl
  | succ fuel =>
    unfold excessBits
    rw [if_pos h]

theorem excessBits_spec (fuel n : Nat) (h : n ≤ fuel) :
    n / 2 ^ excessBits fuel n < 2 ^ 53 ∧
      (2 ^ 53 ≤ n → 2 ^ 52 ≤ n / 2 ^ excessBits fuel n) := by
  induction fuel generalizing n with
  | zero =>
    have : n = 0 := by omega
    subst this
    exact ⟨by rw [Nat.zero_div]; positivity, fun h' => absurd h' (by norm_num)⟩
  | succ fuel ih =>
    by_cases hn : n < 2 ^ 53
    · rw [excessBits_small _ _ hn, pow_zero, Nat.div_one]
      exact ⟨hn, fun h' => absurd hn (by omega)⟩
    · have hstep : excessBits (fuel + 1) n = excessBits fuel (n / 2) + 1 := by
        show (if n < 2 ^ 53 then 0 else excessBits fuel (n / 2) + 1) = _
        rw [if_neg hn]
      have hdiv : n / 2 ^ (excessBits fuel (n / 2) + 1) = n / 2 / 2 ^ excessBits fuel (n / 2) := by
        rw [pow_succ, Nat.mul_comm, Nat.div_div_eq_div_mul]
      have hge : 2 ^ 53 ≤ n := Nat.le_of_not_lt hn
      have h53 : (2 : Nat) ^ 53 = 2 * 2 ^ 52 := by norm_num
      have hle : n / 2 ≤ fuel := by
        have h2 : 1 ≤ 2 ^ 52 := Nat.one_le_two_pow
        omega
      obtain ⟨h1, h2⟩ := ih (n / 2) hle
      rw [hstep, hdiv]
      refine ⟨h1, fun _ => ?_⟩
      by_cases hh : 2 ^ 53 ≤ n / 2
      · exact h2 hh
      · rw [excessBits_small _ _ (Nat.lt_of_not_le hh), pow_zero, Nat.div_one]
        omega

theorem roundTo53_small (n : Nat) (h : n < 2 ^ 53) : roundTo53 n = n := by
  unfold roundTo53
  simp only [excessBits_small n n h, pow_zero, Nat.mod_one, Nat.div_one, Nat.mul_one]
  rw [if_neg (by omega)]

theorem roundToDouble_small (n : Nat) (h : n < 2 ^ 53) : roundToDouble n = some n := by
  have hlt : n < (2 ^ 256) ^ 4 :=
    Nat.lt_of_lt_of_le h (by norm_num)
  unfold roundToDouble
  rw [roundTo53_small n h, if_pos hlt]

theorem roundToDouble_some (n w : Nat) (h : roundToDouble n = some w) :
    w = roundTo53 n ∧ w < (2 ^ 256) ^ 4 := by
  unfold roundToDouble at h
  by_cases hlt : roundTo53 n < (2 ^ 256) ^ 4
  · rw [if_pos hlt] at h
    injection h with h
    rw [← h]
    exact ⟨rfl, hlt⟩
  · rw [if_neg hlt] at h
    exact Option.noConfusion h

/-- The rounded value is at least the multiple of `2 ^ shift` below `n`. -/
theorem roundTo53_ge (n : Nat) :
    n / 2 ^ excessBits n n * 2 ^ excessBits n n ≤ roundTo53 n := by
  unfold roundTo53
  simp only
  split
  · exact Nat.mul_le_mul_right _ (Nat.le_succ _)
  · exact Nat.le_refl _

/-- A bound `c * 2 ^ t` with `c` of at most 53 binary digits that `n` reaches is
reached by the multiple of `2 ^ shift` below `n` as well. -/
theorem grid_ge (n c t : Nat) (hc : c ≤ 2 ^ 53) (h : c * 2 ^ t ≤ n) :
    c * 2 ^ t ≤ n / 2 ^ excessBits n n * 2 ^ excessBits n n := by
  by_cases hs : excessBits n n ≤ t
  · have hdvd : 2 ^ excessBits n n ∣ c * 2 ^ t :=
      Dvd.dvd.mul_left (pow_dvd_pow 2 hs) c
    obtain ⟨k, hk⟩ := hdvd
    rw [hk] at h ⊢
    have hpos : 0 < 2 ^ excessBits n n := by positivity
    have : k ≤ n / 2 ^ excessBits n n := by
      rw [Nat.le_div_iff_mul_le hpos, Nat.mul_comm]
      exact h
    rw [Nat.mul_comm]
    exact Nat.mul_le_mul_right _ this
  · have hn : 2 ^ 53 ≤ n := by
      by_contra hlt
      rw [excessBits_small _ _ (Nat.lt_of_not_le hlt)] at hs
      exact hs (Nat.zero_le _)
    have hq := (excessBits_spec n n (Nat.le_refl _)).2 hn
    have h1 : c * 2 ^ t ≤ 2 ^ 53 * 2 ^ t := Nat.mul_le_mul_right _ hc
    have h2 : 2 ^ 53 * 2 ^ t = 2 ^ 52 * 2 ^ (t + 1) := by
      rw [pow_succ]
      ring
    have h3 : 2 ^ 52 * 2 ^ (t + 1) ≤ 2 ^ 52 * 2 ^ excessBits n n :=
      Nat.mul_le_mul_left _ (Nat.pow_le_pow_right (by norm_num) (by omega))
    have h4 : 2 ^ 52 * 2 ^ excessBits n n ≤ n / 2 ^ excessBits n n * 2 ^ excessBits n n :=
      Nat.mul_le_mul_right _ hq
    calc c * 2 ^ t ≤ 2 ^ 53 * 2 ^ t := h1
      _ = 2 ^ 52 * 2 ^ (t + 1) := h2
      _ ≤ 2 ^ 52 * 2 ^ excessBits n n := h3
      _ ≤ _ := h4

theorem roundToDouble_bound (n w c t : Nat) (hc : c ≤ 2 ^ 53) (h : c * 2 ^ t ≤ n)
    (hw : roundToDouble n = some w) : c * 2 ^ t ≤ w := by
  rw [(roundToDouble_some n w hw).1]
  exact Nat.le_trans (grid_ge n c t hc h) (roundTo53_ge n)

/-- A natural number of `2 ^ 1024` or more has the Number value `Infinity`. -/
theorem roundToDouble_huge (n : Nat) (h : (2 ^ 256) ^ 4 ≤ n) : roundToDouble n = none := by
  have h1024 : (1 : Nat) * 2 ^ 1024 = (2 ^ 256) ^ 4 := by
    rw [← pow_mul, Nat.one_mul]
  have hge : (2 ^ 256) ^ 4 ≤ roundTo53 n := by
    rw [← h1024]
    exact Nat.le_trans (grid_ge n 1 1024 Nat.one_le_two_pow (by rw [h1024]; exact h))
      (roundTo53_ge n)
  unfold roundToDouble
  rw [if_neg (Nat.not_lt_of_le hge)]

/-- Only `x` itself has a Number value `x` below `2 ^ 53`. -/
theorem roundToDouble_eq_small (v x : Nat) (hx : x < 2 ^ 53) (h : roundToDouble v = some x) :
    v = x := by
  by_cases hv : v < 2 ^ 53
  · rw [roundToDouble_small v hv] at h
    injection h
  · exfalso
    have := roundToDouble_bound v x 1 53 Nat.one_le_two_pow
      (by rw [Nat.one_mul]; exact Nat.le_of_not_lt hv) h
    rw [Nat.one_mul] at this
    exact absurd hx (Nat.not_lt_of_le this)

theorem shortestAt_cases (x e : Nat) :
    shortestAt x e = x ∨ roundToDouble (shortestAt x e) = some x := by
  induction e with
  | zero => exact Or.inl rfl
  | succ e ih =>
    unfold shortestAt
    simp only
    split
    · rename_i hlo
      split
      · rename_i hhi
        split
        · exact Or.inr hlo
        · split
          · exact Or.inr hhi
          · split
            · exact Or.inr hlo
            · exact Or.inr hhi
      · exact Or.inr hlo
    · split
      · rename_i hhi
        exact Or.inr hhi
      · exact ih

theorem shortestInt_round (x : Nat) (hx : roundToDouble x = some x) :
    roundToDouble (shortestInt x) = some x := by
  rcases shortestAt_cases x (natToChars x).length with h | h
  · unfold shortestInt
    rw [h]
    exact hx
  · exact h

theorem shortestInt_small (x : Nat) (hx : x < 2 ^ 53) : shortestInt x = x := by
  rcases shortestAt_cases x (natToChars x).length with h | h
  · exact h
  · exact roundToDouble_eq_small _ x hx h

theorem shortestInt_lt (x : Nat) (hx : roundToDouble x = some x) (hlt : x < 10 ^ 21) :
    shortestInt x < 10 ^ 21 := by
  by_contra hge
  have h10 : (5 ^ 21 : Nat) * 2 ^ 21 = 10 ^ 21 := by norm_num
  have := roundToDouble_bound (shortestInt x) x (5 ^ 21) 21 (by norm_num)
    (by rw [h10]; exact Nat.le_of_not_lt hge) (shortestInt_round x hx)
  rw [h10] at this
  exact absurd hlt (Nat.not_lt_of_le this)

theorem wholeToChars_small (x : Nat) (hx : x < 2 ^ 53) : wholeToChars x = natToChars x := by
  have h10 : (2 : Nat) ^ 53 ≤ 10 ^ 21 := by norm_num
  unfold wholeToChars
  rw [shortestInt_small x hx, if_pos (Nat.lt_of_lt_of_le hx h10)]

theorem numToChars_small (n : Int) (h : n.natAbs < 2 ^ 53) :
    numToChars n = if n < 0 then '-' :: natToChars n.natAbs else natToChars n.natAbs := by
  unfold numToChars
  rw [wholeToChars_small _ h]

theorem numberOf_nonneg (v x : Nat) (h : roundToDouble v = some x) :
    numberOf (v : Int) = JSValue.num (x : Int) := by
  unfold numberOf
  rw [Int.natAbs_ofNat, h]
  simp

theorem numberOf_neg (v x : Nat) (h : roundToDouble v = some x) :
    numberOf (-(v : Int)) = JSValue.num (-(x : Int)) := by
  unfold numberOf
  rw [Int.natAbs_neg, Int.natAbs_ofNat, h]
  by_cases hv : v = 0
  · subst hv
    have hx : x = 0 := by
      rw [roundToDouble_small 0 (by positivity)] at h
      injection h with h
      exact h.symm
    subst hx
    simp
  · have : -(v : Int) < 0 := by omega
    simp [this]

/-- What `parseInt` returns is `NaN`, a whole Number or an infinity. -/
theorem numberOf_cases (z : Int) :
    (∃ n : Int, numberOf z = JSValue.num n ∧ (0 ≤ z → 0 ≤ n)) ∨
      numberOf z = JSValue.infinity (decide (z < 0)) := by
  unfold numberOf
  cases roundToDouble z.natAbs with
  | none => exact Or.inr rfl
  | some v =>
    refine Or.inl ⟨_, rfl, fun hz => ?_⟩
    rw [if_neg (by omega)]
    exact Int.ofNat_nonneg v

theorem parseInt_cases (v p : JSValue) (h : parseInt v = Except.ok p) :
    p = JSValue.nan ∨ (∃ n : Int, p = JSValue.num n) ∨ ∃ b, p = JSValue.infinity b := by
  unfold parseInt at h
  cases hc : v.toChars with
  | error e => rw [hc] at h; exact Except.noConfusion h
  | ok cs =>
    rw [hc] at h
    dsimp only at h
    cases hz : parseIntChars cs with
    | none =>
      rw [hz] at h
      injection h with h
      exact Or.inl h.symm
    | some z =>
      rw [hz] at h
      injection h with h
      rcases numberOf_cases z with ⟨n, hn, _⟩ | hinf
      · exact Or.inr (Or.inl ⟨n, by rw [← h, hn]⟩)
      · exact Or.inr (Or.inr ⟨_, by rw [← h, hinf]⟩)

/-- Reading back a number: `parseInt(n)` is `n` for every whole Number `n` of
magnitude below `10 ^ 21`. -/
theorem parseInt_num (n : Int) (hrep : roundToDouble n.natAbs = some n.natAbs)
    (hlt : n.natAbs < 10 ^ 21) : parseInt (JSValue.num n) = Except.ok (JSValue.num n) := by
  have hto : (JSValue.num n).toChars = Except.ok (numToChars n) := by
    simp [JSValue.toChars]
  have hround := shortestInt_round _ hrep
  have hshort := shortestInt_lt _ hrep hlt
  unfold parseInt
  rw [hto]
  dsimp only
  unfold numToChars wholeToChars
  rw [if_pos hshort]
  by_cases hn : n < 0
  · rw [if_pos hn, parseIntChars_neg_natToChars]
    dsimp only
    rw [numberOf_neg _ _ hround]
    congr 2
    omega
  · rw [if_neg hn, parseIntChars_natToChars]
    dsimp only
    rw [numberOf_nonneg _ _ hround]
    congr 2
    omega

/-- Every integer of magnitude up to `2 ^ 53` is a Number. -/
theorem parseInt_num_small (n : Int) (h : n.natAbs < 2 ^ 53) :
    parseInt (JSValue.num n) = Except.ok (JSValue.num n) :=
  parseInt_num n (roundToDouble_small _ h) (Nat.lt_of_lt_of_le h (by norm_num))

theorem parseInt_undefined : parseInt JSValue.undefined = Except.ok JSValue.nan := by
  rfl

/-- `parseInt` returns, with a number or with NaN, on every value that is not an
array and not an object carrying an own property `toString`. -/
theorem parseInt_returns (v : JSValue) (harr : v.isArray = false)
    (hobj : ∀ props, v = JSValue.obj props → hasOwn props "toString" = false) :
    ∃ p, parseInt v = Except.ok p := by
  have hto : ∃ cs, v.toChars = Except.ok cs := by
    cases v with
    | arr items => simp [JSValue.isArray] at harr
    | obj props =>
      refine ⟨"[object Object]".data, ?_⟩
      simp [JSValue.toChars, hobj props rfl]
    | _ => exact ⟨_, rfl⟩
  obtain ⟨cs, hcs⟩ := hto
  unfold parseInt
  rw [hcs]
  dsimp only
  cases parseIntChars cs with
  | none => exact ⟨_, rfl⟩
  | some z => exact ⟨_, rfl⟩

/-! ## The statements of the merge step -/

theorem andThen_memberProp (r : Run) (stmt : List JSObject → Except String (List JSObject))
    (j : Nat) (k : String)
    (hp : ∀ ms ms', stmt ms = Except.ok ms' → memberProp ms' j k = memberProp ms j k) :
    memberProp (r.andThen stmt).members j k = memberProp r.members j k := by
  unfold Run.andThen
  cases r.thrown with
  | some e => rfl
  | none =>
    cases hs : stmt r.members with
    | error e => rfl
    | ok ms => exact hp _ _ hs

theorem assignXP_shape (i : Nat) (e : JSValue) (ms ms' : List JSObject)
    (h : assignXP i e ms = Except.ok ms') : ∃ v, ms' = setMemberProp ms i "xp" v := by
  unfold assignXP at h
  cases hv : e.get "newTotalXP" with
  | error err => rw [hv] at h; simp at h
  | ok v =>
    simp only [hv] at h
    cases hp : parseInt v with
    | error err => simp [hp] at h
    | ok p =>
      simp only [hp] at h
      injection h with h
      exact ⟨_, h.symm⟩

theorem assignStreak_shape (i : Nat) (e : JSValue) (ms ms' : List JSObject)
    (h : assignStreak i e ms = Except.ok ms') : ∃ v, ms' = setMemberProp ms i "streak" v := by
  unfold assignStreak at h
  cases hv : e.get "newTotalStreak" with
  | error err => rw [hv] at h; simp at h
  | ok v =>
    simp only [hv] at h
    cases hp : parseInt v with
    | error err => simp [hp] at h
    | ok p =>
      simp only [hp] at h
      injection h with h
      exact ⟨_, h.symm⟩

theorem assignCommitments_shape (lower : String → String) (i : Nat) (e : JSValue)
    (ms ms' : List JSObject) (h : assignCommitments lower i e ms = Except.ok ms') :
    ∃ v, ms' = setMemberProp ms i "currentCommitments" v := by
  unfold assignCommitments at h
  cases hv : e.get "newCommitmentsAndWeeklyOnes" with
  | error err => rw [hv] at h; simp at h
  | ok v =>
    simp only [hv] at h
    cases hp : firstIsNot lower commitmentsSentinel (arrayOrEmpty v) with
    | error err => simp [hp] at h
    | ok b =>
      cases b with
      | true =>
        simp only [hp] at h
        injection h with h
        exact ⟨_, h.symm⟩
      | false =>
        simp only [hp] at h
        injection h with h
        exact ⟨_, h.symm⟩

theorem assignGoals_shape (lower : String → String) (i : Nat) (e : JSValue)
    (ms ms' : List JSObject) (h : assignGoals lower i e ms = Except.ok ms') :
    ms' = ms ∨ ∃ v, ms' = setMemberProp ms i "currentGoals" v := by
  unfold assignGoals at h
  cases hv : e.get "quarterlyGoals" with
  | error err => rw [hv] at h; simp at h
  | ok v =>
    simp only [hv] at h
    cases hp : firstIsNot lower goalsSentinel (arrayOrEmpty v) with
    | error err => simp [hp] at h
    | ok b =>
      cases b with
      | true =>
        simp only [hp] at h
        injection h with h
        exact Or.inr ⟨_, h.symm⟩
      | false =>
        simp only [hp] at h
        by_cases hl : (arrayOrEmpty v).length = 0
        · rw [if_pos hl] at h
          cases hh : callHasOwnProperty e "quarterlyGoals" with
          | error err => simp [hh] at h
          | ok c =>
            cases c with
            | true =>
              simp only [hh] at h
              injection h with h
              exact Or.inr ⟨_, h.symm⟩
            | false =>
              simp only [hh] at h
              injection h with h
              exact Or.inl h.symm
        · rw [if_neg hl] at h
          injection h with h
          exact Or.inl h.symm

theorem assignPreviousScore_shape (i : Nat) (e : JSValue) (ms ms' : List JSObject)
    (h : assignPreviousScore i e ms = Except.ok ms') :
    ∃ v, ms' = setMemberProp ms i "previousScore" v := by
  unfold assignPreviousScore at h
  cases hv : e.get "scoreForThisWeek" with
  | error err => rw [hv] at h; simp at h
  | ok v =>
    simp only [hv] at h
    injection h with h
    exact ⟨_, h.symm⟩

theorem assignXP_keeps (i : Nat) (e : JSValue) (j : Nat) (k : String) (hk : "xp" ≠ k)
    (ms ms' : List JSObject) (h : assignXP i e ms = Except.ok ms') :
    memberProp ms' j k = memberProp ms j k := by
  obtain ⟨v, rfl⟩ := assignXP_shape i e ms ms' h
  exact memberProp_setMemberProp_key ms i j "xp" k v hk

theorem assignStreak_keeps (i : Nat) (e : JSValue) (j : Nat) (k : String) (hk : "streak" ≠ k)
    (ms ms' : List JSObject) (h : assignStreak i e ms = Except.ok ms') :
    memberProp ms' j k = memberProp ms j k := by
  obtain ⟨v, rfl⟩ := assignStreak_shape i e ms ms' h
  exact memberProp_setMemberProp_key ms i j "streak" k v hk

theorem assignCommitments_keeps (lower : String → String) (i : Nat) (e : JSValue) (j : Nat)
    (k : String) (hk : "currentCommitments" ≠ k)
    (ms ms' : List JSObject) (h : assignCommitments lower i e ms = Except.ok ms') :
    memberProp ms' j k = memberProp ms j k := by
  obtain ⟨v, rfl⟩ := assignCommitments_shape lower i e ms ms' h
  exact memberProp_setMemberProp_key ms i j "currentCommitments" k v hk

theorem assignGoals_keeps (lower : String → String) (i : Nat) (e : JSValue) (j : Nat)
    (k : String) (hk : "currentGoals" ≠ k)
    (ms ms' : List JSObject) (h : assignGoals lower i e ms = Except.ok ms') :
    memberProp ms' j k = memberProp ms j k := by
  rcases assignGoals_shape lower i e ms ms' h with rfl | ⟨v, rfl⟩
  · rfl
  · exact memberProp_setMemberProp_key ms i j "currentGoals" k v hk

theorem assignPreviousScore_keeps (i : Nat) (e : JSValue) (j : Nat) (k : String)
    (hk : "previousScore" ≠ k)
    (ms ms' : List JSObject) (h : assignPreviousScore i e ms = Except.ok ms') :
    memberProp ms' j k = memberProp ms j k := by
  obtain ⟨v, rfl⟩ := assignPreviousScore_shape i e ms ms' h
  exact memberProp_setMemberProp_key ms i j "previousScore" k v hk

theorem mergeEntry_found (lower : String → String) (ms : List JSObject) (e : JSValue) (i : Nat)
    (h : findIndex ms e = Except.ok (some i)) :
    mergeEntry lower ms e =
      ((((({ members := ms, thrown := none } : Run).andThen (assignXP i e)).andThen
        (assignStreak i e)).andThen (assignCommitments lower i e)).andThen
        (assignGoals lower i e)).andThen (assignPreviousScore i e) := by
  unfold mergeEntry
  rw [h]

theorem andThen_ok (ms ms' : List JSObject)
    (stmt : List JSObject → Except String (List JSObject)) (h : stmt ms = Except.ok ms') :
    ({ members := ms, thrown := none } : Run).andThen stmt = { members := ms', thrown := none } := by
  simp [Run.andThen, h]

theorem assignXP_eq (i : Nat) (e v p : JSValue) (ms : List JSObject)
    (hv : e.get "newTotalXP" = Except.ok v) (hp : parseInt v = Except.ok p) :
    assignXP i e ms =
      Except.ok (setMemberProp ms i "xp" (p.orElse (memberProp ms i "xp"))) := by
  simp only [assignXP, hv, hp]

theorem assignStreak_eq (i : Nat) (e v p : JSValue) (ms : List JSObject)
    (hv : e.get "newTotalStreak" = Except.ok v) (hp : parseInt v = Except.ok p) :
    assignStreak i e ms =
      Except.ok (setMemberProp ms i "streak" (p.orElse (JSValue.num 0))) := by
  simp only [assignStreak, hv, hp]

theorem assignCommitments_eq (lower : String → String) (i : Nat) (e v : JSValue) (b : Bool)
    (ms : List JSObject) (hv : e.get "newCommitmentsAndWeeklyOnes" = Except.ok v)
    (hb : firstIsNot lower commitmentsSentinel (arrayOrEmpty v) = Except.ok b) :
    assignCommitments lower i e ms =
      Except.ok (setMemberProp ms i "currentCommitments"
        (if b then JSValue.arr (arrayOrEmpty v) else JSValue.arr [])) := by
  cases b <;> simp only [assignCommitments, hv, hb] <;> rfl

/-- The value of `streak` after the merge step, when lines 446 and 447 do not
throw. -/
theorem mergeEntry_streak (lower : String → String) (ms : List JSObject) (e : JSValue) (i : Nat)
    (xv sv xp sp : JSValue)
    (hfind : findIndex ms e = Except.ok (some i))
    (hxv : e.get "newTotalXP" = Except.ok xv) (hxp : parseInt xv = Except.ok xp)
    (hsv : e.get "newTotalStreak" = Except.ok sv) (hsp : parseInt sv = Except.ok sp) :
    memberProp (mergeEntry lower ms e).members i "streak" = sp.orElse (JSValue.num 0) := by
  have hi : i < ms.length := (findIndex_some ms e i hfind).1
  rw [mergeEntry_found lower ms e i hfind,
    andThen_memberProp _ _ i "streak" (assignPreviousScore_keeps i e i "streak" (by decide)),
    andThen_memberProp _ _ i "streak" (assignGoals_keeps lower i e i "streak" (by decide)),
    andThen_memberProp _ _ i "streak"
      (assignCommitments_keeps lower i e i "streak" (by decide)),
    andThen_ok _ _ _ (assignXP_eq i e xv xp ms hxv hxp),
    andThen_ok _ _ _ (assignStreak_eq i e sv sp _ hsv hsp),
    memberProp_setMemberProp_same _ _ _ _ (by rw [length_setMemberProp]; exact hi)]

/-- The value of `xp` after the merge step, when line 446 does not throw: the
parsed number when it is neither NaN nor 0, otherwise the previous value. -/
theorem mergeEntry_xp (lower : String → String) (ms : List JSObject) (e : JSValue) (i : Nat)
    (xv xp : JSValue)
    (hfind : findIndex ms e = Except.ok (some i))
    (hxv : e.get "newTotalXP" = Except.ok xv) (hxp : parseInt xv = Except.ok xp) :
    memberProp (mergeEntry lower ms e).members i "xp" = xp.orElse (memberProp ms i "xp") := by
  have hi : i < ms.length := (findIndex_some ms e i hfind).1
  rw [mergeEntry_found lower ms e i hfind,
    andThen_memberProp _ _ i "xp" (assignPreviousScore_keeps i e i "xp" (by decide)),
    andThen_memberProp _ _ i "xp" (assignGoals_keeps lower i e i "xp" (by decide)),
    andThen_memberProp _ _ i "xp" (assignCommitments_keeps lower i e i "xp" (by decide)),
    andThen_memberProp _ _ i "xp" (assignStreak_keeps i e i "xp" (by decide)),
    andThen_ok _ _ _ (assignXP_eq i e xv xp ms hxv hxp),
    memberProp_setMemberProp_same _ _ _ _ hi]

/-- The value of `currentCommitments` after the merge step, when lines 446 to
455 do not throw. -/
theorem mergeEntry_commitments (lower : String → String) (ms : List JSObject) (e : JSValue)
    (i : Nat) (xv sv cv xp sp : JSValue) (b : Bool)
    (hfind : findIndex ms e = Except.ok (some i))
    (hxv : e.get "newTotalXP" = Except.ok xv) (hxp : parseInt xv = Except.ok xp)
    (hsv : e.get "newTotalStreak" = Except.ok sv) (hsp : parseInt sv = Except.ok sp)
    (hcv : e.get "newCommitmentsAndWeeklyOnes" = Except.ok cv)
    (hb : firstIsNot lower commitmentsSentinel (arrayOrEmpty cv) = Except.ok b) :
    memberProp (mergeEntry lower ms e).members i "currentCommitments" =
      (if b then JSValue.arr (arrayOrEmpty cv) else JSValue.arr []) := by
  have hi : i < ms.length := (findIndex_some ms e i hfind).1
  rw [mergeEntry_found lower ms e i hfind,
    andThen_memberProp _ _ i "currentCommitments"
      (assignPreviousScore_keeps i e i "currentCommitments" (by decide)),
    andThen_memberProp _ _ i "currentCommitments"
      (assignGoals_keeps lower i e i "currentCommitments" (by decide)),
    andThen_ok _ _ _ (assignXP_eq i e xv xp ms hxv hxp),
    andThen_ok _ _ _ (assignStreak_eq i e sv sp _ hsv hsp),
    andThen_ok _ _ _ (assignCommitments_eq lower i e cv b _ hcv hb),
    memberProp_setMemberProp_same _ _ _ _
      (by rw [length_setMemberProp, length_setMemberProp]; exact hi)]

/-- C1. Evaluation at the failing input: the registry holds Ann with 100 XP and
the update entry for Ann supplies `newTotalXP: 0`.  `parseInt` reads the
number 0, the merge step runs to its end without an error, and Ann's `xp` is
still 100 afterwards, not 0.  On the entry of the end-to-end example, which
supplies 118, her `xp` becomes 118. -/
theorem C1_zero_xp_not_stored :
    parseInt (JSValue.num 0) = Except.ok (JSValue.num 0) ∧
      (mergeEntry asciiLower [exampleMember]
        (updateForAnn [("newTotalXP", JSValue.num 0), ("newTotalStreak", JSValue.num 0)])).thrown
        = none ∧
      memberProp [exampleMember] 0 "xp" = JSValue.num 100 ∧
      memberProp (mergeEntry asciiLower [exampleMember]
        (updateForAnn [("newTotalXP", JSValue.num 0), ("newTotalStreak", JSValue.num 0)])).members
        0 "xp" = JSValue.num 100 ∧
      memberProp (mergeEntry asciiLower [exampleMember] exampleUpdate).members 0 "xp" =
        JSValue.num 118 :=
  ⟨rfl, rfl, rfl, rfl, rfl⟩

/-- C2, as amended. For an update entry whose name matches the registry member
at index `i` and on which lines 446 and 447 do not throw (`parseInt` returns
on `newTotalXP` and on `newTotalStreak`): after the merge step the member's
`streak` is the number `parseInt` reads from `newTotalStreak`, or 0 when that
is `NaN` or 0, whatever the streak was before.  So a supplied whole number `n`
of magnitude below `10 ^ 21` gives `n` (7 gives 7); an absent field, `null`, a
boolean and an infinity give 0; and in general, for a value with the text
`cs`, the streak is the Number value for the integer read at the start of
`cs`, and 0 when no integer is read there. -/
theorem C2_streak_replaced_or_reset (toLowerCase : String → String) (members : List JSObject)
    (aiMemberData : JSValue) (i : Nat) (xpValue streakValue xpParsed streakParsed : JSValue)
    (hfind : findIndex members aiMemberData = Except.ok (some i))
    (hxv : aiMemberData.get "newTotalXP" = Except.ok xpValue)
    (hxp : parseInt xpValue = Except.ok xpParsed)
    (hsv : aiMemberData.get "newTotalStreak" = Except.ok streakValue)
    (hsp : parseInt streakValue = Except.ok streakParsed) :
    memberProp (mergeEntry toLowerCase members aiMemberData).members i "streak" =
        streakParsed.orElse (JSValue.num 0) ∧
      (∀ n : Int, roundToDouble n.natAbs = some n.natAbs → n.natAbs < 10 ^ 21 →
        streakValue = JSValue.num n →
        memberProp (mergeEntry toLowerCase members aiMemberData).members i "streak" =
          JSValue.num n) ∧
      (streakValue = JSValue.undefined ∨ streakValue = JSValue.null ∨
          (∃ b, streakValue = JSValue.bool b) ∨ (∃ b, streakValue = JSValue.infinity b) →
        memberProp (mergeEntry toLowerCase members aiMemberData).members i "streak" =
          JSValue.num 0) ∧
      (streakParsed = JSValue.nan →
        memberProp (mergeEntry toLowerCase members aiMemberData).members i "streak" =
          JSValue.num 0) ∧
      (∀ cs, streakValue.toChars = Except.ok cs →
        memberProp (mergeEntry toLowerCase members aiMemberData).members i "streak" =
          match parseIntChars cs with
          | some z => (numberOf z).orElse (JSValue.num 0)
          | none => JSValue.num 0) := by
  have hmain := mergeEntry_streak toLowerCase members aiMemberData i xpValue streakValue
    xpParsed streakParsed hfind hxv hxp hsv hsp
  refine ⟨hmain, ?_, ?_, ?_, ?_⟩
  · intro n hrep hlt hn
    rw [hn, parseInt_num n hrep hlt] at hsp
    injection hsp with h
    rw [hmain, ← h]
    by_cases h0 : n = 0
    · subst h0; rfl
    · simp [JSValue.orElse, JSValue.truthy, h0]
  · intro hv
    have hnan : streakParsed = JSValue.nan := by
      rcases hv with h | h | ⟨b, h⟩ | ⟨b, h⟩
      · rw [h] at hsp
        injection hsp with h'
        exact h'.symm
      · rw [h] at hsp
        injection hsp with h'
        exact h'.symm
      · rw [h] at hsp
        cases b
        · injection hsp with h'
          exact h'.symm
        · injection hsp with h'
          exact h'.symm
      · rw [h] at hsp
        cases b
        · injection hsp with h'
          exact h'.symm
        · injection hsp with h'
          exact h'.symm
    rw [hmain, hnan]
    rfl
  · intro hnan
    rw [hmain, hnan]
    rfl
  · intro cs hcs
    unfold parseInt at hsp
    rw [hcs] at hsp
    dsimp only at hsp
    rw [hmain]
    cases hz : parseIntChars cs with
    | none =>
      rw [hz] at hsp
      injection hsp with h
      rw [← h]
      rfl
    | some z =>
      rw [hz] at hsp
      injection hsp with h
      rw [← h]

/-- C2, at an instance: Ann has streak 3 and the entry supplies
`newTotalStreak: 7`; the merge step leaves her streak at 7. -/
theorem C2_streak_replaced_or_reset_witness :
    findIndex [exampleMember]
        (updateForAnn [("newTotalXP", JSValue.num 118), ("newTotalStreak", JSValue.num 7)]) =
        Except.ok (some 0) ∧
      memberProp (mergeEntry asciiLower [exampleMember]
        (updateForAnn [("newTotalXP", JSValue.num 118), ("newTotalStreak", JSValue.num 7)])).members
        0 "streak" = JSValue.num 7 :=
  ⟨rfl,
    (C2_streak_replaced_or_reset asciiLower [exampleMember]
      (updateForAnn [("newTotalXP", JSValue.num 118), ("newTotalStreak", JSValue.num 7)]) 0
      (JSValue.num 118) (JSValue.num 7) (JSValue.num 118) (JSValue.num 7)
      rfl rfl rfl rfl rfl).2.1 7 (by decide) (by decide) rfl⟩

/-- C2 as stated fails, on a registry that holds Ann with streak 3.  First, a
`newTotalStreak` that is not numeric, the object `{toString: 1}`: line 447
throws, the merge step ends there, and her streak is still 3, not 0 (her `xp`
is already 118).  Second, the valid number 7.5: her streak becomes 7, not
7.5.  Third, the valid number `10 ^ 21`, whose text is `1e+21`: her streak
becomes 1. -/
theorem C2_counterexample :
    (mergeEntry asciiLower [exampleMember] (updateForAnn
        [("newTotalXP", JSValue.num 118),
         ("newTotalStreak", JSValue.obj [("toString", JSValue.num 1)])])).thrown =
        some "TypeError: Cannot convert object to primitive value" ∧
      memberProp (mergeEntry asciiLower [exampleMember] (updateForAnn
        [("newTotalXP", JSValue.num 118),
         ("newTotalStreak", JSValue.obj [("toString", JSValue.num 1)])])).members
        0 "streak" = JSValue.num 3 ∧
      memberProp (mergeEntry asciiLower [exampleMember] (updateForAnn
        [("newTotalXP", JSValue.num 118),
         ("newTotalStreak", JSValue.obj [("toString", JSValue.num 1)])])).members
        0 "xp" = JSValue.num 118 ∧
      (mergeEntry asciiLower [exampleMember] (updateForAnn
        [("newTotalXP", JSValue.num 118), ("newTotalStreak", JSValue.frac "7.5")])).thrown =
        none ∧
      memberProp (mergeEntry asciiLower [exampleMember] (updateForAnn
        [("newTotalXP", JSValue.num 118), ("newTotalStreak", JSValue.frac "7.5")])).members
        0 "streak" = JSValue.num 7 ∧
      (JSValue.num (10 ^ 21)).toChars = Except.ok "1e+21".data ∧
      memberProp (mergeEntry asciiLower [exampleMember] (updateForAnn
        [("newTotalXP", JSValue.num 118), ("newTotalStreak", JSValue.num (10 ^ 21))])).members
        0 "streak" = JSValue.num 1 :=
  ⟨rfl, rfl, rfl, rfl, rfl, rfl, rfl⟩

/-- C3, as amended. For an update entry whose name matches the registry member
at index `i`, on which lines 446 and 447 do not throw (`parseInt` returns on
`newTotalXP` and on `newTotalStreak`), and whose `newCommitmentsAndWeeklyOnes`
is a list of strings `L`: when the lower-cased first element of `L` is the
sentinel, the member's `currentCommitments` is the empty list after the merge
step; in every other case it is exactly `L`.  Either way the new value is
fixed by `L` alone, so nothing of the previous commitments is kept. -/
theorem C3_commitments_replaced_or_cleared (toLowerCase : String → String)
    (members : List JSObject) (aiMemberData : JSValue) (i : Nat)
    (xpValue streakValue xpParsed streakParsed : JSValue) (L : List String)
    (hfind : findIndex members aiMemberData = Except.ok (some i))
    (hxv : aiMemberData.get "newTotalXP" = Except.ok xpValue)
    (hxp : parseInt xpValue = Except.ok xpParsed)
    (hsv : aiMemberData.get "newTotalStreak" = Except.ok streakValue)
    (hsp : parseInt streakValue = Except.ok streakParsed)
    (hL : aiMemberData.get "newCommitmentsAndWeeklyOnes" =
      Except.ok (JSValue.arr (L.map JSValue.str))) :
    (L.head?.map toLowerCase = some commitmentsSentinel →
        memberProp (mergeEntry toLowerCase members aiMemberData).members i
          "currentCommitments" = JSValue.arr []) ∧
      (L.head?.map toLowerCase ≠ some commitmentsSentinel →
        memberProp (mergeEntry toLowerCase members aiMemberData).members i
          "currentCommitments" = JSValue.arr (L.map JSValue.str)) := by
  have hb : firstIsNot toLowerCase commitmentsSentinel
      (arrayOrEmpty (JSValue.arr (L.map JSValue.str))) =
      Except.ok (decide (L.head?.map toLowerCase ≠ some commitmentsSentinel ∧ L ≠ [])) := by
    cases L with
    | nil => simp [arrayOrEmpty, firstIsNot]
    | cons s rest => simp [arrayOrEmpty, firstIsNot]
  have hmain := mergeEntry_commitments toLowerCase members aiMemberData i xpValue streakValue _
    xpParsed streakParsed _ hfind hxv hxp hsv hsp hL hb
  constructor
  · intro hs
    rw [hmain]
    simp [hs]
  · intro hs
    rw [hmain]
    cases L with
    | nil => simp [arrayOrEmpty]
    | cons s rest =>
      have hs' : toLowerCase s ≠ commitmentsSentinel := by simpa using hs
      simp [hs', arrayOrEmpty]

/-- C3, at an instance: Ann holds the commitment "Walk daily" and the entry
brings the sentinel with capital letters; her commitments are cleared. -/
theorem C3_commitments_replaced_or_cleared_witness :
    (List.head? ["Unknown - AI could not determine commitments/weekly ones"]).map asciiLower
        = some commitmentsSentinel ∧
      memberProp (mergeEntry asciiLower [exampleMember]
        (updateForAnn [("newCommitmentsAndWeeklyOnes",
          JSValue.arr [JSValue.str
            "Unknown - AI could not determine commitments/weekly ones"])])).members
        0 "currentCommitments" = JSValue.arr [] :=
  ⟨by decide,
    (C3_commitments_replaced_or_cleared asciiLower [exampleMember]
      (updateForAnn [("newCommitmentsAndWeeklyOnes",
          JSValue.arr [JSValue.str
            "Unknown - AI could not determine commitments/weekly ones"])]) 0
      JSValue.undefined JSValue.undefined JSValue.nan JSValue.nan
      ["Unknown - AI could not determine commitments/weekly ones"] rfl rfl rfl rfl rfl rfl).1
      (by decide)⟩

/-- C3 as stated fails, on a registry that holds Ann with the commitment "Walk
daily".  The entry is matched and its `newCommitmentsAndWeeklyOnes` is the list
of strings `["Run 5k"]`, whose first element is not the sentinel; its
`newTotalXP` is the object `{toString: 1}`.  Line 446 throws before line 452 is
reached, and "Walk daily" is still her commitment after the merge step. -/
theorem C3_counterexample :
    findIndex [exampleMember] (updateForAnn
        [("newTotalXP", JSValue.obj [("toString", JSValue.num 1)]),
         ("newCommitmentsAndWeeklyOnes", JSValue.arr [JSValue.str "Run 5k"])]) =
        Except.ok (some 0) ∧
      (mergeEntry asciiLower [exampleMember] (updateForAnn
        [("newTotalXP", JSValue.obj [("toString", JSValue.num 1)]),
         ("newCommitmentsAndWeeklyOnes", JSValue.arr [JSValue.str "Run 5k"])])).thrown =
        some "TypeError: Cannot convert object to primitive value" ∧
      memberProp [exampleMember] 0 "currentCommitments" =
        JSValue.arr [JSValue.str "Walk daily"] ∧
      memberProp (mergeEntry asciiLower [exampleMember] (updateForAnn
        [("newTotalXP", JSValue.obj [("toString", JSValue.num 1)]),
         ("newCommitmentsAndWeeklyOnes", JSValue.arr [JSValue.str "Run 5k"])])).members
        0 "currentCommitments" = JSValue.arr [JSValue.str "Walk daily"] :=
  ⟨rfl, rfl, rfl, rfl⟩

theorem assignGoals_replace (lower : String → String) (i : Nat) (e : JSValue) (s : String)
    (rest : List JSValue) (ms : List JSObject)
    (hv : e.get "quarterlyGoals" = Except.ok (JSValue.arr (JSValue.str s :: rest)))
    (hs : lower s ≠ goalsSentinel) :
    assignGoals lower i e ms =
      Except.ok (setMemberProp ms i "currentGoals" (JSValue.arr (JSValue.str s :: rest))) := by
  simp [assignGoals, hv, arrayOrEmpty, firstIsNot, hs]

theorem assignGoals_clear (lower : String → String) (i : Nat) (e : JSValue) (ms : List JSObject)
    (hv : e.get "quarterlyGoals" = Except.ok (JSValue.arr []))
    (hh : callHasOwnProperty e "quarterlyGoals" = Except.ok true) :
    assignGoals lower i e ms = Except.ok (setMemberProp ms i "currentGoals" (JSValue.arr [])) := by
  simp [assignGoals, hv, arrayOrEmpty, firstIsNot, hh]

/-- A field that the entry does not have reads as `undefined`. -/
theorem get_of_not_hasOwnProperty (e : JSValue) (k : String)
    (hh : callHasOwnProperty e k = Except.ok false) : e.get k = Except.ok JSValue.undefined := by
  cases e with
  | obj props =>
    unfold callHasOwnProperty at hh
    by_cases hs : hasOwn props "hasOwnProperty" = true
    · simp [hs] at hh
    · simp only [hs] at hh
      have hk : hasOwn props k = false := by simpa using hh
      unfold hasOwn at hk
      have hnone : findProp props k = none := by
        cases hf : findProp props k with
        | none => rfl
        | some w => rw [hf] at hk; simp at hk
      simp [JSValue.get, getProp, hnone]
  | undefined => simp [callHasOwnProperty] at hh
  | null => simp [callHasOwnProperty] at hh
  | bool b => rfl
  | num n => rfl
  | str s => rfl
  | nan => rfl
  | infinity b => rfl
  | frac t => rfl
  | arr items => rfl

theorem assignGoals_absent (lower : String → String) (i : Nat) (e : JSValue) (ms : List JSObject)
    (hh : callHasOwnProperty e "quarterlyGoals" = Except.ok false) :
    assignGoals lower i e ms = Except.ok ms := by
  simp [assignGoals, get_of_not_hasOwnProperty e "quarterlyGoals" hh, arrayOrEmpty, firstIsNot, hh]

/-- The member list when the merge step reaches line 457: lines 446 to 455 have
run without throwing. -/
theorem mergeEntry_before_goals (lower : String → String) (ms : List JSObject) (e : JSValue)
    (i : Nat) (xv sv cv : JSValue) (xp sp : JSValue) (b : Bool)
    (hfind : findIndex ms e = Except.ok (some i))
    (hxv : e.get "newTotalXP" = Except.ok xv) (hxp : parseInt xv = Except.ok xp)
    (hsv : e.get "newTotalStreak" = Except.ok sv) (hsp : parseInt sv = Except.ok sp)
    (hcv : e.get "newCommitmentsAndWeeklyOnes" = Except.ok cv)
    (hb : firstIsNot lower commitmentsSentinel (arrayOrEmpty cv) = Except.ok b) :
    ∃ ms3, ms3.length = ms.length ∧
      memberProp ms3 i "currentGoals" = memberProp ms i "currentGoals" ∧
      memberProp (mergeEntry lower ms e).members i "currentGoals" =
        memberProp (({ members := ms3, thrown := none } : Run).andThen
          (assignGoals lower i e)).members i "currentGoals" := by
  refine ⟨setMemberProp (setMemberProp (setMemberProp ms i "xp"
      (xp.orElse (memberProp ms i "xp"))) i "streak" (sp.orElse (JSValue.num 0))) i
      "currentCommitments" (if b then JSValue.arr (arrayOrEmpty cv) else JSValue.arr []),
    ?_, ?_, ?_⟩
  · simp [length_setMemberProp]
  · rw [memberProp_setMemberProp_key _ _ _ _ _ _ (by decide),
      memberProp_setMemberProp_key _ _ _ _ _ _ (by decide),
      memberProp_setMemberProp_key _ _ _ _ _ _ (by decide)]
  · rw [mergeEntry_found lower ms e i hfind,
      andThen_memberProp _ _ i "currentGoals"
        (assignPreviousScore_keeps i e i "currentGoals" (by decide)),
      andThen_ok _ _ _ (assignXP_eq i e xv xp ms hxv hxp),
      andThen_ok _ _ _ (assignStreak_eq i e sv sp _ hsv hsp),
      andThen_ok _ _ _ (assignCommitments_eq lower i e cv b _ hcv hb)]

/-- The three cases of `quarterlyGoals`, when lines 446 to 455 run without
throwing. -/
theorem mergeEntry_goals_cases (toLowerCase : String → String) (members : List JSObject)
    (aiMemberData : JSValue) (i : Nat) (xpValue streakValue commitmentsValue : JSValue)
    (xpParsed streakParsed : JSValue) (keep : Bool)
    (hfind : findIndex members aiMemberData = Except.ok (some i))
    (hxv : aiMemberData.get "newTotalXP" = Except.ok xpValue)
    (hxp : parseInt xpValue = Except.ok xpParsed)
    (hsv : aiMemberData.get "newTotalStreak" = Except.ok streakValue)
    (hsp : parseInt streakValue = Except.ok streakParsed)
    (hcv : aiMemberData.get "newCommitmentsAndWeeklyOnes" = Except.ok commitmentsValue)
    (hkeep : firstIsNot toLowerCase commitmentsSentinel (arrayOrEmpty commitmentsValue) =
      Except.ok keep) :
    (∀ (s : String) (rest : List JSValue),
        aiMemberData.get "quarterlyGoals" = Except.ok (JSValue.arr (JSValue.str s :: rest)) →
        toLowerCase s ≠ goalsSentinel →
        memberProp (mergeEntry toLowerCase members aiMemberData).members i "currentGoals" =
          JSValue.arr (JSValue.str s :: rest)) ∧
      (aiMemberData.get "quarterlyGoals" = Except.ok (JSValue.arr []) →
        callHasOwnProperty aiMemberData "quarterlyGoals" = Except.ok true →
        memberProp (mergeEntry toLowerCase members aiMemberData).members i "currentGoals" =
          JSValue.arr []) ∧
      (callHasOwnProperty aiMemberData "quarterlyGoals" = Except.ok false →
        memberProp (mergeEntry toLowerCase members aiMemberData).members i "currentGoals" =
          memberProp members i "currentGoals") := by
  have hi : i < members.length := (findIndex_some members aiMemberData i hfind).1
  obtain ⟨ms3, hlen, hold, hrun⟩ := mergeEntry_before_goals toLowerCase members aiMemberData i
    xpValue streakValue commitmentsValue xpParsed streakParsed keep hfind hxv hxp hsv hsp hcv
    hkeep
  refine ⟨?_, ?_, ?_⟩
  · intro s rest hv hs
    rw [hrun, andThen_ok _ _ _ (assignGoals_replace toLowerCase i aiMemberData s rest ms3 hv hs),
      memberProp_setMemberProp_same _ _ _ _ (by rw [hlen]; exact hi)]
  · intro hv hh
    rw [hrun, andThen_ok _ _ _ (assignGoals_clear toLowerCase i aiMemberData ms3 hv hh),
      memberProp_setMemberProp_same _ _ _ _ (by rw [hlen]; exact hi)]
  · intro hh
    rw [hrun, andThen_ok _ _ _ (assignGoals_absent toLowerCase i aiMemberData ms3 hh), hold]

/-! ### A merge step that does not throw has run every line -/

theorem andThen_thrown_none (r : Run) (stmt : List JSObject → Except String (List JSObject))
    (h : (r.andThen stmt).thrown = none) :
    r.thrown = none ∧ ∃ ms, stmt r.members = Except.ok ms := by
  unfold Run.andThen at h
  cases ht : r.thrown with
  | some e => rw [ht] at h; simp only [] at h; rw [ht] at h; exact absurd h (by simp)
  | none =>
    rw [ht] at h
    simp only [] at h
    cases hs : stmt r.members with
    | error e => rw [hs] at h; simp at h
    | ok ms => exact ⟨rfl, ms, rfl⟩

theorem andThen_eq_of_ok (r : Run) (stmt : List JSObject → Except String (List JSObject))
    (ms : List JSObject) (ht : r.thrown = none) (hs : stmt r.members = Except.ok ms) :
    r.andThen stmt = { members := ms, thrown := none } := by
  simp [Run.andThen, ht, hs]

theorem assignXP_ok_inv (i : Nat) (e : JSValue) (ms ms' : List JSObject)
    (h : assignXP i e ms = Except.ok ms') :
    ∃ v p, e.get "newTotalXP" = Except.ok v ∧ parseInt v = Except.ok p := by
  unfold assignXP at h
  cases hv : e.get "newTotalXP" with
  | error err => simp [hv] at h
  | ok v =>
    simp only [hv] at h
    cases hp : parseInt v with
    | error err => simp [hp] at h
    | ok p => exact ⟨v, p, rfl, hp⟩

theorem assignStreak_ok_inv (i : Nat) (e : JSValue) (ms ms' : List JSObject)
    (h : assignStreak i e ms = Except.ok ms') :
    ∃ v p, e.get "newTotalStreak" = Except.ok v ∧ parseInt v = Except.ok p := by
  unfold assignStreak at h
  cases hv : e.get "newTotalStreak" with
  | error err => simp [hv] at h
  | ok v =>
    simp only [hv] at h
    cases hp : parseInt v with
    | error err => simp [hp] at h
    | ok p => exact ⟨v, p, rfl, hp⟩

theorem assignCommitments_ok_inv (lower : String → String) (i : Nat) (e : JSValue)
    (ms ms' : List JSObject) (h : assignCommitments lower i e ms = Except.ok ms') :
    ∃ v b, e.get "newCommitmentsAndWeeklyOnes" = Except.ok v ∧
      firstIsNot lower commitmentsSentinel (arrayOrEmpty v) = Except.ok b := by
  unfold assignCommitments at h
  cases hv : e.get "newCommitmentsAndWeeklyOnes" with
  | error err => simp [hv] at h
  | ok v =>
    simp only [hv] at h
    cases hp : firstIsNot lower commitmentsSentinel (arrayOrEmpty v) with
    | error err => simp [hp] at h
    | ok b => exact ⟨v, b, rfl, hp⟩

/-- When line 461 evaluates on a non-empty list without throwing, the first
element is a string. -/
theorem firstIsNot_ok_inv (lower : String → String) (sentinel : String) (first : JSValue)
    (rest : List JSValue) (b : Bool)
    (h : firstIsNot lower sentinel (first :: rest) = Except.ok b) :
    ∃ s, first = JSValue.str s := by
  cases first <;> simp [firstIsNot] at h
  exact ⟨_, rfl⟩

theorem assignGoals_ok_inv (lower : String → String) (i : Nat) (e : JSValue)
    (ms ms' : List JSObject) (h : assignGoals lower i e ms = Except.ok ms') :
    ∃ v b, e.get "quarterlyGoals" = Except.ok v ∧
      firstIsNot lower goalsSentinel (arrayOrEmpty v) = Except.ok b ∧
      (arrayOrEmpty v = [] → ∃ c, callHasOwnProperty e "quarterlyGoals" = Except.ok c) := by
  unfold assignGoals at h
  cases hv : e.get "quarterlyGoals" with
  | error err => simp [hv] at h
  | ok v =>
    simp only [hv] at h
    cases hp : firstIsNot lower goalsSentinel (arrayOrEmpty v) with
    | error err => simp [hp] at h
    | ok b =>
      refine ⟨v, b, rfl, hp, ?_⟩
      intro hnil
      have hb : b = false := by
        rw [hnil] at hp
        simp only [firstIsNot] at hp
        injection hp with hp
        exact hp.symm
      subst hb
      simp only [hp] at h
      simp only [hnil, List.length_nil, if_true] at h
      cases hc : callHasOwnProperty e "quarterlyGoals" with
      | error err => simp [hc] at h
      | ok c => exact ⟨c, rfl⟩

/-- C4, as amended.  For an update entry whose name matches the registry member
at index `i` and on which the merge step does not throw: a non-empty
`quarterlyGoals` list whose first element, lower-cased, is not the sentinel
replaces `currentGoals` with exactly that list; a `quarterlyGoals` field that
is present and is the empty list sets `currentGoals` to the empty list; a
`quarterlyGoals` field that the entry does not have leaves `currentGoals` as it
was. -/
theorem C4_goals_three_cases (toLowerCase : String → String) (members : List JSObject)
    (aiMemberData : JSValue) (i : Nat)
    (hfind : findIndex members aiMemberData = Except.ok (some i))
    (hok : (mergeEntry toLowerCase members aiMemberData).thrown = none) :
    (∀ (first : JSValue) (rest : List JSValue),
        aiMemberData.get "quarterlyGoals" = Except.ok (JSValue.arr (first :: rest)) →
        (∀ s, first = JSValue.str s → toLowerCase s ≠ goalsSentinel) →
        memberProp (mergeEntry toLowerCase members aiMemberData).members i "currentGoals" =
          JSValue.arr (first :: rest)) ∧
      (aiMemberData.get "quarterlyGoals" = Except.ok (JSValue.arr []) →
        memberProp (mergeEntry toLowerCase members aiMemberData).members i "currentGoals" =
          JSValue.arr []) ∧
      ((∀ props, aiMemberData = JSValue.obj props → hasOwn props "quarterlyGoals" = false) →
        memberProp (mergeEntry toLowerCase members aiMemberData).members i "currentGoals" =
          memberProp members i "currentGoals") := by
  rw [mergeEntry_found toLowerCase members aiMemberData i hfind] at hok
  obtain ⟨hok4, ms5, _⟩ := andThen_thrown_none _ _ hok
  obtain ⟨hok3, ms4, hgoals⟩ := andThen_thrown_none _ _ hok4
  obtain ⟨hok2, ms3, hcomm⟩ := andThen_thrown_none _ _ hok3
  obtain ⟨hok1, ms2, hstreak⟩ := andThen_thrown_none _ _ hok2
  obtain ⟨_, ms1, hxp⟩ := andThen_thrown_none _ _ hok1
  obtain ⟨xv, xp, hxv, hxpp⟩ := assignXP_ok_inv _ _ _ _ hxp
  obtain ⟨sv, sp, hsv, hspp⟩ := assignStreak_ok_inv _ _ _ _ hstreak
  obtain ⟨cv, keep, hcv, hkeep⟩ := assignCommitments_ok_inv _ _ _ _ _ hcomm
  obtain ⟨qv, b, hqv, hb, hcall⟩ := assignGoals_ok_inv _ _ _ _ _ hgoals
  obtain ⟨c1, c2, c3⟩ := mergeEntry_goals_cases toLowerCase members aiMemberData i xv sv cv xp sp
    keep hfind hxv hxpp hsv hspp hcv hkeep
  refine ⟨?_, ?_, ?_⟩
  · intro first rest hq hfirst
    rw [hq] at hqv
    injection hqv with hqv
    subst hqv
    obtain ⟨s, rfl⟩ := firstIsNot_ok_inv toLowerCase goalsSentinel first rest b hb
    exact c1 s rest hq (hfirst s rfl)
  · intro hq
    rw [hq] at hqv
    injection hqv with hqv
    subst hqv
    obtain ⟨c, hc⟩ := hcall rfl
    have hc' : c = true := by
      cases aiMemberData with
      | obj props =>
        have hg : getProp props "quarterlyGoals" = JSValue.arr [] := by
          simpa [JSValue.get] using hq
        have hown : hasOwn props "quarterlyGoals" = true := by
          unfold hasOwn
          unfold getProp at hg
          cases hf : findProp props "quarterlyGoals" with
          | none => rw [hf] at hg; simp at hg
          | some w => rfl
        unfold callHasOwnProperty at hc
        by_cases hs : hasOwn props "hasOwnProperty" = true
        · simp [hs] at hc
        · simp only [hs, hown] at hc
          injection hc with hc
          exact hc.symm
      | undefined => simp [JSValue.get] at hq
      | null => simp [JSValue.get] at hq
      | bool v => simp [JSValue.get] at hq
      | num v => simp [JSValue.get] at hq
      | str v => simp [JSValue.get] at hq
      | nan => simp [JSValue.get] at hq
      | infinity v => simp [JSValue.get] at hq
      | frac v => simp [JSValue.get] at hq
      | arr v => simp [JSValue.get] at hq
    subst hc'
    exact c2 hq hc
  · intro habsent
    apply c3
    cases aiMemberData with
    | obj props =>
      have hq : qv = getProp props "quarterlyGoals" := by
        simp only [JSValue.get] at hqv
        injection hqv with hqv
        exact hqv.symm
      have hnone : findProp props "quarterlyGoals" = none := by
        have := habsent props rfl
        unfold hasOwn at this
        cases hf : findProp props "quarterlyGoals" with
        | none => rfl
        | some w => rw [hf] at this; simp at this
      have hqu : qv = JSValue.undefined := by rw [hq]; simp [getProp, hnone]
      obtain ⟨c, hc⟩ := hcall (by rw [hqu]; rfl)
      unfold callHasOwnProperty at hc ⊢
      by_cases hs : hasOwn props "hasOwnProperty" = true
      · simp [hs] at hc
      · simp only [hs, habsent props rfl]
        rfl
    | undefined => simp [JSValue.get] at hqv
    | null => simp [JSValue.get] at hqv
    | bool v => rfl
    | num v => rfl
    | str v => rfl
    | nan => rfl
    | infinity v => rfl
    | frac v => rfl
    | arr v => rfl

/-- C4 as amended, at an instance: Ann holds the goal "Read 12 books" and the
entry brings `quarterlyGoals: ["Ship v2"]`; her goals become that list. -/
theorem C4_goals_three_cases_witness :
    (mergeEntry asciiLower [exampleMember]
        (updateForAnn [("quarterlyGoals", JSValue.arr [JSValue.str "Ship v2"])])).thrown = none ∧
      asciiLower "Ship v2" ≠ goalsSentinel ∧
      memberProp (mergeEntry asciiLower [exampleMember]
        (updateForAnn [("quarterlyGoals", JSValue.arr [JSValue.str "Ship v2"])])).members
        0 "currentGoals" = JSValue.arr [JSValue.str "Ship v2"] :=
  ⟨rfl, by decide,
    (C4_goals_three_cases asciiLower [exampleMember]
      (updateForAnn [("quarterlyGoals", JSValue.arr [JSValue.str "Ship v2"])]) 0 rfl rfl).1
      (JSValue.str "Ship v2") [] rfl
      (fun s hs => by
        injection hs with hs
        subst hs
        decide)⟩

/-- C4 as stated fails.  Ann holds the goal "Read 12 books".  An entry with
`quarterlyGoals: ["Unknown - AI could not determine goals"]` brings a non-empty
list whose first element is not the string of the sentinel, the merge step
runs to its end, and Ann's goals are still ["Read 12 books"]: the comparison
at line 461 is made on the lower-cased element.  An entry with
`quarterlyGoals: [5]` makes line 461 throw, and Ann's goals are again
unchanged. -/
theorem C4_counterexample :
    "Unknown - AI could not determine goals" ≠ goalsSentinel ∧
      (mergeEntry asciiLower [exampleMember]
        (updateForAnn [("quarterlyGoals",
          JSValue.arr [JSValue.str "Unknown - AI could not determine goals"])])).thrown = none ∧
      memberProp (mergeEntry asciiLower [exampleMember]
        (updateForAnn [("quarterlyGoals",
          JSValue.arr [JSValue.str "Unknown - AI could not determine goals"])])).members
        0 "currentGoals" = JSValue.arr [JSValue.str "Read 12 books"] ∧
      (mergeEntry asciiLower [exampleMember]
        (updateForAnn [("quarterlyGoals", JSValue.arr [JSValue.num 5])])).thrown =
        some "TypeError: toLowerCase is not a function" ∧
      memberProp (mergeEntry asciiLower [exampleMember]
        (updateForAnn [("quarterlyGoals", JSValue.arr [JSValue.num 5])])).members
        0 "currentGoals" = JSValue.arr [JSValue.str "Read 12 books"] :=
  ⟨by decide, rfl, rfl, rfl, rfl⟩

/-! ## What the merge leaves alone -/

theorem changedOnlyAt_refl (i : Nat) (ms : List JSObject) : ChangedOnlyAt i ms ms :=
  ⟨rfl, fun _ _ => rfl, fun _ _ _ => rfl⟩

theorem changedOnlyAt_trans (i : Nat) (a b c : List JSObject) (hab : ChangedOnlyAt i a b)
    (hbc : ChangedOnlyAt i b c) : ChangedOnlyAt i a c :=
  ⟨hbc.1.trans hab.1, fun j hj => (hbc.2.1 j hj).trans (hab.2.1 j hj),
    fun j k hk => (hbc.2.2 j k hk).trans (hab.2.2 j k hk)⟩

theorem changedOnlyAt_set (i : Nat) (ms : List JSObject) (k : String) (v : JSValue)
    (hk : k ∈ mergedFields) : ChangedOnlyAt i ms (setMemberProp ms i k v) :=
  ⟨length_setMemberProp ms i k v, fun j hj => getElem?_setMemberProp_ne ms i j k v (Ne.symm hj),
    fun j k' hk' => memberProp_setMemberProp_key ms i j k k' v (fun h => hk' (h ▸ hk))⟩

theorem changedOnlyAt_andThen (i : Nat) (ms : List JSObject) (r : Run)
    (stmt : List JSObject → Except String (List JSObject)) (hr : ChangedOnlyAt i ms r.members)
    (hs : ∀ a b, stmt a = Except.ok b → ChangedOnlyAt i a b) :
    ChangedOnlyAt i ms (r.andThen stmt).members := by
  unfold Run.andThen
  cases r.thrown with
  | some e => exact hr
  | none =>
    cases hst : stmt r.members with
    | error e => exact hr
    | ok b => exact changedOnlyAt_trans i _ _ _ hr (hs _ _ hst)

theorem mergeEntry_changedOnlyAt (lower : String → String) (ms : List JSObject) (e : JSValue)
    (i : Nat) (hfind : findIndex ms e = Except.ok (some i)) :
    ChangedOnlyAt i ms (mergeEntry lower ms e).members := by
  rw [mergeEntry_found lower ms e i hfind]
  refine changedOnlyAt_andThen i ms _ _ (changedOnlyAt_andThen i ms _ _
    (changedOnlyAt_andThen i ms _ _ (changedOnlyAt_andThen i ms _ _
    (changedOnlyAt_andThen i ms _ _ (changedOnlyAt_refl i ms) ?_) ?_) ?_) ?_) ?_
  · intro a b h
    obtain ⟨v, rfl⟩ := assignXP_shape i e a b h
    exact changedOnlyAt_set i a _ v (by decide)
  · intro a b h
    obtain ⟨v, rfl⟩ := assignStreak_shape i e a b h
    exact changedOnlyAt_set i a _ v (by decide)
  · intro a b h
    obtain ⟨v, rfl⟩ := assignCommitments_shape lower i e a b h
    exact changedOnlyAt_set i a _ v (by decide)
  · intro a b h
    rcases assignGoals_shape lower i e a b h with rfl | ⟨v, rfl⟩
    · exact changedOnlyAt_refl i _
    · exact changedOnlyAt_set i a _ v (by decide)
  · intro a b h
    obtain ⟨v, rfl⟩ := assignPreviousScore_shape i e a b h
    exact changedOnlyAt_set i a _ v (by decide)

/-- An entry that names no member, or on which the search throws, changes
nothing. -/
theorem mergeEntry_not_found (lower : String → String) (ms : List JSObject) (e : JSValue)
    (h : ∀ i, findIndex ms e ≠ Except.ok (some i)) : (mergeEntry lower ms e).members = ms := by
  unfold mergeEntry
  cases hf : findIndex ms e with
  | error err => rfl
  | ok r =>
    cases r with
    | none => rfl
    | some i => exact absurd hf (h i)

theorem mergeEntry_frame (lower : String → String) (ms : List JSObject) (e : JSValue) :
    (mergeEntry lower ms e).members.length = ms.length ∧
      (∀ j k, k ∉ mergedFields →
        memberProp (mergeEntry lower ms e).members j k = memberProp ms j k) ∧
      (∀ (j : Nat) (m : JSObject), ms[j]? = some m →
        (∀ n, e.get "name" = Except.ok n → (getProp m "name").strictEquals n = false) →
        (mergeEntry lower ms e).members[j]? = some m) := by
  by_cases h : ∃ i, findIndex ms e = Except.ok (some i)
  · obtain ⟨i, hi⟩ := h
    obtain ⟨h1, h2, h3⟩ := mergeEntry_changedOnlyAt lower ms e i hi
    refine ⟨h1, h3, ?_⟩
    intro j m hj hname
    obtain ⟨_, n, hn, heq⟩ := findIndex_some ms e i hi
    have hne : j ≠ i := by
      intro hji
      subst hji
      have : memberProp ms j "name" = getProp m "name" := by simp [memberProp, hj]
      rw [this, hname n hn] at heq
      exact Bool.noConfusion heq
    rw [h2 j hne, hj]
  · have hno : ∀ i, findIndex ms e ≠ Except.ok (some i) := fun i hi => h ⟨i, hi⟩
    rw [mergeEntry_not_found lower ms e hno]
    exact ⟨rfl, fun _ _ _ => rfl, fun j m hj _ => hj⟩

theorem forEachEntry_frame (lower : String → String) (entries : List JSValue)
    (ms : List JSObject) :
    (forEachEntry lower entries ms).members.length = ms.length ∧
      (∀ j k, k ∉ mergedFields →
        memberProp (forEachEntry lower entries ms).members j k = memberProp ms j k) ∧
      (∀ (j : Nat) (m : JSObject), ms[j]? = some m →
        (∀ e ∈ entries, ∀ n, e.get "name" = Except.ok n →
          (getProp m "name").strictEquals n = false) →
        (forEachEntry lower entries ms).members[j]? = some m) := by
  induction entries generalizing ms with
  | nil => exact ⟨rfl, fun _ _ _ => rfl, fun j m hj _ => hj⟩
  | cons e rest ih =>
    obtain ⟨h1, h2, h3⟩ := mergeEntry_frame lower ms e
    unfold forEachEntry
    cases ht : (mergeEntry lower ms e).thrown with
    | some err =>
      exact ⟨h1, h2, fun j m hj hn => h3 j m hj (hn e (List.mem_cons_self _ _))⟩
    | none =>
      obtain ⟨g1, g2, g3⟩ := ih (mergeEntry lower ms e).members
      refine ⟨g1.trans h1, fun j k hk => (g2 j k hk).trans (h2 j k hk), ?_⟩
      intro j m hj hn
      exact g3 j m (h3 j m hj (hn e (List.mem_cons_self _ _)))
        (fun e' he' => hn e' (List.mem_cons_of_mem _ he'))

/-- The members after `processAIData`: those it started with when the response
is rejected before the loop, otherwise those the loop over the entries left. -/
theorem processAIData_members (lower : String → String) (aiData : JSValue) (appData : AppState) :
    (processAIData lower aiData appData).appData.members = appData.members ∨
      ∃ items, aiData.get "members" = Except.ok (JSValue.arr items) ∧
        (processAIData lower aiData appData).appData.members =
          (forEachEntry lower items appData.members).members := by
  unfold processAIData
  cases hm : aiData.get "members" with
  | error err => exact Or.inl rfl
  | ok ms =>
    cases ms with
    | arr items =>
      simp only [JSValue.truthy, JSValue.isArray, Bool.not_true, Bool.or_self, Bool.false_eq_true,
        if_false, arrayOrEmpty]
      cases hn : updateNextCallContent aiData appData.nextCallContent with
      | error err => exact Or.inl rfl
      | ok ncc =>
        right
        refine ⟨items, rfl, ?_⟩
        simp only []
        rcases hrun : forEachEntry lower items appData.members with ⟨members, thrown⟩
        cases thrown with
        | some err => rfl
        | none =>
          simp only []
          cases logWinner aiData <;> rfl
    | undefined => exact Or.inl rfl
    | null => exact Or.inl rfl
    | bool b => left; cases b <;> rfl
    | num n => left; simp [JSValue.truthy, JSValue.isArray]
    | str s => left; simp [JSValue.truthy, JSValue.isArray]
    | nan => left; rfl
    | infinity b => left; simp [JSValue.truthy, JSValue.isArray]
    | frac t => left; simp [JSValue.truthy, JSValue.isArray]
    | obj props => left; simp [JSValue.truthy, JSValue.isArray]

/-- C5. After `submitAIData`, whatever the pasted text and whatever the entries
of the response: the registry has as many members as before, in the same
places; every property other than the five merged ones, in particular `name`
and `avatar`, reads as before for every member; a member whose name equals
the name of no entry is the same record as before; and an entry that names no
member leaves the registry as it is. -/
theorem C5_registry_frame (toLowerCase : String → String)
    (parseJSON : String → Except String JSValue) (jsonInput : String) (appData : AppState) :
    (submitAIData toLowerCase parseJSON jsonInput appData).appData.members.length =
        appData.members.length ∧
      (∀ (j : Nat),
        memberProp (submitAIData toLowerCase parseJSON jsonInput appData).appData.members j
            "name" = memberProp appData.members j "name" ∧
          memberProp (submitAIData toLowerCase parseJSON jsonInput appData).appData.members j
            "avatar" = memberProp appData.members j "avatar") ∧
      (∀ (j : Nat) (k : String), k ∉ mergedFields →
        memberProp (submitAIData toLowerCase parseJSON jsonInput appData).appData.members j k =
          memberProp appData.members j k) ∧
      (∀ (j : Nat) (m : JSObject), appData.members[j]? = some m →
        (∀ aiData items, parseJSON jsonInput = Except.ok aiData →
          aiData.get "members" = Except.ok (JSValue.arr items) →
          ∀ e ∈ items, ∀ n, e.get "name" = Except.ok n →
            (getProp m "name").strictEquals n = false) →
        (submitAIData toLowerCase parseJSON jsonInput appData).appData.members[j]? = some m) ∧
      (∀ (members : List JSObject) (e : JSValue), findIndex members e = Except.ok none →
        mergeEntry toLowerCase members e = { members := members, thrown := none }) := by
  have key : (submitAIData toLowerCase parseJSON jsonInput appData).appData.members =
        appData.members ∨
      ∃ aiData items, parseJSON jsonInput = Except.ok aiData ∧
        aiData.get "members" = Except.ok (JSValue.arr items) ∧
        (submitAIData toLowerCase parseJSON jsonInput appData).appData.members =
          (forEachEntry toLowerCase items appData.members).members := by
    unfold submitAIData
    by_cases hempty : jsonInput = ""
    · exact Or.inl (by rw [if_pos hempty])
    · rw [if_neg hempty]
      cases hp : parseJSON jsonInput with
      | error err => exact Or.inl rfl
      | ok aiData =>
        rcases processAIData_members toLowerCase aiData appData with h | ⟨items, h1, h2⟩
        · exact Or.inl h
        · exact Or.inr ⟨aiData, items, rfl, h1, h2⟩
  have hframe : (submitAIData toLowerCase parseJSON jsonInput appData).appData.members.length =
        appData.members.length ∧
      (∀ (j : Nat) (k : String), k ∉ mergedFields →
        memberProp (submitAIData toLowerCase parseJSON jsonInput appData).appData.members j k =
          memberProp appData.members j k) := by
    rcases key with h | ⟨aiData, items, _, _, h⟩
    · rw [h]
      exact ⟨rfl, fun _ _ _ => rfl⟩
    · rw [h]
      exact ⟨(forEachEntry_frame toLowerCase items appData.members).1,
        (forEachEntry_frame toLowerCase items appData.members).2.1⟩
  refine ⟨hframe.1, fun j => ⟨hframe.2 j "name" (by decide), hframe.2 j "avatar" (by decide)⟩,
    hframe.2, ?_, ?_⟩
  · intro j m hj hnames
    rcases key with h | ⟨aiData, items, hp, hm, h⟩
    · rw [h, hj]
    · rw [h]
      exact (forEachEntry_frame toLowerCase items appData.members).2.2 j m hj
        (hnames aiData items hp hm)
  · intro members e hfind
    unfold mergeEntry
    rw [hfind]

/-- C6. When the pasted text parses to a document whose `members` field is not an
array (missing, or any other kind of value), `submitAIData` ends in its `catch`
block with an error message and `appData` is what it was: the members and the
whole of `nextCallContent`. -/
theorem C6_missing_members_rejected (toLowerCase : String → String)
    (parseJSON : String → Except String JSValue) (jsonInput : String) (appData : AppState)
    (aiData : JSValue) (hne : jsonInput ≠ "") (hparse : parseJSON jsonInput = Except.ok aiData)
    (hbad : ∀ items, aiData.get "members" ≠ Except.ok (JSValue.arr items)) :
    ∃ message, submitAIData toLowerCase parseJSON jsonInput appData =
      { appData := appData, status := Status.failed message } := by
  unfold submitAIData
  rw [if_neg hne, hparse]
  show ∃ message, processAIData toLowerCase aiData appData = _
  unfold processAIData
  cases hm : aiData.get "members" with
  | error err => exact ⟨err, rfl⟩
  | ok ms =>
    cases ms with
    | arr items => exact absurd hm (hbad items)
    | undefined => exact ⟨_, rfl⟩
    | null => exact ⟨_, rfl⟩
    | bool b => cases b <;> exact ⟨_, rfl⟩
    | num n =>
      exact ⟨"Submitted JSON is missing the \x27members\x27 array or it\x27s not an array.",
        by simp [JSValue.truthy, JSValue.isArray]⟩
    | str s =>
      exact ⟨"Submitted JSON is missing the \x27members\x27 array or it\x27s not an array.",
        by simp [JSValue.truthy, JSValue.isArray]⟩
    | nan => exact ⟨_, rfl⟩
    | infinity b =>
      exact ⟨"Submitted JSON is missing the \x27members\x27 array or it\x27s not an array.",
        by simp [JSValue.truthy, JSValue.isArray]⟩
    | frac t =>
      exact ⟨"Submitted JSON is missing the \x27members\x27 array or it\x27s not an array.",
        by simp [JSValue.truthy, JSValue.isArray]⟩
    | obj props =>
      exact ⟨"Submitted JSON is missing the \x27members\x27 array or it\x27s not an array.",
        by simp [JSValue.truthy, JSValue.isArray]⟩

/-- C6, at an instance: a response that carries a well-formed `nextCallContent`
and no `members` is rejected and the state, joke and question included, stays
as it was. -/
theorem C6_missing_members_rejected_witness :
    (∀ items, responseWithoutMembers.get "members" ≠ Except.ok (JSValue.arr items)) ∧
      ∃ message,
        submitAIData asciiLower (fun _ => Except.ok responseWithoutMembers) "response" exampleState =
          { appData := exampleState, status := Status.failed message } :=
  ⟨(fun _ h => by cases h),
    C6_missing_members_rejected asciiLower (fun _ => Except.ok responseWithoutMembers) "response"
      exampleState responseWithoutMembers (by decide) rfl (fun _ h => by cases h)⟩

/-- C7. Evaluation at two failing inputs, on a registry that holds Ann (100 XP,
streak 3, commitment "Walk daily", score "N/A").  First, a response whose entry
for Ann has the number 5 as first element of `newCommitmentsAndWeeklyOnes`:
line 453 throws a TypeError, `submitAIData` ends in its `catch` block, and Ann
is left half merged, with the new `xp` 118 and `streak` 4 but the old
commitments and the old score.  Second, a response whose `members` array holds
`null`: reading `aiMemberData.name` throws a TypeError. -/
theorem C7_merge_loop_throws :
    (submitAIData asciiLower (fun _ => Except.ok responseWithNumberInCommitments) "response"
        exampleState).status = Status.failed "TypeError: toLowerCase is not a function" ∧
      memberProp (submitAIData asciiLower (fun _ => Except.ok responseWithNumberInCommitments)
        "response" exampleState).appData.members 0 "xp" = JSValue.num 118 ∧
      memberProp (submitAIData asciiLower (fun _ => Except.ok responseWithNumberInCommitments)
        "response" exampleState).appData.members 0 "streak" = JSValue.num 4 ∧
      memberProp (submitAIData asciiLower (fun _ => Except.ok responseWithNumberInCommitments)
        "response" exampleState).appData.members 0 "currentCommitments" =
        JSValue.arr [JSValue.str "Walk daily"] ∧
      memberProp (submitAIData asciiLower (fun _ => Except.ok responseWithNumberInCommitments)
        "response" exampleState).appData.members 0 "previousScore" = JSValue.str "N/A" ∧
      (submitAIData asciiLower (fun _ => Except.ok responseWithNullEntry) "response"
        exampleState).status =
        Status.failed "TypeError: Cannot read properties of null (reading name)" :=
  ⟨rfl, rfl, rfl, rfl, rfl, rfl⟩

/-! ## Normalising and importing -/

theorem findProp_normalize_base (props : JSObject) (k : String) :
    findProp (spreadInto (spreadInto [] (JSValue.obj defaultMemberStructure))
      (JSValue.obj props)) k =
      match findProp props k with
      | some v => some v
      | none => findProp defaultMemberStructure k := by
  have h : spreadInto (spreadInto [] (JSValue.obj defaultMemberStructure)) (JSValue.obj props) =
      props.foldl (fun o p => setProp o p.1 p.2)
        (spreadInto [] (JSValue.obj defaultMemberStructure)) := rfl
  rw [h, findProp_foldl_setProp, findProp_spread_copy]

/-- The record `normalizeMember` builds from an object: the defaults overlaid
with the properties of the object, with `avatar` set to the avatar of the
object when that is truthy and to the path built from the text of the name
otherwise. -/
theorem normalizeMember_obj (props : JSObject) :
    normalizeMember (JSValue.obj props) =
      if (getProp props "avatar").truthy then
        Except.ok (setProp
          (spreadInto (spreadInto [] (JSValue.obj defaultMemberStructure)) (JSValue.obj props))
          "avatar" (getProp props "avatar"))
      else
        match (getProp props "name").toChars with
        | Except.error e => Except.error e
        | Except.ok cs =>
          Except.ok (setProp
            (spreadInto (spreadInto [] (JSValue.obj defaultMemberStructure))
              (JSValue.obj props))
            "avatar" (JSValue.str ("avatars/" ++ String.mk cs ++ ".png"))) := by
  unfold normalizeMember
  simp only [JSValue.get]
  by_cases ha : (getProp props "avatar").truthy = true
  · simp only [ha, if_true]
  · simp only [ha, avatarPath]
    cases (getProp props "name").toChars <;> rfl

theorem normalizeMembers_ok (items : List JSValue)
    (hall : ∀ m ∈ items, ∃ o, normalizeMember m = Except.ok o) :
    ∃ ms, normalizeMembers items = Except.ok ms := by
  induction items with
  | nil => exact ⟨[], rfl⟩
  | cons m rest ih =>
    obtain ⟨o, ho⟩ := hall m (List.mem_cons_self _ _)
    obtain ⟨os, hos⟩ := ih (fun x hx => hall x (List.mem_cons_of_mem _ hx))
    exact ⟨o :: os, by simp [normalizeMembers, ho, hos]⟩

/-- The list `map` returns has one record per element, built from the element
at the same place. -/
theorem normalizeMembers_getElem (items : List JSValue) (ms : List JSObject)
    (h : normalizeMembers items = Except.ok ms) :
    ms.length = items.length ∧
      ∀ (i : Nat) (m : JSValue), items[i]? = some m →
        ∃ o, ms[i]? = some o ∧ normalizeMember m = Except.ok o := by
  induction items generalizing ms with
  | nil =>
    simp only [normalizeMembers] at h
    injection h with h
    subst h
    exact ⟨rfl, fun i m hi => by simp at hi⟩
  | cons x rest ih =>
    unfold normalizeMembers at h
    cases hx : normalizeMember x with
    | error e => simp [hx] at h
    | ok o =>
      simp only [hx] at h
      cases hr : normalizeMembers rest with
      | error e => simp [hr] at h
      | ok os =>
        simp only [hr] at h
        injection h with h
        subst h
        obtain ⟨hlen, hget⟩ := ih os hr
        refine ⟨by simp [hlen], fun i m hi => ?_⟩
        cases i with
        | zero =>
          simp only [List.getElem?_cons_zero, Option.some.injEq] at hi
          subst hi
          exact ⟨o, List.getElem?_cons_zero, hx⟩
        | succ i =>
          simp only [List.getElem?_cons_succ] at hi ⊢
          exact hget i m hi

theorem findProp_default_none (k : String)
    (hk : k ∉ ["xp", "streak", "currentGoals", "currentCommitments", "previousScore", "avatar"]) :
    findProp defaultMemberStructure k = none := by
  simp only [List.mem_cons, List.mem_singleton, List.not_mem_nil, or_false, not_or] at hk
  obtain ⟨h1, h2, h3, h4, h5, _⟩ := hk
  simp [defaultMemberStructure, findProp, Ne.symm h1, Ne.symm h2, Ne.symm h3, Ne.symm h4,
    Ne.symm h5]

/-- The two assignments shared by load and import, on a document whose `members`
is an array that `map` goes through without an error. -/
theorem assignFromDocument_members (doc : JSValue) (items : List JSValue) (ms : List JSObject)
    (appData : AppState) (hm : doc.get "members" = Except.ok (JSValue.arr items))
    (hms : normalizeMembers items = Except.ok ms) :
    ∃ s, assignFromDocument doc appData = Except.ok s ∧ s.members = ms := by
  obtain ⟨ncc, hncc⟩ := get_ok_of_get_ok doc "members" "nextCallContent" _ hm
  have h : assignFromDocument doc appData =
      Except.ok
        { members := ms
          nextCallContent :=
            spreadInto (spreadInto [] (JSValue.obj appData.nextCallContent))
              (ncc.orElse (JSValue.obj [])) } := by
    unfold assignFromDocument
    rw [hm]
    dsimp only
    have harr : (JSValue.arr items).orElse (JSValue.arr []) = JSValue.arr items := rfl
    rw [harr]
    unfold mapNormalize
    dsimp only
    rw [hms]
    dsimp only
    rw [hncc]
  exact ⟨_, h, rfl⟩

/-- C8, as amended. Let `items` be the `members` array of a parsed document, none
of whose elements makes the normalising callback throw.  Then load (from
`localStorage` and from the seed file) and import (when the guard of line 521
lets the document through) store the same list, one record per element; and
for an element that is an object `m`, the record `o` stored at its place has:
for each of `xp`, `streak`, `currentGoals`, `currentCommitments` and
`previousScore` the value `m` carries for it, and the default of
`defaultMemberStructure` (0, 0, [], [], "N/A") when `m` does not carry it; as
`avatar` the avatar of `m` when that is truthy, and otherwise the string
`avatars/<name>.png` built from the text of `m.name`; all five fields and
`avatar` present; and every other property as `m` has it. -/
theorem C8_stored_records_normalized (parseJSON : String → Except String JSValue)
    (text : String) (fileData : Option JSValue) (doc : JSValue) (items : List JSValue)
    (appData : AppState) (hne : text ≠ "") (hp : parseJSON text = Except.ok doc)
    (hm : doc.get "members" = Except.ok (JSValue.arr items))
    (hall : ∀ m ∈ items, ∃ o, normalizeMember m = Except.ok o) :
    ∃ stored : List JSObject,
      (loadAppDataFromLocalStorage parseJSON (some text) fileData appData).members = stored ∧
      (loadInitialFileOrUseDefaults (some doc) appData).members = stored ∧
      (importGuard doc = Except.ok true →
        (handleImportFile parseJSON text appData).appData.members = stored) ∧
      stored.length = items.length ∧
      ∀ (i : Nat) (props : JSObject), items[i]? = some (JSValue.obj props) →
        ∃ o, stored[i]? = some o ∧
          (∀ k d, (k, d) ∈ defaultMemberStructure →
            getProp o k = if hasOwn props k then getProp props k else d) ∧
          defaultMemberStructure =
            [("xp", JSValue.num 0), ("streak", JSValue.num 0), ("currentGoals", JSValue.arr []),
             ("currentCommitments", JSValue.arr []), ("previousScore", JSValue.str "N/A")] ∧
          ((getProp props "avatar").truthy = true →
            getProp o "avatar" = getProp props "avatar") ∧
          ((getProp props "avatar").truthy = false →
            ∃ cs, (getProp props "name").toChars = Except.ok cs ∧
              getProp o "avatar" = JSValue.str ("avatars/" ++ String.mk cs ++ ".png")) ∧
          (∀ name, getProp props "name" = JSValue.str name →
            (getProp props "avatar").truthy = false →
            getProp o "avatar" = JSValue.str ("avatars/" ++ name ++ ".png")) ∧
          (hasOwn props "avatar" = false → (getProp props "avatar").truthy = false) ∧
          (∀ k ∈ ["xp", "streak", "currentGoals", "currentCommitments", "previousScore",
              "avatar"], hasOwn o k = true) ∧
          (∀ k, k ∉ ["xp", "streak", "currentGoals", "currentCommitments", "previousScore",
              "avatar"] → getProp o k = getProp props k) := by
  obtain ⟨ms, hms⟩ := normalizeMembers_ok items hall
  obtain ⟨s, hs, hsm⟩ := assignFromDocument_members doc items ms appData hm hms
  obtain ⟨hlen, hget⟩ := normalizeMembers_getElem items ms hms
  refine ⟨ms, ?_, ?_, ?_, hlen, ?_⟩
  · simp [loadAppDataFromLocalStorage, hne, hp, hs, hsm]
  · simp [loadInitialFileOrUseDefaults, hs, hsm]
  · intro hg
    simp [handleImportFile, hp, hg, hs, hsm]
  · intro i props hi
    obtain ⟨o, ho, hnorm⟩ := hget i _ hi
    refine ⟨o, ho, ?_⟩
    rw [normalizeMember_obj] at hnorm
    have hshape : ∃ a, o = setProp
        (spreadInto (spreadInto [] (JSValue.obj defaultMemberStructure)) (JSValue.obj props))
        "avatar" a ∧
        ((getProp props "avatar").truthy = true → a = getProp props "avatar") ∧
        ((getProp props "avatar").truthy = false →
          ∃ cs, (getProp props "name").toChars = Except.ok cs ∧
            a = JSValue.str ("avatars/" ++ String.mk cs ++ ".png")) := by
      by_cases ha : (getProp props "avatar").truthy = true
      · rw [if_pos ha] at hnorm
        injection hnorm with hnorm
        exact ⟨_, hnorm.symm, fun _ => rfl, fun hf => by rw [ha] at hf; cases hf⟩
      · rw [if_neg ha] at hnorm
        cases hcs : (getProp props "name").toChars with
        | error e => rw [hcs] at hnorm; exact Except.noConfusion hnorm
        | ok cs =>
          rw [hcs] at hnorm
          injection hnorm with hnorm
          exact ⟨_, hnorm.symm, fun ht => absurd ht ha, fun _ => ⟨cs, rfl, rfl⟩⟩
    obtain ⟨a, rfl, hat, haf⟩ := hshape
    refine ⟨?_, rfl, ?_, ?_, ?_, ?_, ?_, ?_⟩
    · intro k d hk
      have hka : "avatar" ≠ k := by
        intro h
        subst h
        revert hk
        simp [defaultMemberStructure]
      have hd : findProp defaultMemberStructure k = some d := by
        simp only [defaultMemberStructure, List.mem_cons, Prod.mk.injEq, List.mem_singleton,
          List.not_mem_nil, or_false] at hk
        rcases hk with ⟨rfl, rfl⟩ | ⟨rfl, rfl⟩ | ⟨rfl, rfl⟩ | ⟨rfl, rfl⟩ | ⟨rfl, rfl⟩ <;> rfl
      unfold getProp hasOwn
      rw [findProp_setProp, if_neg hka, findProp_normalize_base, hd]
      cases findProp props k <;> rfl
    · intro ha
      rw [getProp_setProp, if_pos rfl, hat ha]
    · intro ha
      obtain ⟨cs, hcs, hav⟩ := haf ha
      exact ⟨cs, hcs, by rw [getProp_setProp, if_pos rfl, hav]⟩
    · intro name hname ha
      obtain ⟨cs, hcs, hav⟩ := haf ha
      rw [hname] at hcs
      have hcs' : cs = name.data := by
        simp only [JSValue.toChars] at hcs
        injection hcs with hcs
        exact hcs.symm
      rw [getProp_setProp, if_pos rfl, hav, hcs']
    · intro hno
      have : findProp props "avatar" = none := by
        unfold hasOwn at hno
        cases hf : findProp props "avatar" with
        | none => rfl
        | some w => rw [hf] at hno; simp at hno
      simp [getProp, this, JSValue.truthy]
    · intro k hk
      unfold hasOwn
      rw [findProp_setProp]
      by_cases hka : "avatar" = k
      · rw [if_pos hka]; rfl
      · rw [if_neg hka, findProp_normalize_base]
        have hd : ∃ d, findProp defaultMemberStructure k = some d := by
          simp only [List.mem_cons, List.mem_singleton, List.not_mem_nil, or_false] at hk
          rcases hk with rfl | rfl | rfl | rfl | rfl | rfl
          · exact ⟨_, rfl⟩
          · exact ⟨_, rfl⟩
          · exact ⟨_, rfl⟩
          · exact ⟨_, rfl⟩
          · exact ⟨_, rfl⟩
          · exact absurd rfl hka
        obtain ⟨d, hd⟩ := hd
        rw [hd]
        cases findProp props k <;> rfl
    · intro k hk
      have hka : "avatar" ≠ k := by
        intro h
        subst h
        exact hk (by simp)
      unfold getProp
      rw [findProp_setProp, if_neg hka, findProp_normalize_base, findProp_default_none k hk]
      cases findProp props k <;> rfl

/-- C8 as amended, at an instance: the stored text holds one record,
`{name: "Zed", xp: 5}`; load stores one record, with `xp` 5, `streak` 0 and
the avatar `avatars/Zed.png`. -/
theorem C8_stored_records_normalized_witness :
    ∃ stored : List JSObject,
      (loadAppDataFromLocalStorage (fun _ => Except.ok fileWithZed) "stored" none
        exampleState).members = stored ∧
      stored.length = 1 ∧
      ∃ o, stored[0]? = some o ∧ getProp o "name" = JSValue.str "Zed" ∧
        getProp o "xp" = JSValue.num 5 ∧ getProp o "streak" = JSValue.num 0 ∧
        getProp o "avatar" = JSValue.str "avatars/Zed.png" :=
  (C8_stored_records_normalized (fun _ => Except.ok fileWithZed) "stored" none fileWithZed
    [JSValue.obj [("name", JSValue.str "Zed"), ("xp", JSValue.num 5)]] exampleState
    (by decide) rfl rfl
    (by
      intro m hm
      rw [List.mem_singleton] at hm
      subst hm
      exact ⟨_, rfl⟩)).elim
    (fun stored h =>
      ⟨stored, h.1, h.2.2.2.1,
        (h.2.2.2.2 0 [("name", JSValue.str "Zed"), ("xp", JSValue.num 5)] rfl).elim
          (fun o ho =>
            ⟨o, ho.1,
              (ho.2.2.2.2.2.2.2.2 "name" (by decide)).trans rfl,
              (ho.2.1 "xp" (JSValue.num 0) (by simp [defaultMemberStructure])).trans rfl,
              (ho.2.1 "streak" (JSValue.num 0) (by simp [defaultMemberStructure])).trans rfl,
              ho.2.2.2.2.2.1 "Zed" rfl rfl⟩)⟩)

/-- C8 as stated fails.  First, the record `{name: "Zed", avatar: ""}` supplies an
avatar, the empty string, and so does `{name: "Zed", avatar: 0}`; the record
built has the avatar `avatars/Zed.png` both times, since the fallback of
`m.avatar || ...` is taken for every falsy avatar.  Second, the record
`{name: {toString: 1}}` has a name, and building its avatar throws: import
rejects the file and leaves the registry as it was, so no normalised record
is built from it. -/
theorem C8_counterexample :
    normalizeMember (JSValue.obj [("name", JSValue.str "Zed"), ("avatar", JSValue.str "")]) =
        Except.ok
          [("xp", JSValue.num 0), ("streak", JSValue.num 0), ("currentGoals", JSValue.arr []),
           ("currentCommitments", JSValue.arr []), ("previousScore", JSValue.str "N/A"),
           ("name", JSValue.str "Zed"), ("avatar", JSValue.str "avatars/Zed.png")] ∧
      (handleImportFile (fun _ => Except.ok fileWithEmptyAvatar) "file"
        exampleState).appData.members =
        [[("xp", JSValue.num 0), ("streak", JSValue.num 0), ("currentGoals", JSValue.arr []),
          ("currentCommitments", JSValue.arr []), ("previousScore", JSValue.str "N/A"),
          ("name", JSValue.str "Zed"), ("avatar", JSValue.str "avatars/Zed.png")]] ∧
      (∃ o, normalizeMember (JSValue.obj [("name", JSValue.str "Zed"), ("avatar", JSValue.num 0)])
          = Except.ok o ∧ getProp o "avatar" = JSValue.str "avatars/Zed.png") ∧
      normalizeMember (JSValue.obj [("name", JSValue.obj [("toString", JSValue.num 1)])]) =
        Except.error "TypeError: Cannot convert object to primitive value" ∧
      (handleImportFile (fun _ => Except.ok fileWithUnreadableName) "file"
        exampleState).appData.members = exampleState.members :=
  ⟨rfl, rfl, ⟨_, rfl, rfl⟩, rfl, rfl⟩

theorem importGuard_false_of_members (doc : JSValue)
    (h : ∀ items, doc.get "members" ≠ Except.ok (JSValue.arr items)) :
    ¬ importGuard doc = Except.ok true := by
  unfold importGuard
  by_cases ht : doc.truthy = true
  · rw [if_pos ht]
    cases hm : doc.get "members" with
    | error err => simp
    | ok ms =>
      cases ms with
      | arr items => exact absurd hm (h items)
      | undefined => simp [JSValue.truthy]
      | null => simp [JSValue.truthy]
      | bool b => simp [JSValue.isArray]
      | num n => simp [JSValue.isArray]
      | str s => simp [JSValue.isArray]
      | nan => simp [JSValue.truthy]
      | infinity b => simp [JSValue.isArray]
      | frac t => simp [JSValue.isArray]
      | obj props => simp [JSValue.isArray]
  · rw [if_neg ht]
    simp

theorem importGuard_false_of_nextCallContent (doc : JSValue)
    (h : ∀ v, doc.get "nextCallContent" = Except.ok v → v.truthy = false) :
    ¬ importGuard doc = Except.ok true := by
  unfold importGuard
  by_cases ht : doc.truthy = true
  · rw [if_pos ht]
    cases hm : doc.get "members" with
    | error err => simp
    | ok ms =>
      simp only []
      by_cases hc : (ms.truthy && ms.isArray) = true
      · rw [if_pos hc]
        cases hn : doc.get "nextCallContent" with
        | error err => simp
        | ok ncc =>
          simp only []
          rw [h ncc hn]
          simp
      · rw [if_neg hc]
        simp
  · rw [if_neg ht]
    simp

/-- An import that does not report success leaves `appData` as it was. -/
theorem handleImportFile_unchanged (parseJSON : String → Except String JSValue)
    (importedText : String) (appData : AppState)
    (h : ∀ doc, parseJSON importedText = Except.ok doc → importGuard doc ≠ Except.ok true) :
    (handleImportFile parseJSON importedText appData).appData = appData ∧
      ((handleImportFile parseJSON importedText appData).result = ImportResult.invalidStructure ∨
        ∃ message,
          (handleImportFile parseJSON importedText appData).result =
            ImportResult.failed message) := by
  unfold handleImportFile
  cases hp : parseJSON importedText with
  | error err => exact ⟨rfl, Or.inr ⟨err, rfl⟩⟩
  | ok doc =>
    dsimp only
    cases hg : importGuard doc with
    | error err => exact ⟨rfl, Or.inr ⟨err, rfl⟩⟩
    | ok b =>
      cases b with
      | false => exact ⟨rfl, Or.inl rfl⟩
      | true => exact absurd hg (h doc hp)

/-- C9, as amended.  If the text of the imported file fails to parse, or the
parsed document does not have both a `members` field that is an array and a
`nextCallContent` field that is truthy (anything except a missing field,
`null`, `false`, 0 and the empty string), then `handleImportFile` rejects it,
reporting an invalid structure or an error, and `appData` (members and
`nextCallContent`) is exactly what it was before the import. -/
theorem C9_import_rejected_keeps_state (parseJSON : String → Except String JSValue)
    (importedText : String) (appData : AppState)
    (hbad : (∃ message, parseJSON importedText = Except.error message) ∨
      ∃ doc, parseJSON importedText = Except.ok doc ∧
        ((∀ items, doc.get "members" ≠ Except.ok (JSValue.arr items)) ∨
          ∀ v, doc.get "nextCallContent" = Except.ok v → v.truthy = false)) :
    (handleImportFile parseJSON importedText appData).appData = appData ∧
      ((handleImportFile parseJSON importedText appData).result = ImportResult.invalidStructure ∨
        ∃ message,
          (handleImportFile parseJSON importedText appData).result =
            ImportResult.failed message) := by
  apply handleImportFile_unchanged
  intro doc hdoc
  rcases hbad with ⟨message, hm⟩ | ⟨doc', hdoc', hcase⟩
  · rw [hm] at hdoc
    cases hdoc
  · rw [hdoc'] at hdoc
    injection hdoc with hdoc
    subst hdoc
    rcases hcase with h | h
    · exact importGuard_false_of_members _ h
    · exact importGuard_false_of_nextCallContent _ h

/-- C9 as amended, at an instance: a file that has `nextCallContent` and no
`members` is rejected as an invalid structure and the state stays as it was. -/
theorem C9_import_rejected_keeps_state_witness :
    (∀ items, responseWithoutMembers.get "members" ≠ Except.ok (JSValue.arr items)) ∧
      (handleImportFile (fun _ => Except.ok responseWithoutMembers) "file" exampleState).appData
        = exampleState :=
  ⟨(fun _ h => by cases h),
    (C9_import_rejected_keeps_state (fun _ => Except.ok responseWithoutMembers) "file"
      exampleState
      (Or.inr ⟨responseWithoutMembers, rfl, Or.inl (fun _ h => by cases h)⟩)).1⟩

/-- C9 as stated fails.  The file holds a `members` array with the one record
`{name: "Zed"}` and `nextCallContent: 1`, a number and not an object.  The file
is reported as imported and the registry, which held Ann, now holds Zed. -/
theorem C9_counterexample :
    fileWithNumberAsNextCallContent.get "nextCallContent" = Except.ok (JSValue.num 1) ∧
      (handleImportFile (fun _ => Except.ok fileWithNumberAsNextCallContent) "file"
        exampleState).result = ImportResult.imported ∧
      memberProp exampleState.members 0 "name" = JSValue.str "Ann" ∧
      memberProp (handleImportFile (fun _ => Except.ok fileWithNumberAsNextCallContent) "file"
        exampleState).appData.members 0 "name" = JSValue.str "Zed" ∧
      (handleImportFile (fun _ => Except.ok fileWithNumberAsNextCallContent) "file"
        exampleState).appData.members.length = 1 :=
  ⟨rfl, rfl, rfl, rfl, rfl⟩

/-! ## The shuffle is a permutation -/

theorem cons_set_perm {α : Type} (t : List α) (j : Nat) (h y : α) (hy : t[j]? = some y) :
    List.Perm (y :: t.set j h) (h :: t) := by
  induction t generalizing j with
  | nil => simp at hy
  | cons z t' ih =>
    cases j with
    | zero =>
      simp only [List.getElem?_cons_zero, Option.some.injEq] at hy
      subst hy
      exact List.Perm.swap _ _ _
    | succ j =>
      simp only [List.getElem?_cons_succ] at hy
      have h1 : List.Perm (y :: z :: t'.set j h) (z :: y :: t'.set j h) := List.Perm.swap _ _ _
      have h2 : List.Perm (z :: y :: t'.set j h) (z :: h :: t') := List.Perm.cons z (ih j hy)
      have h3 : List.Perm (z :: h :: t') (h :: z :: t') := List.Perm.swap _ _ _
      exact (h1.trans h2).trans h3

theorem swapAt_perm {α : Type} (array : List α) (i j : Nat) :
    List.Perm (swapAt array i j) array := by
  induction array generalizing i j with
  | nil => simp [swapAt]
  | cons h t ih =>
    cases i with
    | zero =>
      cases j with
      | zero => simp [swapAt]
      | succ j =>
        unfold swapAt
        simp only [List.getElem?_cons_zero, List.getElem?_cons_succ]
        cases hy : t[j]? with
        | none => exact List.Perm.refl _
        | some y =>
          simp only [List.set_cons_zero, List.set_cons_succ]
          exact cons_set_perm t j h y hy
    | succ i =>
      cases j with
      | zero =>
        unfold swapAt
        simp only [List.getElem?_cons_zero, List.getElem?_cons_succ]
        cases hx : t[i]? with
        | none => exact List.Perm.refl _
        | some x =>
          simp only [List.set_cons_zero, List.set_cons_succ]
          exact cons_set_perm t i h x hx
      | succ j =>
        have hstep : swapAt (h :: t) (i + 1) (j + 1) = h :: swapAt t i j := by
          unfold swapAt
          simp only [List.getElem?_cons_succ]
          cases t[i]? with
          | none => rfl
          | some x =>
            cases t[j]? with
            | none => rfl
            | some y => simp
        rw [hstep]
        exact List.Perm.cons h (ih i j)

theorem shuffleLoop_perm {α : Type} (random : Nat → RandomDraw) (i calls : Nat)
    (array : List α) : List.Perm (shuffleLoop random i calls array) array := by
  induction i generalizing calls array with
  | zero => exact List.Perm.refl _
  | succ i ih =>
    unfold shuffleLoop
    exact (ih _ _).trans (swapAt_perm _ _ _)

theorem shuffleArray_perm {α : Type} (random : Nat → RandomDraw) (array : List α) :
    List.Perm (shuffleArray random array) array :=
  shuffleLoop_perm random _ _ array

theorem includesName_iff (presentMemberNames : List String) (name : JSValue) :
    includesName presentMemberNames name = true ↔
      ∃ s, name = JSValue.str s ∧ s ∈ presentMemberNames := by
  cases name <;> simp [includesName]

/-- C10. Whatever the registry, the names of the checked boxes and the values
returned by `Math.random()`: every member of the `callOrder` that
`finalizeAttendance` computes has as `name` a string among the present names;
the names in `callOrder` are a permutation of the names of the registry members
whose name is among the present names; and `callOrder` has as many members as
there are such registry members. -/
theorem C10_call_order_permutes_present (random : Nat → RandomDraw)
    (presentMemberNames : List String) (appData : AppState) (session : CallSession) :
    (∀ m ∈ (finalizeAttendance random presentMemberNames appData session).callOrder,
        ∃ s, getProp m "name" = JSValue.str s ∧ s ∈ presentMemberNames) ∧
      List.Perm
        ((finalizeAttendance random presentMemberNames appData session).callOrder.map
          (fun m => getProp m "name"))
        ((appData.members.filter
          (fun m => includesName presentMemberNames (getProp m "name"))).map
          (fun m => getProp m "name")) ∧
      (finalizeAttendance random presentMemberNames appData session).callOrder.length =
        (appData.members.filter
          (fun m => includesName presentMemberNames (getProp m "name"))).length ∧
      (∀ m, includesName presentMemberNames (getProp m "name") = true ↔
        ∃ s, getProp m "name" = JSValue.str s ∧ s ∈ presentMemberNames) := by
  have hperm := shuffleArray_perm random
    ((appData.members.filter
      (fun m => includesName presentMemberNames (getProp m "name"))).map
      (fun m => spreadInto [] (JSValue.obj m)))
  have hnames : ((appData.members.filter
      (fun m => includesName presentMemberNames (getProp m "name"))).map
      (fun m => spreadInto [] (JSValue.obj m))).map (fun m => getProp m "name") =
      (appData.members.filter
        (fun m => includesName presentMemberNames (getProp m "name"))).map
        (fun m => getProp m "name") := by
    rw [List.map_map]
    apply List.map_congr_left
    intro m _
    exact getProp_spread_copy m "name"
  refine ⟨?_, ?_, ?_, fun m => includesName_iff _ _⟩
  · intro m hm
    have hm' := (hperm.mem_iff).mp hm
    rw [List.mem_map] at hm'
    obtain ⟨m0, hm0, rfl⟩ := hm'
    rw [getProp_spread_copy]
    exact (includesName_iff _ _).mp (List.mem_filter.mp hm0).2
  · have := hperm.map (fun m => getProp m "name")
    rw [hnames] at this
    exact this
  · have := hperm.length_eq
    simpa using this

/-! ## Every order has exactly one sequence of draws -/

theorem length_swapAt {α : Type} (array : List α) (i j : Nat) :
    (swapAt array i j).length = array.length :=
  (swapAt_perm array i j).length_eq

/-- After the swap, position `i` holds what position `j` held. -/
theorem getElem?_swapAt_left {α : Type} (array : List α) (i j : Nat) (hi : i < array.length)
    (hj : j < array.length) : (swapAt array i j)[i]? = array[j]? := by
  unfold swapAt
  rw [List.getElem?_eq_getElem hi, List.getElem?_eq_getElem hj]
  simp only []
  by_cases hij : j = i
  · subst hij
    rw [List.getElem?_set_self (by simpa using hi)]
  · rw [List.getElem?_set_ne hij, List.getElem?_set_self hi]

/-- A swap of two positions inside `p` does not see what follows `p`. -/
theorem swapAt_append_left {α : Type} (p : List α) (x : α) (i j : Nat) (hi : i < p.length)
    (hj : j < p.length) : swapAt (p ++ [x]) i j = swapAt p i j ++ [x] := by
  unfold swapAt
  rw [List.getElem?_append_left hi, List.getElem?_append_left hj,
    List.getElem?_eq_getElem hi, List.getElem?_eq_getElem hj]
  simp only []
  rw [List.set_append_left _ _ hi, List.set_append_left _ _ (by simpa using hj)]

theorem shuffleWith_append {α : Type} (m : Nat) (choices : List Nat) (p : List α) (x : α)
    (hm : m < p.length) (hv : validChoices m choices = true) :
    shuffleWith m choices (p ++ [x]) = shuffleWith m choices p ++ [x] := by
  induction m generalizing choices p with
  | zero => cases choices <;> rfl
  | succ m ih =>
    cases choices with
    | nil => rfl
    | cons j rest =>
      simp only [validChoices, Bool.and_eq_true, decide_eq_true_eq] at hv
      simp only [shuffleWith]
      rw [swapAt_append_left p x (m + 1) j hm (by omega)]
      exact ih rest _ (by rw [length_swapAt]; omega) hv.2

/-- The list after the step at the last index `m + 1`: its last element is the
element the draw pointed at. -/
theorem swapAt_last {α : Type} (a : List α) (m j : Nat) (hlen : a.length = m + 1 + 1)
    (hj : j ≤ m + 1) :
    ∃ p y, p.length = m + 1 ∧ a[j]? = some y ∧ swapAt a (m + 1) j = p ++ [y] := by
  have hne : swapAt a (m + 1) j ≠ [] := by
    intro h
    have := length_swapAt a (m + 1) j
    rw [h, hlen] at this
    simp at this
  have hjlt : j < a.length := by omega
  refine ⟨(swapAt a (m + 1) j).dropLast, a[j], ?_, List.getElem?_eq_getElem hjlt, ?_⟩
  · rw [List.length_dropLast, length_swapAt, hlen]
    rfl
  · have hlast : (swapAt a (m + 1) j).getLast hne = a[j] := by
      rw [List.getLast_eq_getElem]
      have h1 := getElem?_swapAt_left a (m + 1) j (by omega) hjlt
      rw [List.getElem?_eq_getElem hjlt] at h1
      have hidx : (swapAt a (m + 1) j).length - 1 = m + 1 := by
        rw [length_swapAt, hlen]
        rfl
      have h2 : (swapAt a (m + 1) j)[(swapAt a (m + 1) j).length - 1]? = some a[j] := by
        rw [hidx]
        exact h1
      rw [List.getElem?_eq_getElem (by rw [hidx, length_swapAt, hlen]; omega)] at h2
      injection h2
    rw [← hlast]
    exact (List.dropLast_concat_getLast hne).symm

theorem validChoices_zero (choices : List Nat) :
    validChoices 0 choices = true ↔ choices = [] := by
  cases choices <;> simp [validChoices]

/-- The shuffle of an array of `m + 1` distinct elements, as a map from the
valid lists of draws to the orderings of the array, is one to one and onto. -/
theorem shuffleWith_bijective {α : Type} (m : Nat) (a t : List α) (hlen : a.length = m + 1)
    (hnd : a.Nodup) (hperm : List.Perm t a) :
    ∃ choices, (validChoices m choices = true ∧ shuffleWith m choices a = t) ∧
      ∀ other, validChoices m other = true ∧ shuffleWith m other a = t → other = choices := by
  induction m generalizing a t with
  | zero =>
    refine ⟨[], ⟨rfl, ?_⟩, fun other h => (validChoices_zero other).mp h.1⟩
    match a, hlen with
    | [x], _ =>
      rw [List.perm_singleton] at hperm
      rw [hperm]
      rfl
  | succ m ih =>
    have htlen : t.length = m + 1 + 1 := by rw [hperm.length_eq, hlen]
    have htne : t ≠ [] := by
      intro h
      rw [h] at htlen
      simp at htlen
    have ht : t.dropLast ++ [t.getLast htne] = t := List.dropLast_concat_getLast htne
    have hxa : t.getLast htne ∈ a := hperm.subset (List.getLast_mem htne)
    obtain ⟨j0, hj0, hj0x⟩ := List.getElem_of_mem hxa
    obtain ⟨p, y, hp, hy, hswap⟩ := swapAt_last a m j0 hlen (by omega)
    have hyx : y = t.getLast htne := by
      rw [List.getElem?_eq_getElem hj0, hj0x] at hy
      injection hy with hy
      exact hy.symm
    subst hyx
    have hperm2 : List.Perm (p ++ [t.getLast htne]) a := by
      rw [← hswap]
      exact swapAt_perm a (m + 1) j0
    have hpnd : p.Nodup := by
      have : (p ++ [t.getLast htne]).Nodup := hperm2.nodup_iff.mpr hnd
      exact (List.nodup_append.mp this).1
    have htp : List.Perm t.dropLast p := by
      have h1 : List.Perm (t.dropLast ++ [t.getLast htne]) (p ++ [t.getLast htne]) := by
        rw [ht]
        exact hperm.trans hperm2.symm
      exact (List.perm_append_right_iff _).mp h1
    obtain ⟨rest, ⟨hrv, hrs⟩, hruniq⟩ := ih p t.dropLast hp hpnd htp
    refine ⟨j0 :: rest, ⟨?_, ?_⟩, ?_⟩
    · simp only [validChoices, Bool.and_eq_true, decide_eq_true_eq]
      exact ⟨by omega, hrv⟩
    · simp only [shuffleWith]
      rw [hswap, shuffleWith_append m rest p _ (by omega) hrv, hrs, ht]
    · intro other ⟨hov, hos⟩
      cases other with
      | nil => simp [validChoices] at hov
      | cons j rest' =>
        simp only [validChoices, Bool.and_eq_true, decide_eq_true_eq] at hov
        obtain ⟨p', y', hp', hy', hswap'⟩ := swapAt_last a m j hlen hov.1
        simp only [shuffleWith] at hos
        rw [hswap', shuffleWith_append m rest' p' _ (by omega) hov.2, ← ht] at hos
        have hlen' : (shuffleWith m rest' p').length = t.dropLast.length := by
          have := congrArg List.length hos
          simpa using this
        obtain ⟨hp1, hp2⟩ := List.append_inj hos hlen'
        have hy'x : y' = t.getLast htne := by
          injection hp2
        have hjj : j = j0 := by
          have hjlt : j < a.length := by omega
          rw [List.getElem?_eq_getElem hjlt, hy'x] at hy'
          injection hy' with hy'
          exact (hnd.getElem_inj_iff).mp (hy'.trans hj0x.symm)
        subst hjj
        have hpp : p' = p := by
          have := hswap'.symm.trans hswap
          exact (List.append_inj this (by rw [hp', hp])).1
        subst hpp
        rw [hruniq rest' ⟨hov.2, hp1⟩]

theorem floorTimes_lt (r : RandomDraw) (k : Nat) (hk : 0 < k) : r.floorTimes k < k := by
  unfold RandomDraw.floorTimes
  have hden : 0 < r.den := Nat.lt_of_le_of_lt (Nat.zero_le _) r.lt
  rw [Nat.div_lt_iff_lt_mul hden]
  exact Nat.mul_lt_mul_of_lt_of_le r.lt (Nat.le_refl k) hk |>.trans_le (by rw [Nat.mul_comm])

theorem validChoices_drawnIndices (random : Nat → RandomDraw) (i calls : Nat) :
    validChoices i (drawnIndices random i calls) = true := by
  induction i generalizing calls with
  | zero => rfl
  | succ i ih =>
    simp only [drawnIndices, validChoices, Bool.and_eq_true, decide_eq_true_eq]
    exact ⟨Nat.le_of_lt_succ (floorTimes_lt _ _ (by omega)), ih _⟩

theorem shuffleLoop_eq_shuffleWith {α : Type} (random : Nat → RandomDraw) (i calls : Nat)
    (array : List α) :
    shuffleLoop random i calls array = shuffleWith i (drawnIndices random i calls) array := by
  induction i generalizing calls array with
  | zero => rfl
  | succ i ih =>
    simp only [shuffleLoop, drawnIndices, shuffleWith]
    exact ih _ _

theorem floorTimes_drawFor (j i : Nat) (h : j ≤ i) : (drawFor j i).floorTimes (i + 1) = j := by
  unfold drawFor RandomDraw.floorTimes
  rw [dif_pos h]
  exact Nat.mul_div_cancel j (Nat.succ_pos i)

theorem drawnIndices_randomFor (top : Nat) (choices : List Nat) (i calls : Nat)
    (htop : i + calls = top) (hv : validChoices i (choices.drop calls) = true) :
    drawnIndices (randomFor top choices) i calls = choices.drop calls := by
  induction i generalizing calls with
  | zero =>
    rw [(validChoices_zero _).mp hv]
    rfl
  | succ i ih =>
    cases hd : choices.drop calls with
    | nil => rw [hd] at hv; simp [validChoices] at hv
    | cons j rest =>
      rw [hd] at hv
      simp only [validChoices, Bool.and_eq_true, decide_eq_true_eq] at hv
      have hget : choices.getD calls 0 = j := by
        have h0 : (choices.drop calls)[0]? = some j := by rw [hd]; simp
        rw [List.getElem?_drop] at h0
        simp only [Nat.add_zero] at h0
        rw [List.getD_eq_getElem?_getD, h0]
        rfl
      have hrest : choices.drop (calls + 1) = rest := by
        have : (choices.drop calls).drop 1 = rest := by rw [hd]; rfl
        rw [List.drop_drop] at this
        rw [← this]
      simp only [drawnIndices]
      have hidx : top - calls = i + 1 := by omega
      have hfirst : (randomFor top choices calls).floorTimes (i + 1 + 1) = j := by
        unfold randomFor
        rw [hget, hidx]
        exact floorTimes_drawFor j (i + 1) hv.1
      rw [hfirst, ih (calls + 1) (by omega) (by rw [hrest]; exact hv.2), hrest]

theorem mem_allChoices (i : Nat) (choices : List Nat) :
    choices ∈ allChoices i ↔ validChoices i choices = true := by
  induction i generalizing choices with
  | zero =>
    rw [validChoices_zero]
    simp [allChoices]
  | succ i ih =>
    cases choices with
    | nil => simp [allChoices, validChoices]
    | cons j rest =>
      simp only [allChoices, List.mem_flatMap, List.mem_range, List.mem_map, List.cons.injEq,
        validChoices, Bool.and_eq_true, decide_eq_true_eq]
      constructor
      · rintro ⟨j', hj', c, hc, rfl, rfl⟩
        exact ⟨by omega, (ih c).mp hc⟩
      · rintro ⟨hj, hr⟩
        exact ⟨j, by omega, rest, (ih rest).mpr hr, rfl, rfl⟩

theorem length_flatMap_const {β γ : Type} (l : List β) (f : β → List γ) (n : Nat)
    (h : ∀ b ∈ l, (f b).length = n) : (l.flatMap f).length = l.length * n := by
  induction l with
  | nil => simp
  | cons b rest ih =>
    rw [List.flatMap_cons, List.length_append, h b (List.mem_cons_self _ _),
      ih (fun c hc => h c (List.mem_cons_of_mem _ hc)), List.length_cons]
    ring

theorem length_allChoices (i : Nat) : (allChoices i).length = (i + 1).factorial := by
  induction i with
  | zero => rfl
  | succ i ih =>
    rw [allChoices, length_flatMap_const _ _ (i + 1).factorial (by
      intro b _
      rw [List.length_map, ih]), List.length_range, Nat.factorial_succ (i + 1)]

theorem nodup_allChoices (i : Nat) : (allChoices i).Nodup := by
  induction i with
  | zero => simp [allChoices]
  | succ i ih =>
    rw [allChoices, List.nodup_flatMap]
    refine ⟨fun j _ => ih.map (fun a b h => (List.cons.inj h).2), ?_⟩
    refine (List.nodup_range _).pairwise_of_forall_ne ?_
    intro j _ k _ hjk
    show List.Disjoint _ _
    intro c hc1 hc2
    rw [List.mem_map] at hc1 hc2
    obtain ⟨c1, _, rfl⟩ := hc1
    obtain ⟨c2, _, h2⟩ := hc2
    exact hjk (List.cons.inj h2).1.symm

/-- C11. With each random draw of `shuffleArray` given as the index `j` in
`[0, i]` it selects, for `i` from the last index down to 1: for every list of
distinct elements and every ordering of that list there is exactly one valid
sequence of draws on which the shuffle produces that ordering.  The indices
that `shuffleArray` computes from the values of `Math.random()` always form a
valid sequence, the shuffle is the one these indices give, and every valid
sequence is computed from some values of `Math.random()`.  The valid
sequences are `n!` in number for a list of `n ≥ 1` elements, so under uniform
draws each ordering has the same chance, that of its one sequence. -/
theorem C11_one_sequence_of_draws_per_order {α : Type} (array order : List α)
    (hnd : array.Nodup) (hperm : List.Perm order array) :
    (∃! choices, validChoices (array.length - 1) choices = true ∧
        shuffleWith (array.length - 1) choices array = order) ∧
      (∀ random : Nat → RandomDraw,
        validChoices (array.length - 1) (drawnIndices random (array.length - 1) 0) = true ∧
          shuffleArray random array =
            shuffleWith (array.length - 1) (drawnIndices random (array.length - 1) 0) array) ∧
      (∀ choices, validChoices (array.length - 1) choices = true →
        drawnIndices (randomFor (array.length - 1) choices) (array.length - 1) 0 = choices) ∧
      (∀ choices, choices ∈ allChoices (array.length - 1) ↔
        validChoices (array.length - 1) choices = true) ∧
      (allChoices (array.length - 1)).Nodup ∧
      (allChoices (array.length - 1)).length = (array.length - 1 + 1).factorial := by
  refine ⟨?_, ?_, ?_, mem_allChoices _, nodup_allChoices _, length_allChoices _⟩
  · cases array with
    | nil =>
      have ho : order = [] := List.Perm.eq_nil hperm
      refine ⟨[], ⟨rfl, by rw [ho]; rfl⟩, fun other h => (validChoices_zero other).mp h.1⟩
    | cons x rest =>
      exact shuffleWith_bijective rest.length (x :: rest) order rfl hnd hperm
  · intro random
    exact ⟨validChoices_drawnIndices random _ 0, shuffleLoop_eq_shuffleWith random _ 0 array⟩
  · intro choices hv
    have := drawnIndices_randomFor (array.length - 1) choices (array.length - 1) 0 rfl
      (by simpa using hv)
    simpa using this

/-- C11, at an instance: on the list 1, 2, 3 the ordering 3, 1, 2 comes from one
sequence of draws only. -/
theorem C11_one_sequence_of_draws_per_order_witness :
    [1, 2, 3].Nodup ∧ List.Perm [3, 1, 2] [1, 2, 3] ∧
      ∃! choices, validChoices 2 choices = true ∧ shuffleWith 2 choices [1, 2, 3] = [3, 1, 2] :=
  ⟨by decide, by decide,
    (C11_one_sequence_of_draws_per_order [1, 2, 3] [3, 1, 2] (by decide) (by decide)).1⟩

/-! ## The countdown -/

theorem padStart2_natToChars : ∀ k, k < 100 →
    padStart2 (natToChars k) = [digitChar (k / 10), digitChar (k % 10)] := by
  decide

/-- The text of the countdown at `r` seconds, for `r` below 6000: two digits for
the minutes, a colon, two digits for the seconds. -/
theorem clockText_digits (r : Nat) (hr : r < 6000) :
    clockText (r : Int) =
      String.mk [digitChar (r / 60 / 10), digitChar (r / 60 % 10), ':',
        digitChar (r % 60 / 10), digitChar (r % 60 % 10)] := by
  have hdiv : (r : Int) / 60 = ((r / 60 : Nat) : Int) := by norm_cast
  have hmod : Int.tmod (r : Int) 60 = ((r % 60 : Nat) : Int) := by
    rw [Int.tmod_eq_emod (by omega) (by omega)]
    norm_cast
  have hnum : ∀ k : Nat, k < 100 → numToChars (k : Int) = natToChars k := by
    intro k hk
    have hsmall : (k : Int).natAbs < 2 ^ 53 := by
      rw [Int.natAbs_ofNat]
      exact Nat.lt_of_lt_of_le hk (by norm_num)
    rw [numToChars_small _ hsmall, if_neg (by omega)]
    rfl
  unfold clockText
  rw [hdiv, hmod, hnum _ (by omega), hnum _ (by omega), padStart2_natToChars _ (by omega),
    padStart2_natToChars _ (by omega)]
  rfl

theorem clockText_zero : clockText 0 = "00:00" := by
  decide

theorem find?_interval_last (base : List Interval) (h : Nat) (iv : Interval)
    (hbase : ∀ b ∈ base, b.handle ≠ h) (hiv : iv.handle = h) :
    (base ++ [iv]).find? (fun x => decide (x.handle = h)) = some iv := by
  induction base with
  | nil => simp [hiv]
  | cons b rest ih =>
    have hb : b.handle ≠ h := hbase b (List.mem_cons_self _ _)
    rw [List.cons_append, List.find?_cons_of_neg _ (by simpa using hb)]
    exact ih (fun c hc => hbase c (List.mem_cons_of_mem _ hc))

theorem find?_interval_none (base : List Interval) (h : Nat)
    (hbase : ∀ b ∈ base, b.handle ≠ h) :
    base.find? (fun x => decide (x.handle = h)) = none := by
  rw [List.find?_eq_none]
  intro b hb
  simpa using hbase b hb

theorem filter_interval_last (base : List Interval) (h : Nat) (iv : Interval)
    (hbase : ∀ b ∈ base, b.handle ≠ h) (hiv : iv.handle = h) :
    (base ++ [iv]).filter (fun x => decide (some x.handle ≠ some h)) = base := by
  rw [List.filter_append]
  have h1 : base.filter (fun x => decide (some x.handle ≠ some h)) = base := by
    rw [List.filter_eq_self]
    intro b hb
    simpa using hbase b hb
  have h2 : [iv].filter (fun x => decide (some x.handle ≠ some h)) = [] := by
    simp [hiv]
  rw [h1, h2, List.append_nil]

theorem map_interval_base (base : List Interval) (h : Nat) (r : Int)
    (hbase : ∀ b ∈ base, b.handle ≠ h) :
    base.map (fun other => if other.handle = h then { other with remainingSeconds := r }
      else other) = base := by
  induction base with
  | nil => rfl
  | cons b rest ih =>
    rw [List.map_cons, if_neg (hbase b (List.mem_cons_self _ _)),
      ih (fun c hc => hbase c (List.mem_cons_of_mem _ hc))]

/-- One scheduled run of a countdown that has `r + 1` seconds on its variable. -/
theorem fireInterval_running (timerId : String) (h : Nat) (r : Nat) (page : Page)
    (base : List Interval) (hbase : ∀ b ∈ base, b.handle ≠ h)
    (hint : page.intervals =
      base ++ [{ handle := h, timerId := timerId, remainingSeconds := ((r + 1 : Nat) : Int) }]) :
    readText (fireInterval h page).content timerId = some (clockText ((r + 1 : Nat) : Int)) ∧
      (fireInterval h page).activeTimers = page.activeTimers ∧
      (fireInterval h page).intervals =
        base ++ [{ handle := h, timerId := timerId, remainingSeconds := (r : Int) }] := by
  have hfind := find?_interval_last base h
    { handle := h, timerId := timerId, remainingSeconds := ((r + 1 : Nat) : Int) } hbase rfl
  have hpos : ¬ (((r + 1 : Nat) : Int) - 1 < 0) := by omega
  unfold fireInterval
  rw [hint, hfind]
  simp only [tick, if_neg hpos, Page.write]
  refine ⟨by simp [readText], trivial, ?_⟩
  rw [hint, List.map_append, map_interval_base base h _ hbase]
  simp only [List.map_cons, List.map_nil, if_true]
  congr 3
  omega

/-- The scheduled run of a countdown that has 0 seconds on its variable: it
writes `00:00` and clears itself. -/
theorem fireInterval_last (timerId : String) (h : Nat) (page : Page)
    (base : List Interval) (hbase : ∀ b ∈ base, b.handle ≠ h)
    (hact : readHandle page.activeTimers timerId = some h)
    (hint : page.intervals =
      base ++ [{ handle := h, timerId := timerId, remainingSeconds := 0 }]) :
    readText (fireInterval h page).content timerId = some "00:00" ∧
      (fireInterval h page).intervals = base := by
  have hfind := find?_interval_last base h
    { handle := h, timerId := timerId, remainingSeconds := 0 } hbase rfl
  unfold fireInterval
  rw [hint, hfind]
  simp only [tick, Page.write, clearInterval, hact]
  refine ⟨by simp [readText], ?_⟩
  simp only [Int.zero_sub, Int.reduceNeg, Int.reduceLT, if_true]
  rw [hint, filter_interval_last base h _ hbase rfl, map_interval_base base h _ hbase]

/-- A handle that is not running: its scheduled run changes nothing. -/
theorem fireInterval_cleared (h : Nat) (page : Page)
    (hbase : ∀ b ∈ page.intervals, b.handle ≠ h) : fireInterval h page = page := by
  unfold fireInterval
  rw [find?_interval_none page.intervals h hbase]

/-- The intervals that `startTimer(timerId, ...)` leaves running besides its
own: all but the one stored in `activeTimers[timerId]`.  None of them has the
handle of the new interval when no running handle has been reused. -/
theorem base_handles_ne (timerId : String) (page : Page)
    (hwf : ∀ iv ∈ page.intervals, iv.handle < page.nextHandle) :
    ∀ b ∈ (clearInterval (readHandle page.activeTimers timerId) page).intervals,
      b.handle ≠ page.nextHandle := by
  intro b hb
  have hb' : b ∈ page.intervals := (List.mem_filter.mp hb).1
  exact Nat.ne_of_lt (hwf b hb')

theorem startTimer_positive (timerId : String) (r : Nat) (page : Page)
    (hel : timerId ∈ page.elements) :
    readText (startTimer timerId ((r + 1 : Nat) : Int) page).content timerId =
        some (clockText ((r + 1 : Nat) : Int)) ∧
      (readHandle (startTimer timerId ((r + 1 : Nat) : Int) page).activeTimers timerId =
        some page.nextHandle) ∧
      (startTimer timerId ((r + 1 : Nat) : Int) page).intervals =
        (clearInterval (readHandle page.activeTimers timerId) page).intervals ++
          [{ handle := page.nextHandle, timerId := timerId, remainingSeconds := (r : Int) }] := by
  have hpos : ¬ (((r + 1 : Nat) : Int) - 1 < 0) := by omega
  unfold startTimer
  rw [if_pos hel]
  simp only [tick, if_neg hpos, Page.write, clearInterval]
  refine ⟨by simp [readText], by simp [readHandle], ?_⟩
  congr 3
  omega

theorem countdown_running (timerId : String) (r : Nat) (page : Page)
    (hel : timerId ∈ page.elements)
    (hwf : ∀ iv ∈ page.intervals, iv.handle < page.nextHandle) (k : Nat) (hk : k ≤ r) :
    readText (countdown timerId ((r + 1 : Nat) : Int) page k).content timerId =
        some (clockText ((r + 1 - k : Nat) : Int)) ∧
      (readHandle (countdown timerId ((r + 1 : Nat) : Int) page k).activeTimers timerId =
        some page.nextHandle) ∧
      (countdown timerId ((r + 1 : Nat) : Int) page k).intervals =
        (clearInterval (readHandle page.activeTimers timerId) page).intervals ++
          [{ handle := page.nextHandle, timerId := timerId,
             remainingSeconds := ((r - k : Nat) : Int) }] := by
  induction k with
  | zero => exact startTimer_positive timerId r page hel
  | succ k ih =>
    obtain ⟨_, h2, h3⟩ := ih (by omega)
    have hrk : r - k = (r - (k + 1)) + 1 := by omega
    rw [hrk] at h3
    obtain ⟨g1, g2, g3⟩ := fireInterval_running timerId page.nextHandle (r - (k + 1))
      (countdown timerId ((r + 1 : Nat) : Int) page k) _ (base_handles_ne timerId page hwf) h3
    have hdisp : r + 1 - (k + 1) = r - (k + 1) + 1 := by omega
    refine ⟨?_, ?_, ?_⟩
    · rw [hdisp]
      exact g1
    · show readHandle (fireInterval _ _).activeTimers timerId = _
      rw [g2]
      exact h2
    · exact g3

theorem countdown_done (timerId : String) (r : Nat) (page : Page)
    (hel : timerId ∈ page.elements)
    (hwf : ∀ iv ∈ page.intervals, iv.handle < page.nextHandle) :
    readText (countdown timerId ((r + 1 : Nat) : Int) page (r + 1)).content timerId =
        some "00:00" ∧
      (countdown timerId ((r + 1 : Nat) : Int) page (r + 1)).intervals =
        (clearInterval (readHandle page.activeTimers timerId) page).intervals := by
  obtain ⟨_, h2, h3⟩ := countdown_running timerId r page hel hwf r (Nat.le_refl r)
  rw [Nat.sub_self] at h3
  exact fireInterval_last timerId page.nextHandle
    (countdown timerId ((r + 1 : Nat) : Int) page r) _ (base_handles_ne timerId page hwf) h2 h3

theorem countdown_after (timerId : String) (r : Nat) (page : Page)
    (hel : timerId ∈ page.elements)
    (hwf : ∀ iv ∈ page.intervals, iv.handle < page.nextHandle) (k : Nat) :
    countdown timerId ((r + 1 : Nat) : Int) page (r + 1 + k) =
      countdown timerId ((r + 1 : Nat) : Int) page (r + 1) := by
  induction k with
  | zero => rfl
  | succ k ih =>
    show fireInterval page.nextHandle (countdown timerId _ page (r + 1 + k)) = _
    rw [ih]
    apply fireInterval_cleared
    rw [(countdown_done timerId r page hel hwf).2]
    exact base_handles_ne timerId page hwf

/-- C13, as amended.  For a countdown started by `startTimer` with a whole
number of seconds `n`, `1 ≤ n < 6000`, on an element that exists, counting the
immediate first tick as tick 1: after tick `t` with `1 ≤ t ≤ n + 1` the display
shows `n - (t - 1)` seconds as two digits of minutes, a colon and two digits of
seconds; after tick `n + 1` the display is `00:00` and the interval of the
countdown is no longer running; from then on a scheduled tick changes nothing
on the page. -/
theorem C13_countdown_to_zero (timerId : String) (n : Nat) (page : Page)
    (hn1 : 1 ≤ n) (hn : n < 6000) (hel : timerId ∈ page.elements)
    (hwf : ∀ iv ∈ page.intervals, iv.handle < page.nextHandle) :
    (∀ t, 1 ≤ t → t ≤ n + 1 →
        readText (countdown timerId (n : Int) page (t - 1)).content timerId =
          some (String.mk
            [digitChar ((n - (t - 1)) / 60 / 10), digitChar ((n - (t - 1)) / 60 % 10), ':',
              digitChar ((n - (t - 1)) % 60 / 10), digitChar ((n - (t - 1)) % 60 % 10)])) ∧
      readText (countdown timerId (n : Int) page n).content timerId = some "00:00" ∧
      (∀ iv ∈ (countdown timerId (n : Int) page n).intervals, iv.handle ≠ page.nextHandle) ∧
      (∀ t, n + 1 ≤ t →
        countdown timerId (n : Int) page (t - 1) = countdown timerId (n : Int) page n) := by
  obtain ⟨r, rfl⟩ : ∃ r, n = r + 1 := ⟨n - 1, by omega⟩
  refine ⟨?_, (countdown_done timerId r page hel hwf).1, ?_, ?_⟩
  · intro t ht1 ht2
    by_cases hlast : t = r + 1 + 1
    · subst hlast
      rw [Nat.add_sub_cancel, (countdown_done timerId r page hel hwf).1, Nat.sub_self]
      rfl
    · rw [(countdown_running timerId r page hel hwf (t - 1) (by omega)).1,
        clockText_digits _ (by omega)]
  · rw [(countdown_done timerId r page hel hwf).2]
    exact base_handles_ne timerId page hwf
  · intro t ht
    have : t - 1 = r + 1 + (t - 1 - (r + 1)) := by omega
    rw [this]
    exact countdown_after timerId r page hel hwf _

/-- C13 as amended, at an instance: a countdown of 120 seconds on the element
`intention-timer` shows `00:00` after its 121st tick. -/
theorem C13_countdown_to_zero_witness :
    "intention-timer" ∈ examplePage.elements ∧
      readText (countdown "intention-timer" 120 examplePage 120).content "intention-timer" =
        some "00:00" :=
  ⟨by decide,
    (C13_countdown_to_zero "intention-timer" 120 examplePage (by decide) (by decide)
      (by decide) (fun _ h => by cases h)).2.1⟩

/-- C13 as stated fails at `n = 0`.  The first tick of `startTimer(timerId, 0)`
runs before the handle of the new interval is stored in `activeTimers`, so its
`clearInterval` clears nothing: after tick 1 the display is `00:00` and the
interval is running, with -1 on its variable.  Tick 2 then writes `-1:-1`,
clears the interval and writes `00:00` over it. -/
theorem C13_counterexample :
    readText (countdown "intention-timer" 0 examplePage 0).content "intention-timer" =
        some "00:00" ∧
      (countdown "intention-timer" 0 examplePage 0).intervals.map
          (fun iv => (iv.handle, iv.remainingSeconds)) = [(examplePage.nextHandle, -1)] ∧
      (countdown "intention-timer" 0 examplePage 1).content =
        [("intention-timer", "00:00"), ("intention-timer", "-1:-1"),
          ("intention-timer", "00:00"), ("intention-timer", "00:00")] ∧
      (countdown "intention-timer" 0 examplePage 1).intervals.length = 0 := by
  refine ⟨by rfl, by rfl, by rfl, by rfl⟩

/-! ## What the merge can store in `xp` and `streak` -/

theorem andThen_cases (r : Run) (stmt : List JSObject → Except String (List JSObject)) :
    (r.andThen stmt).members = r.members ∨
      ∃ ms, stmt r.members = Except.ok ms ∧ (r.andThen stmt).members = ms := by
  unfold Run.andThen
  cases r.thrown with
  | some e => exact Or.inl rfl
  | none =>
    cases hs : stmt r.members with
    | error e => exact Or.inl rfl
    | ok ms => exact Or.inr ⟨ms, rfl, rfl⟩

theorem orElse_cases (Q : JSValue → Prop) (p d : JSValue) (hd : Q d)
    (hp : p.truthy = true → Q p) : Q (p.orElse d) := by
  unfold JSValue.orElse
  by_cases ht : p.truthy = true
  · rw [if_pos ht]
    exact hp ht
  · rw [if_neg ht]
    exact hd

/-- After the merge step `xp` of member `j` satisfies every property that its
previous value has and that every truthy result of `parseInt` on the
`newTotalXP` of an entry with the name of member `j` has. -/
theorem mergeEntry_xp_closed (lower : String → String) (ms : List JSObject) (e : JSValue)
    (j : Nat) (Q : JSValue → Prop) (hold : Q (memberProp ms j "xp"))
    (hnew : ∀ nm v p, e.get "name" = Except.ok nm →
      (memberProp ms j "name").strictEquals nm = true →
      e.get "newTotalXP" = Except.ok v → parseInt v = Except.ok p → p.truthy = true → Q p) :
    Q (memberProp (mergeEntry lower ms e).members j "xp") := by
  by_cases hf : ∃ i, findIndex ms e = Except.ok (some i)
  · obtain ⟨i, hi⟩ := hf
    obtain ⟨hilt, nm, hnm, heq⟩ := findIndex_some ms e i hi
    rw [mergeEntry_found lower ms e i hi,
      andThen_memberProp _ _ j "xp" (assignPreviousScore_keeps i e j "xp" (by decide)),
      andThen_memberProp _ _ j "xp" (assignGoals_keeps lower i e j "xp" (by decide)),
      andThen_memberProp _ _ j "xp" (assignCommitments_keeps lower i e j "xp" (by decide)),
      andThen_memberProp _ _ j "xp" (assignStreak_keeps i e j "xp" (by decide))]
    rcases andThen_cases { members := ms, thrown := none } (assignXP i e) with h | ⟨ms1, hs, h⟩
    · rw [h]
      exact hold
    · rw [h]
      obtain ⟨v, p, hv, hp⟩ := assignXP_ok_inv i e ms ms1 hs
      rw [assignXP_eq i e v p ms hv hp] at hs
      injection hs with hs
      subst hs
      by_cases hij : i = j
      · subst hij
        rw [memberProp_setMemberProp_same ms i "xp" _ hilt]
        exact orElse_cases Q p _ hold (fun ht => hnew nm v p hnm heq hv hp ht)
      · unfold memberProp
        rw [getElem?_setMemberProp_ne ms i j "xp" _ hij]
        exact hold
  · have hno : ∀ i, findIndex ms e ≠ Except.ok (some i) := fun i hi => hf ⟨i, hi⟩
    rw [mergeEntry_not_found lower ms e hno]
    exact hold

/-- The same for `streak`: the previous value, 0, or a truthy result of
`parseInt` on the `newTotalStreak` of an entry with the name of member `j`. -/
theorem mergeEntry_streak_closed (lower : String → String) (ms : List JSObject) (e : JSValue)
    (j : Nat) (Q : JSValue → Prop) (hold : Q (memberProp ms j "streak"))
    (hzero : Q (JSValue.num 0))
    (hnew : ∀ nm v p, e.get "name" = Except.ok nm →
      (memberProp ms j "name").strictEquals nm = true →
      e.get "newTotalStreak" = Except.ok v → parseInt v = Except.ok p → p.truthy = true →
      Q p) :
    Q (memberProp (mergeEntry lower ms e).members j "streak") := by
  by_cases hf : ∃ i, findIndex ms e = Except.ok (some i)
  · obtain ⟨i, hi⟩ := hf
    obtain ⟨hilt, nm, hnm, heq⟩ := findIndex_some ms e i hi
    rw [mergeEntry_found lower ms e i hi,
      andThen_memberProp _ _ j "streak" (assignPreviousScore_keeps i e j "streak" (by decide)),
      andThen_memberProp _ _ j "streak" (assignGoals_keeps lower i e j "streak" (by decide)),
      andThen_memberProp _ _ j "streak"
        (assignCommitments_keeps lower i e j "streak" (by decide))]
    have hxp : memberProp (({ members := ms, thrown := none } : Run).andThen
        (assignXP i e)).members j "streak" = memberProp ms j "streak" :=
      andThen_memberProp _ _ j "streak" (assignXP_keeps i e j "streak" (by decide))
    have hlen : (({ members := ms, thrown := none } : Run).andThen
        (assignXP i e)).members.length = ms.length := by
      rcases andThen_cases { members := ms, thrown := none } (assignXP i e) with h | ⟨ms1, hs, h⟩
      · rw [h]
      · rw [h]
        obtain ⟨v, rfl⟩ := assignXP_shape i e ms ms1 hs
        exact length_setMemberProp _ _ _ _
    rcases andThen_cases (({ members := ms, thrown := none } : Run).andThen (assignXP i e))
      (assignStreak i e) with h | ⟨ms2, hs, h⟩
    · rw [h, hxp]
      exact hold
    · rw [h]
      obtain ⟨v, p, hv, hp⟩ := assignStreak_ok_inv i e _ ms2 hs
      rw [assignStreak_eq i e v p _ hv hp] at hs
      injection hs with hs
      subst hs
      by_cases hij : i = j
      · subst hij
        rw [memberProp_setMemberProp_same _ i "streak" _ (by rw [hlen]; exact hilt)]
        exact orElse_cases Q p _ hzero (fun ht => hnew nm v p hnm heq hv hp ht)
      · have hne : memberProp (setMemberProp
            (({ members := ms, thrown := none } : Run).andThen (assignXP i e)).members i
            "streak" (p.orElse (JSValue.num 0))) j "streak" =
            memberProp (({ members := ms, thrown := none } : Run).andThen
              (assignXP i e)).members j "streak" := by
          unfold memberProp
          rw [getElem?_setMemberProp_ne _ i j "streak" _ hij]
        rw [hne, hxp]
        exact hold
  · have hno : ∀ i, findIndex ms e ≠ Except.ok (some i) := fun i hi => hf ⟨i, hi⟩
    rw [mergeEntry_not_found lower ms e hno]
    exact hold

theorem forEachEntry_closed (lower : String → String) (entries : List JSValue)
    (ms : List JSObject) (j : Nat) (k : String) (name : JSValue) (Q : JSValue → Prop)
    (hstep : ∀ ms' e, e ∈ entries → memberProp ms' j "name" = name →
      Q (memberProp ms' j k) → Q (memberProp (mergeEntry lower ms' e).members j k))
    (hname : memberProp ms j "name" = name) (hold : Q (memberProp ms j k)) :
    Q (memberProp (forEachEntry lower entries ms).members j k) := by
  induction entries generalizing ms with
  | nil => exact hold
  | cons e rest ih =>
    have h1 := hstep ms e (List.mem_cons_self _ _) hname hold
    unfold forEachEntry
    cases ht : (mergeEntry lower ms e).thrown with
    | some err => exact h1
    | none =>
      refine ih (mergeEntry lower ms e).members
        (fun ms' e' he' => hstep ms' e' (List.mem_cons_of_mem _ he')) ?_ h1
      rw [(mergeEntry_frame lower ms e).2.1 j "name" (by decide)]
      exact hname

/-- The members after `submitAIData`: those it started with, or those the loop
over the entries of the response left. -/
theorem submitAIData_members (lower : String → String)
    (parseJSON : String → Except String JSValue) (jsonInput : String) (appData : AppState) :
    (submitAIData lower parseJSON jsonInput appData).appData.members = appData.members ∨
      ∃ aiData items, parseJSON jsonInput = Except.ok aiData ∧
        aiData.get "members" = Except.ok (JSValue.arr items) ∧
        (submitAIData lower parseJSON jsonInput appData).appData.members =
          (forEachEntry lower items appData.members).members := by
  unfold submitAIData
  by_cases hempty : jsonInput = ""
  · exact Or.inl (by rw [if_pos hempty])
  · rw [if_neg hempty]
    cases hp : parseJSON jsonInput with
    | error err => exact Or.inl rfl
    | ok aiData =>
      rcases processAIData_members lower aiData appData with h | ⟨items, h1, h2⟩
      · exact Or.inl h
      · exact Or.inr ⟨aiData, items, rfl, h1, h2⟩

/-- After `submitAIData`, `xp` and `streak` of member `j` satisfy every property
that their previous values have and that the truthy results of `parseInt` on
the entries with the name of member `j` have (and, for `streak`, that 0
has). -/
theorem submitAIData_closed (lower : String → String)
    (parseJSON : String → Except String JSValue) (jsonInput : String) (appData : AppState)
    (j : Nat) (QX QS : JSValue → Prop)
    (hx : QX (memberProp appData.members j "xp"))
    (hs : QS (memberProp appData.members j "streak")) (hs0 : QS (JSValue.num 0))
    (hnewx : ∀ aiData items e nm v p, parseJSON jsonInput = Except.ok aiData →
      aiData.get "members" = Except.ok (JSValue.arr items) → e ∈ items →
      e.get "name" = Except.ok nm →
      (memberProp appData.members j "name").strictEquals nm = true →
      e.get "newTotalXP" = Except.ok v → parseInt v = Except.ok p → p.truthy = true → QX p)
    (hnews : ∀ aiData items e nm v p, parseJSON jsonInput = Except.ok aiData →
      aiData.get "members" = Except.ok (JSValue.arr items) → e ∈ items →
      e.get "name" = Except.ok nm →
      (memberProp appData.members j "name").strictEquals nm = true →
      e.get "newTotalStreak" = Except.ok v → parseInt v = Except.ok p → p.truthy = true →
      QS p) :
    QX (memberProp (submitAIData lower parseJSON jsonInput appData).appData.members j "xp") ∧
      QS (memberProp (submitAIData lower parseJSON jsonInput appData).appData.members j
        "streak") := by
  rcases submitAIData_members lower parseJSON jsonInput appData with
    h | ⟨aiData, items, hp, hm, h⟩
  · rw [h]
    exact ⟨hx, hs⟩
  · rw [h]
    constructor
    · exact forEachEntry_closed lower items appData.members j "xp"
        (memberProp appData.members j "name") QX
        (fun ms' e he hn hq => mergeEntry_xp_closed lower ms' e j QX hq
          (fun nm v p h1 h2 h3 h4 h5 =>
            hnewx aiData items e nm v p hp hm he h1 (by rw [← hn]; exact h2) h3 h4 h5))
        rfl hx
    · exact forEachEntry_closed lower items appData.members j "streak"
        (memberProp appData.members j "name") QS
        (fun ms' e he hn hq => mergeEntry_streak_closed lower ms' e j QS hq hs0
          (fun nm v p h1 h2 h3 h4 h5 =>
            hnews aiData items e nm v p hp hm he h1 (by rw [← hn]; exact h2) h3 h4 h5))
        rfl hs

/-- The loop over a response that holds one entry is the merge of that entry. -/
theorem forEachEntry_single (lower : String → String) (e : JSValue) (ms : List JSObject) :
    (forEachEntry lower [e] ms).members = (mergeEntry lower ms e).members := by
  unfold forEachEntry
  cases (mergeEntry lower ms e).thrown <;> rfl

/-- The numeral of `10 ^ 400` reads as `Infinity`. -/
theorem parseInt_hugeNumeral : parseInt (JSValue.str hugeNumeral) = Except.ok (JSValue.infinity false) := by
  have hto : (JSValue.str hugeNumeral).toChars = Except.ok (natToChars ((10 ^ 100) ^ 4)) := rfl
  have hbig : (2 ^ 256) ^ 4 ≤ (10 ^ 100) ^ 4 :=
    Nat.pow_le_pow_left (by norm_num) 4
  unfold parseInt
  rw [hto]
  dsimp only
  rw [parseIntChars_natToChars]
  dsimp only
  unfold numberOf
  rw [Int.natAbs_ofNat, roundToDouble_huge _ hbig]
  rfl

/-- C14, as amended.  For a registry member whose `xp` and `streak` are whole
numbers and any update applied by `submitAIData`: afterwards `xp` is its
previous value or a truthy result of `parseInt` on the `newTotalXP` of an entry
with the member's name, and `streak` is its previous value, 0, or such a
result on a `newTotalStreak`; each is a whole number or an infinity.  The
merge stores these results without comparing them: whenever every such result
is a whole number of at least `bound`, where `bound` is at most the previous
`xp`, the new `xp` is a whole number of at least `bound` (with `bound` 0: not
negative; with `bound` the previous `xp`: not decreased), and whenever the
previous `streak` and every such result for `newTotalStreak` is a whole number
that is not negative, so is the new `streak`. -/
theorem C14_xp_streak_follow_response (toLowerCase : String → String)
    (parseJSON : String → Except String JSValue) (jsonInput : String) (appData : AppState)
    (j : Nat) (x s : Int)
    (hx : memberProp appData.members j "xp" = JSValue.num x)
    (hs : memberProp appData.members j "streak" = JSValue.num s) :
    (memberProp (submitAIData toLowerCase parseJSON jsonInput appData).appData.members j "xp" =
          JSValue.num x ∨
        ∃ aiData items e nm v, parseJSON jsonInput = Except.ok aiData ∧
          aiData.get "members" = Except.ok (JSValue.arr items) ∧ e ∈ items ∧
          e.get "name" = Except.ok nm ∧
          (memberProp appData.members j "name").strictEquals nm = true ∧
          e.get "newTotalXP" = Except.ok v ∧
          parseInt v = Except.ok (memberProp
            (submitAIData toLowerCase parseJSON jsonInput appData).appData.members j "xp") ∧
          (memberProp (submitAIData toLowerCase parseJSON jsonInput appData).appData.members j
            "xp").truthy = true) ∧
      (memberProp (submitAIData toLowerCase parseJSON jsonInput appData).appData.members j
            "streak" = JSValue.num s ∨
        memberProp (submitAIData toLowerCase parseJSON jsonInput appData).appData.members j
            "streak" = JSValue.num 0 ∨
        ∃ aiData items e nm v, parseJSON jsonInput = Except.ok aiData ∧
          aiData.get "members" = Except.ok (JSValue.arr items) ∧ e ∈ items ∧
          e.get "name" = Except.ok nm ∧
          (memberProp appData.members j "name").strictEquals nm = true ∧
          e.get "newTotalStreak" = Except.ok v ∧
          parseInt v = Except.ok (memberProp
            (submitAIData toLowerCase parseJSON jsonInput appData).appData.members j
            "streak") ∧
          (memberProp (submitAIData toLowerCase parseJSON jsonInput appData).appData.members j
            "streak").truthy = true) ∧
      ((∃ x' : Int, memberProp (submitAIData toLowerCase parseJSON jsonInput
            appData).appData.members j "xp" = JSValue.num x') ∨
        ∃ b, memberProp (submitAIData toLowerCase parseJSON jsonInput
            appData).appData.members j "xp" = JSValue.infinity b) ∧
      ((∃ s' : Int, memberProp (submitAIData toLowerCase parseJSON jsonInput
            appData).appData.members j "streak" = JSValue.num s') ∨
        ∃ b, memberProp (submitAIData toLowerCase parseJSON jsonInput
            appData).appData.members j "streak" = JSValue.infinity b) ∧
      (∀ bound : Int, bound ≤ x →
        (∀ aiData items e nm v p, parseJSON jsonInput = Except.ok aiData →
          aiData.get "members" = Except.ok (JSValue.arr items) → e ∈ items →
          e.get "name" = Except.ok nm →
          (memberProp appData.members j "name").strictEquals nm = true →
          e.get "newTotalXP" = Except.ok v → parseInt v = Except.ok p → p.truthy = true →
          ∃ n : Int, p = JSValue.num n ∧ bound ≤ n) →
        ∃ x' : Int, memberProp (submitAIData toLowerCase parseJSON jsonInput
          appData).appData.members j "xp" = JSValue.num x' ∧ bound ≤ x') ∧
      (0 ≤ s →
        (∀ aiData items e nm v p, parseJSON jsonInput = Except.ok aiData →
          aiData.get "members" = Except.ok (JSValue.arr items) → e ∈ items →
          e.get "name" = Except.ok nm →
          (memberProp appData.members j "name").strictEquals nm = true →
          e.get "newTotalStreak" = Except.ok v → parseInt v = Except.ok p →
          p.truthy = true → ∃ n : Int, p = JSValue.num n ∧ 0 ≤ n) →
        ∃ s' : Int, memberProp (submitAIData toLowerCase parseJSON jsonInput
          appData).appData.members j "streak" = JSValue.num s' ∧ 0 ≤ s') := by
  have horigin := submitAIData_closed toLowerCase parseJSON jsonInput appData j
    (fun val => val = JSValue.num x ∨ ∃ aiData items e nm v,
      parseJSON jsonInput = Except.ok aiData ∧
      aiData.get "members" = Except.ok (JSValue.arr items) ∧ e ∈ items ∧
      e.get "name" = Except.ok nm ∧
      (memberProp appData.members j "name").strictEquals nm = true ∧
      e.get "newTotalXP" = Except.ok v ∧ parseInt v = Except.ok val ∧ val.truthy = true)
    (fun val => val = JSValue.num s ∨ val = JSValue.num 0 ∨ ∃ aiData items e nm v,
      parseJSON jsonInput = Except.ok aiData ∧
      aiData.get "members" = Except.ok (JSValue.arr items) ∧ e ∈ items ∧
      e.get "name" = Except.ok nm ∧
      (memberProp appData.members j "name").strictEquals nm = true ∧
      e.get "newTotalStreak" = Except.ok v ∧ parseInt v = Except.ok val ∧ val.truthy = true)
    (Or.inl hx) (Or.inl hs) (Or.inr (Or.inl rfl))
    (fun aiData items e nm v p hp hm he hn heq hv hpi ht =>
      Or.inr ⟨aiData, items, e, nm, v, hp, hm, he, hn, heq, hv, hpi, ht⟩)
    (fun aiData items e nm v p hp hm he hn heq hv hpi ht =>
      Or.inr (Or.inr ⟨aiData, items, e, nm, v, hp, hm, he, hn, heq, hv, hpi, ht⟩))
  have hkind : ∀ v p, parseInt v = Except.ok p → p.truthy = true →
      (∃ n : Int, p = JSValue.num n) ∨ ∃ b, p = JSValue.infinity b := by
    intro v p hp ht
    rcases parseInt_cases v p hp with h | h | h
    · rw [h] at ht
      exact absurd ht (by decide)
    · exact Or.inl h
    · exact Or.inr h
  refine ⟨horigin.1, horigin.2, ?_, ?_, ?_, ?_⟩
  · rcases horigin.1 with h | ⟨_, _, _, _, v, _, _, _, _, _, _, hpi, ht⟩
    · exact Or.inl ⟨x, h⟩
    · exact hkind v _ hpi ht
  · rcases horigin.2 with h | h | ⟨_, _, _, _, v, _, _, _, _, _, _, hpi, ht⟩
    · exact Or.inl ⟨s, h⟩
    · exact Or.inl ⟨0, h⟩
    · exact hkind v _ hpi ht
  · intro bound hb hall
    rcases horigin.1 with h | ⟨aiData, items, e, nm, v, hp, hm, he, hn, heq, hv, hpi, ht⟩
    · exact ⟨x, h, hb⟩
    · exact hall aiData items e nm v _ hp hm he hn heq hv hpi ht
  · intro h0 hall
    rcases horigin.2 with h | h | ⟨aiData, items, e, nm, v, hp, hm, he, hn, heq, hv, hpi, ht⟩
    · exact ⟨s, h, h0⟩
    · exact ⟨0, h, Int.le_refl 0⟩
    · exact hall aiData items e nm v _ hp hm he hn heq hv hpi ht

/-- C14 as amended, at an instance: Ann has 100 XP and streak 3; after the
response of the end-to-end example her `xp` and `streak` are whole numbers or
infinities. -/
theorem C14_xp_streak_follow_response_witness :
    memberProp exampleState.members 0 "xp" = JSValue.num 100 ∧
      memberProp exampleState.members 0 "streak" = JSValue.num 3 ∧
      ((∃ x' : Int, memberProp (submitAIData asciiLower
          (fun _ => Except.ok (JSValue.obj [("members", JSValue.arr [exampleUpdate])]))
          "response" exampleState).appData.members 0 "xp" = JSValue.num x') ∨
        ∃ b, memberProp (submitAIData asciiLower
          (fun _ => Except.ok (JSValue.obj [("members", JSValue.arr [exampleUpdate])]))
          "response" exampleState).appData.members 0 "xp" = JSValue.infinity b) :=
  ⟨rfl, rfl,
    (C14_xp_streak_follow_response asciiLower
      (fun _ => Except.ok (JSValue.obj [("members", JSValue.arr [exampleUpdate])]))
      "response" exampleState 0 100 3 rfl rfl).2.2.1⟩

/-- C14 as stated fails, on a registry that holds Ann with 100 XP and streak 3.
First, a response whose entry for Ann supplies `newTotalXP: 50` and
`newTotalStreak: -2` is processed without an error and leaves her with 50 XP,
less than before, and with the negative streak -2.  Second, a response that
supplies as `newTotalXP` the numeral of `10 ^ 400` leaves her `xp` at
`Infinity`, which is not an integer.  Third, a response that supplies the
number `10 ^ 21`, whose text is `1e+21`, leaves her with 1 XP. -/
theorem C14_counterexample :
    memberProp exampleState.members 0 "xp" = JSValue.num 100 ∧
      memberProp exampleState.members 0 "streak" = JSValue.num 3 ∧
      (submitAIData asciiLower (fun _ => Except.ok responseLoweringAnn) "response"
        exampleState).status = Status.processed ∧
      memberProp (submitAIData asciiLower (fun _ => Except.ok responseLoweringAnn) "response"
        exampleState).appData.members 0 "xp" = JSValue.num 50 ∧
      memberProp (submitAIData asciiLower (fun _ => Except.ok responseLoweringAnn) "response"
        exampleState).appData.members 0 "streak" = JSValue.num (-2) ∧
      (50 : Int) < 100 ∧ (-2 : Int) < 0 ∧
      memberProp (submitAIData asciiLower (fun _ => Except.ok responseWithHugeXP) "response"
        exampleState).appData.members 0 "xp" = JSValue.infinity false ∧
      memberProp (submitAIData asciiLower (fun _ => Except.ok responseWithExponentXP)
        "response" exampleState).appData.members 0 "xp" = JSValue.num 1 := by
  refine ⟨rfl, rfl, rfl, rfl, rfl, by decide, by decide, ?_, rfl⟩
  have hsub : (submitAIData asciiLower (fun _ => Except.ok responseWithHugeXP) "response"
      exampleState).appData.members =
      (forEachEntry asciiLower [updateForAnn [("newTotalXP", JSValue.str hugeNumeral)]]
        exampleState.members).members := rfl
  rw [hsub, forEachEntry_single,
    mergeEntry_xp asciiLower exampleState.members
      (updateForAnn [("newTotalXP", JSValue.str hugeNumeral)]) 0 (JSValue.str hugeNumeral)
      (JSValue.infinity false) rfl rfl parseInt_hugeNumeral]
  rfl

/-! ## The intention round -/

theorem strictEquals_str (a : JSValue) (s : String) :
    a.strictEquals (JSValue.str s) = true ↔ a = JSValue.str s := by
  cases a <;> simp [JSValue.strictEquals]

theorem findMember_name (members : List JSObject) (s : String) (md : JSObject)
    (h : findMember members (JSValue.str s) = some md) :
    md ∈ members ∧ getProp md "name" = JSValue.str s := by
  unfold findMember at h
  have hp := List.find?_some h
  exact ⟨List.mem_of_find?_eq_some h, (strictEquals_str _ _).mp hp⟩

theorem findMember_of_mem (members : List JSObject) (s : String)
    (h : JSValue.str s ∈ members.map (fun m => getProp m "name")) :
    ∃ md, findMember members (JSValue.str s) = some md := by
  rcases Option.eq_none_or_eq_some (findMember members (JSValue.str s)) with hnone | hsome
  · exfalso
    unfold findMember at hnone
    rw [List.find?_eq_none] at hnone
    rw [List.mem_map] at h
    obtain ⟨m, hm, hname⟩ := h
    exact hnone m hm ((strictEquals_str _ _).mpr hname)
  · exact hsome

theorem callOrder_names (random : Nat → RandomDraw) (presentMemberNames : List String)
    (appData : AppState) (session : CallSession) :
    ∀ m ∈ (finalizeAttendance random presentMemberNames appData session).callOrder,
      ∃ s, getProp m "name" = JSValue.str s ∧
        JSValue.str s ∈ appData.members.map (fun m => getProp m "name") := by
  intro m hm
  have hperm := shuffleArray_perm random
    ((appData.members.filter
      (fun m => includesName presentMemberNames (getProp m "name"))).map
      (fun m => spreadInto [] (JSValue.obj m)))
  have hm' := (hperm.mem_iff).mp hm
  rw [List.mem_map] at hm'
  obtain ⟨m0, hm0, rfl⟩ := hm'
  rw [getProp_spread_copy]
  obtain ⟨s, hs, _⟩ := (includesName_iff _ _).mp (List.mem_filter.mp hm0).2
  exact ⟨s, hs, List.mem_map.mpr ⟨m0, (List.mem_filter.mp hm0).1, hs⟩⟩

theorem readText_tick_ne (timerId id : String) (r : Int) (page : Page) (hne : timerId ≠ id) :
    readText (tick timerId r page).1.content id = readText page.content id := by
  unfold tick
  split <;> simp [Page.write, clearInterval, readText, hne]

theorem readText_startTimer_ne (timerId id : String) (seconds : Int) (page : Page)
    (hne : timerId ≠ id) :
    readText (startTimer timerId seconds page).content id = readText page.content id := by
  unfold startTimer
  split
  · show readText (tick timerId seconds
      (clearInterval (readHandle page.activeTimers timerId) page)).1.content id = _
    rw [readText_tick_ne _ _ _ _ hne]
    rfl
  · rfl

theorem textContentOf_str (s : String) : textContentOf (JSValue.str s) = Except.ok s := by
  rfl

/-- One call of `nextIntention` while the cursor is inside `callOrder`, when the
member at the cursor has the string `s` as name, the registry has a member of
that name and the conversions of its avatar, XP and streak return. -/
theorem nextIntention_presents (hotseatHTML : JSObject → Except String String)
    (appData : AppState) (session : CallSession) (page : Page) (m md : JSObject)
    (s a st : String)
    (hm : session.callOrder[session.currentIntentionIndex]? = some m)
    (hs : getProp m "name" = JSValue.str s)
    (hfind : findMember appData.members (JSValue.str s) = some md)
    (ha : srcOf (getProp md "avatar") = Except.ok a)
    (hst : intentionStats md = Except.ok st) :
    nextIntention hotseatHTML appData session page =
      { session := { session with currentIntentionIndex := session.currentIntentionIndex + 1 }
        page := startTimer "intention-timer" 120 (navigate "intention"
          (((page.write "intention-name" s).write "intention-avatar" a).write
            "intention-stats" st))
        thrown := none } := by
  have hlt : ¬ session.currentIntentionIndex ≥ session.callOrder.length := by
    intro hge
    rw [List.getElem?_eq_none hge] at hm
    exact Option.noConfusion hm
  have hname : textContentOf (getProp md "name") = Except.ok s := by
    rw [(findMember_name _ _ _ hfind).2]
    rfl
  unfold nextIntention
  rw [if_neg hlt]
  simp only [hm, hs, hfind, hname, ha, hst]

theorem readText_presented (page : Page) (s a st : String) :
    readText (startTimer "intention-timer" 120 (navigate "intention"
      (((page.write "intention-name" s).write "intention-avatar" a).write
        "intention-stats" st))).content "intention-name" = some s := by
  rw [readText_startTimer_ne _ _ _ _ (by decide)]
  simp [navigate, Page.write, readText]

/-- The first `k` calls of `nextIntention`, for `k` up to the length of
`callOrder`: none throws, the cursor is at `k` and `callOrder` is as before. -/
theorem intentionCalls_prefix (hotseatHTML : JSObject → Except String String)
    (appData : AppState) (session : CallSession) (page : Page)
    (hcursor : session.currentIntentionIndex = 0)
    (hall : ∀ m ∈ session.callOrder, ∃ s md a st, getProp m "name" = JSValue.str s ∧
      findMember appData.members (JSValue.str s) = some md ∧
      srcOf (getProp md "avatar") = Except.ok a ∧ intentionStats md = Except.ok st)
    (k : Nat) (hk : k ≤ session.callOrder.length) :
    (intentionCalls hotseatHTML appData k session page).thrown = none ∧
      (intentionCalls hotseatHTML appData k session page).session =
        { session with currentIntentionIndex := k } ∧
      (1 ≤ k → ∃ m s, session.callOrder[k - 1]? = some m ∧ getProp m "name" = JSValue.str s ∧
        readText (intentionCalls hotseatHTML appData k session page).page.content
          "intention-name" = some s) := by
  induction k with
  | zero =>
    refine ⟨rfl, ?_, fun h => absurd h (by decide)⟩
    show session = { session with currentIntentionIndex := 0 }
    rw [← hcursor]
  | succ k ih =>
    obtain ⟨_, hsess, _⟩ := ih (Nat.le_of_succ_le hk)
    have hlt : k < session.callOrder.length := hk
    have hget : session.callOrder[k]? = some (session.callOrder[k]) :=
      List.getElem?_eq_getElem hlt
    obtain ⟨s, md, a, st, hs, hfind, ha, hst⟩ :=
      hall (session.callOrder[k]) (List.getElem_mem hlt)
    have hstep := nextIntention_presents hotseatHTML appData
      (intentionCalls hotseatHTML appData k session page).session
      (intentionCalls hotseatHTML appData k session page).page
      (session.callOrder[k]) md s a st (by rw [hsess]; exact hget) hs hfind ha hst
    have hunfold : intentionCalls hotseatHTML appData (k + 1) session page =
        nextIntention hotseatHTML appData
          (intentionCalls hotseatHTML appData k session page).session
          (intentionCalls hotseatHTML appData k session page).page := rfl
    rw [hunfold, hstep]
    refine ⟨rfl, ?_, fun _ => ⟨session.callOrder[k], s, hget, hs, readText_presented _ _ _ _⟩⟩
    rw [hsess]

theorem readText_nextHotSeat (hotseatHTML : JSObject → Except String String)
    (appData : AppState) (session : CallSession) (page : Page) :
    readText (nextHotSeat hotseatHTML appData session page).page.content "intention-name" =
        readText page.content "intention-name" ∧
      (nextHotSeat hotseatHTML appData session page).session.currentIntentionIndex =
        session.currentIntentionIndex ∧
      (nextHotSeat hotseatHTML appData session page).session.callOrder = session.callOrder := by
  unfold nextHotSeat
  split
  · refine ⟨?_, rfl, rfl⟩
    show readText (startTimer "wrapup-timer" 300 (navigate "wrapup" page)).content _ = _
    rw [readText_startTimer_ne _ _ _ _ (by decide)]
    rfl
  · split
    · exact ⟨rfl, rfl, rfl⟩
    · split
      · exact ⟨rfl, rfl, rfl⟩
      · split
        · exact ⟨rfl, rfl, rfl⟩
        · split
          · refine ⟨?_, rfl, rfl⟩
            simp [Page.write, readText]
          · split
            · refine ⟨?_, rfl, rfl⟩
              simp [Page.write, readText]
            · refine ⟨?_, rfl, rfl⟩
              show readText (startTimer "hotseat-timer" 300 _).content _ = _
              rw [readText_startTimer_ne _ _ _ _ (by decide)]
              simp [navigate, Page.write, readText]

/-- C12. Let `session` be the globals left by `finalizeAttendance` on a registry
`appData` when the intention cursor was 0, with `n` the length of its
`callOrder`, and let `current` be the registry at the time of the calls, whose
names are those of `appData` in the same order and whose members have an
avatar, an XP and a streak that convert to a string.  Then for every `k` from 1
to `n` the `k`-th call of `nextIntention` returns without an error, leaves the
intention cursor at `k` and `callOrder` as it was, and the element
`intention-name` shows the name of `callOrder[k-1]`.  The call number `n + 1` is
the call of `nextHotSeat` on the globals with the hot-seat cursor 0: it leaves
the intention cursor at `n` and the text of `intention-name` as it was. -/
theorem C12_intention_round_in_call_order (hotseatHTML : JSObject → Except String String)
    (random : Nat → RandomDraw) (presentMemberNames : List String)
    (appData current : AppState) (start session : CallSession) (page : Page)
    (hfin : session = finalizeAttendance random presentMemberNames appData start)
    (hcursor : start.currentIntentionIndex = 0)
    (hnames : current.members.map (fun m => getProp m "name") =
      appData.members.map (fun m => getProp m "name"))
    (hconv : ∀ m ∈ current.members, (∃ a, srcOf (getProp m "avatar") = Except.ok a) ∧
      ∃ st, intentionStats m = Except.ok st) :
    (∀ k, 1 ≤ k → k ≤ session.callOrder.length →
      (intentionCalls hotseatHTML current k session page).thrown = none ∧
      (intentionCalls hotseatHTML current k session page).session.currentIntentionIndex = k ∧
      (intentionCalls hotseatHTML current k session page).session.callOrder =
        session.callOrder ∧
      ∃ m s, session.callOrder[k - 1]? = some m ∧ getProp m "name" = JSValue.str s ∧
        readText (intentionCalls hotseatHTML current k session page).page.content
          "intention-name" = some s) ∧
      intentionCalls hotseatHTML current (session.callOrder.length + 1) session page =
        nextHotSeat hotseatHTML current
          { callOrder := session.callOrder, currentHotseatIndex := 0,
            currentIntentionIndex := session.callOrder.length }
          (intentionCalls hotseatHTML current session.callOrder.length session page).page ∧
      (intentionCalls hotseatHTML current (session.callOrder.length + 1) session
        page).session.currentIntentionIndex = session.callOrder.length ∧
      readText (intentionCalls hotseatHTML current (session.callOrder.length + 1) session
        page).page.content "intention-name" =
        readText (intentionCalls hotseatHTML current session.callOrder.length session
          page).page.content "intention-name" := by
  have hcur : session.currentIntentionIndex = 0 := by
    rw [hfin]
    exact hcursor
  have hall : ∀ m ∈ session.callOrder, ∃ s md a st, getProp m "name" = JSValue.str s ∧
      findMember current.members (JSValue.str s) = some md ∧
      srcOf (getProp md "avatar") = Except.ok a ∧ intentionStats md = Except.ok st := by
    intro m hm
    rw [hfin] at hm
    obtain ⟨s, hs, hmem⟩ := callOrder_names random presentMemberNames appData start m hm
    rw [← hnames] at hmem
    obtain ⟨md, hfind⟩ := findMember_of_mem current.members s hmem
    obtain ⟨⟨a, ha⟩, ⟨st, hst⟩⟩ := hconv md (findMember_name _ _ _ hfind).1
    exact ⟨s, md, a, st, hs, hfind, ha, hst⟩
  have hlast := intentionCalls_prefix hotseatHTML current session page hcur hall
    session.callOrder.length (Nat.le_refl _)
  have hnext : intentionCalls hotseatHTML current (session.callOrder.length + 1) session page =
      nextHotSeat hotseatHTML current
        { callOrder := session.callOrder, currentHotseatIndex := 0,
          currentIntentionIndex := session.callOrder.length }
        (intentionCalls hotseatHTML current session.callOrder.length session page).page := by
    have hunfold : intentionCalls hotseatHTML current (session.callOrder.length + 1) session
        page = nextIntention hotseatHTML current
          (intentionCalls hotseatHTML current session.callOrder.length session page).session
          (intentionCalls hotseatHTML current session.callOrder.length session page).page :=
      rfl
    rw [hunfold, hlast.2.1]
    unfold nextIntention
    rw [if_pos (Nat.le_refl _)]
  refine ⟨?_, hnext, ?_, ?_⟩
  · intro k hk1 hkn
    have hk := intentionCalls_prefix hotseatHTML current session page hcur hall k hkn
    refine ⟨hk.1, ?_, ?_, hk.2.2 hk1⟩
    · rw [hk.2.1]
    · rw [hk.2.1]
  · rw [hnext]
    exact (readText_nextHotSeat _ _ _ _).2.1
  · rw [hnext]
    exact (readText_nextHotSeat _ _ _ _).1

/-- C12 at the example of a registry of three with two present.  Of Ann, Bob
and Cy the boxes of Ann and Cy are checked, and every random draw is 0, so
`callOrder` is Cy, Ann.  The first two calls of `nextIntention` leave the cursor
at 1 and 2 and show Cy, then Ann; the third call shows the section `hotseat`
with Cy in the hot seat and the hot-seat cursor at 1. -/
theorem C12_intention_round_in_call_order_witness :
    (finalizeAttendance alwaysZero ["Ann", "Cy"] stateOfThree sessionAtStart).callOrder.length
        = 2 ∧
      (∀ k, 1 ≤ k →
        k ≤ (finalizeAttendance alwaysZero ["Ann", "Cy"] stateOfThree
          sessionAtStart).callOrder.length →
        (intentionCalls (fun _ => Except.ok "details") stateOfThree k
          (finalizeAttendance alwaysZero ["Ann", "Cy"] stateOfThree sessionAtStart)
          examplePage).session.currentIntentionIndex = k) ∧
      readText (intentionCalls (fun _ => Except.ok "details") stateOfThree 1
        (finalizeAttendance alwaysZero ["Ann", "Cy"] stateOfThree sessionAtStart)
        examplePage).page.content "intention-name" = some "Cy" ∧
      readText (intentionCalls (fun _ => Except.ok "details") stateOfThree 2
        (finalizeAttendance alwaysZero ["Ann", "Cy"] stateOfThree sessionAtStart)
        examplePage).page.content "intention-name" = some "Ann" ∧
      (intentionCalls (fun _ => Except.ok "details") stateOfThree 3
        (finalizeAttendance alwaysZero ["Ann", "Cy"] stateOfThree sessionAtStart)
        examplePage).page.visible = some "hotseat" ∧
      (intentionCalls (fun _ => Except.ok "details") stateOfThree 3
        (finalizeAttendance alwaysZero ["Ann", "Cy"] stateOfThree sessionAtStart)
        examplePage).session.currentHotseatIndex = 1 ∧
      readText (intentionCalls (fun _ => Except.ok "details") stateOfThree 3
        (finalizeAttendance alwaysZero ["Ann", "Cy"] stateOfThree sessionAtStart)
        examplePage).page.content "hotseat-name" = some "Cy" :=
  ⟨rfl,
    fun k hk1 hkn =>
      ((C12_intention_round_in_call_order (fun _ => Except.ok "details") alwaysZero
        ["Ann", "Cy"] stateOfThree stateOfThree sessionAtStart
        (finalizeAttendance alwaysZero ["Ann", "Cy"] stateOfThree sessionAtStart) examplePage
        rfl rfl rfl
        (by
          intro m hm
          simp only [stateOfThree, List.mem_cons, List.mem_singleton, List.not_mem_nil,
            or_false] at hm
          rcases hm with rfl | rfl | rfl <;> exact ⟨⟨_, rfl⟩, ⟨_, rfl⟩⟩)).1 k hk1 hkn).2.1,
    rfl, rfl, rfl, rfl, rfl⟩

end AccountabilityPod
